import Mathlib

/- Verification of the route reconciliation engine of
   pkg/virtualrouter/routes_manager.go (aws-app-mesh-controller-for-k8s).

   The Go source is shallowly embedded: Go maps become association lists
   with overwrite-on-insert, the k8s.io sets.String type becomes a
   duplicate-free string list whose List() is a sorted list, and the AppMesh
   SDK client (an external collaborator, spec section 6) becomes an explicit
   cloud-state model with an injected-failure schedule.  Every remote call
   issued by the manager is recorded in an event trace so that call-counting
   properties can be stated. -/

namespace AppMeshRoutes

/-- Association-list insert with overwrite, modelling assignment into a Go map. -/
def mapInsert {κ α : Type} [DecidableEq κ] (k : κ) (v : α) : List (κ × α) → List (κ × α)
  | [] => [(k, v)]
  | (k', v') :: rest => if k' = k then (k, v) :: rest else (k', v') :: mapInsert k v rest

/-- Association-list lookup, modelling indexing into a Go map. -/
def mapLookup {κ α : Type} [DecidableEq κ] (k : κ) : List (κ × α) → Option α
  | [] => none
  | (k', v) :: rest => if k' = k then some v else mapLookup k rest

/-- Association-list removal, modelling delete() on a Go map. -/
def mapRemove {κ α : Type} [DecidableEq κ] (k : κ) (m : List (κ × α)) : List (κ × α) :=
  m.filter (fun p => decide (p.1 ≠ k))

/-- The keys of an association list. -/
def keysOf {κ α : Type} (m : List (κ × α)) : List κ := m.map Prod.fst

/-- Building a Go map by ranging over a slice and assigning key(x) := val(x),
as in the `for _, x := range l` loops of the source. -/
def buildMap {κ α β : Type} [DecidableEq κ] (key : α → κ) (val : α → β) (l : List α) :
    List (κ × β) :=
  l.foldl (fun m x => mapInsert (key x) (val x) m) []

theorem lookup_mapInsert_self {κ α : Type} [DecidableEq κ] (k : κ) (v : α)
    (m : List (κ × α)) : mapLookup k (mapInsert k v m) = some v := by
  induction m with
  | nil => simp [mapInsert, mapLookup]
  | cons p t ih =>
    rcases p with ⟨k', v'⟩
    by_cases h : k' = k
    · simp [mapInsert, h, mapLookup]
    · simp [mapInsert, h, mapLookup, ih]

theorem lookup_mapInsert_ne {κ α : Type} [DecidableEq κ] {n k : κ} (v : α)
    (m : List (κ × α)) (h : n ≠ k) : mapLookup n (mapInsert k v m) = mapLookup n m := by
  induction m with
  | nil => simp [mapInsert, mapLookup, Ne.symm h]
  | cons p t ih =>
    rcases p with ⟨k', v'⟩
    by_cases hk : k' = k
    · subst hk
      simp [mapInsert, mapLookup, Ne.symm h]
    · by_cases hn : k' = n
      · subst hn
        simp [mapInsert, mapLookup, hk]
      · simp [mapInsert, hk, mapLookup, hn, ih]

theorem mem_keysOf_mapInsert {κ α : Type} [DecidableEq κ] (n k : κ) (v : α)
    (m : List (κ × α)) : n ∈ keysOf (mapInsert k v m) ↔ n = k ∨ n ∈ keysOf m := by
  induction m with
  | nil => simp [mapInsert, keysOf]
  | cons p t ih =>
    rcases p with ⟨k', v'⟩
    by_cases h : k' = k
    · subst h
      simp [mapInsert, keysOf]
    · simp [mapInsert, h, keysOf] at ih ⊢
      tauto

theorem lookup_isSome_iff_mem_keysOf {κ α : Type} [DecidableEq κ] (n : κ)
    (m : List (κ × α)) : (mapLookup n m).isSome = true ↔ n ∈ keysOf m := by
  induction m with
  | nil => simp [mapLookup, keysOf]
  | cons p t ih =>
    rcases p with ⟨k', v'⟩
    by_cases h : k' = n
    · simp [mapLookup, h, keysOf]
    · simp [mapLookup, h, keysOf, ih, Ne.symm h]

theorem lookup_eq_none_iff_not_mem_keysOf {κ α : Type} [DecidableEq κ] (n : κ)
    (m : List (κ × α)) : mapLookup n m = none ↔ n ∉ keysOf m := by
  rw [← lookup_isSome_iff_mem_keysOf]
  cases h : mapLookup n m <;> simp [h]

theorem nodup_keysOf_mapInsert {κ α : Type} [DecidableEq κ] (k : κ) (v : α)
    {m : List (κ × α)} (h : (keysOf m).Nodup) : (keysOf (mapInsert k v m)).Nodup := by
  induction m with
  | nil => simp [mapInsert, keysOf]
  | cons p t ih =>
    rcases p with ⟨k', v'⟩
    simp only [keysOf, List.map_cons, List.nodup_cons] at h
    by_cases hk : k' = k
    · subst hk
      simpa [mapInsert, keysOf] using h
    · have ht := ih h.2
      simp only [mapInsert, hk, if_false, keysOf, List.map_cons, List.nodup_cons]
      refine ⟨?_, ht⟩
      intro hmem
      rcases (mem_keysOf_mapInsert k' k v t).mp hmem with h1 | h2
      · exact hk h1
      · exact h.1 h2

theorem lookup_mem_of_eq_some {κ α : Type} [DecidableEq κ] {n : κ} {v : α}
    {m : List (κ × α)} (h : mapLookup n m = some v) : (n, v) ∈ m := by
  induction m with
  | nil => simp [mapLookup] at h
  | cons p t ih =>
    rcases p with ⟨k', v'⟩
    by_cases hk : k' = n
    · subst hk
      simp [mapLookup] at h
      simp [h]
    · simp [mapLookup, hk] at h
      simp [ih h]

theorem lookup_mapRemove_self {κ α : Type} [DecidableEq κ] (k : κ)
    (m : List (κ × α)) : mapLookup k (mapRemove k m) = none := by
  induction m with
  | nil => simp [mapRemove, mapLookup]
  | cons p t ih =>
    rcases p with ⟨k', v'⟩
    simp only [mapRemove, List.filter_cons] at ih ⊢
    by_cases hk : k' = k
    · simpa [hk] using ih
    · simpa [hk, mapLookup] using ih

theorem lookup_mapRemove_ne {κ α : Type} [DecidableEq κ] {n k : κ}
    (m : List (κ × α)) (h : n ≠ k) : mapLookup n (mapRemove k m) = mapLookup n m := by
  induction m with
  | nil => simp [mapRemove, mapLookup]
  | cons p t ih =>
    rcases p with ⟨k', v'⟩
    simp only [mapRemove, List.filter_cons] at ih ⊢
    by_cases hk : k' = k
    · subst hk
      simpa [mapLookup, Ne.symm h] using ih
    · by_cases hn : k' = n
      · subst hn
        simp [mapLookup, hk]
      · simpa [mapLookup, hk, hn] using ih

theorem mem_keysOf_mapRemove {κ α : Type} [DecidableEq κ] (n k : κ)
    (m : List (κ × α)) : n ∈ keysOf (mapRemove k m) ↔ n ∈ keysOf m ∧ n ≠ k := by
  simp only [keysOf, mapRemove, List.mem_map, List.mem_filter]
  constructor
  · rintro ⟨p, ⟨hp, hdec⟩, rfl⟩
    exact ⟨⟨p, hp, rfl⟩, by simpa using hdec⟩
  · rintro ⟨⟨p, hp, rfl⟩, hne⟩
    exact ⟨p, ⟨hp, by simpa using hne⟩, rfl⟩

theorem nodup_keysOf_mapRemove {κ α : Type} [DecidableEq κ] (k : κ)
    {m : List (κ × α)} (h : (keysOf m).Nodup) : (keysOf (mapRemove k m)).Nodup :=
  List.Nodup.sublist (List.Sublist.map Prod.fst (List.filter_sublist m)) h

theorem lookup_foldl_insert_not_mem {κ α β : Type} [DecidableEq κ] (key : α → κ)
    (val : α → β) (l : List α) (m : List (κ × β)) (n : κ) (h : n ∉ l.map key) :
    mapLookup n (l.foldl (fun m x => mapInsert (key x) (val x) m) m) = mapLookup n m := by
  induction l generalizing m with
  | nil => simp
  | cons x t ih =>
    simp only [List.map_cons, List.mem_cons, not_or] at h
    simp only [List.foldl_cons]
    rw [ih (mapInsert (key x) (val x) m) h.2, lookup_mapInsert_ne _ _ h.1]

theorem lookup_foldl_insert_mem {κ α β : Type} [DecidableEq κ] (key : α → κ)
    (val : α → β) (l : List α) (m : List (κ × β)) (n : κ) (h : n ∈ l.map key) :
    ∃ x ∈ l, key x = n ∧
      mapLookup n (l.foldl (fun m x => mapInsert (key x) (val x) m) m) = some (val x) := by
  induction l generalizing m with
  | nil => simp at h
  | cons x t ih =>
    by_cases ht : n ∈ t.map key
    · rcases ih (mapInsert (key x) (val x) m) ht with ⟨y, hy, hkey, hlook⟩
      exact ⟨y, List.mem_cons_of_mem _ hy, hkey, by simpa using hlook⟩
    · simp only [List.map_cons, List.mem_cons] at h
      rcases h with h | h
      · refine ⟨x, List.mem_cons_self _ _, h.symm, ?_⟩
        simp only [List.foldl_cons]
        rw [lookup_foldl_insert_not_mem key val t _ n ht, h, lookup_mapInsert_self]
      · exact absurd h ht

theorem lookup_buildMap_of_nodup {κ α β : Type} [DecidableEq κ] (key : α → κ)
    (val : α → β) {l : List α} (hnd : (l.map key).Nodup) {x : α} (hx : x ∈ l) :
    mapLookup (key x) (buildMap key val l) = some (val x) := by
  induction l with
  | nil => simp at hx
  | cons y t ih =>
    simp only [List.map_cons, List.nodup_cons] at hnd
    rcases List.mem_cons.mp hx with rfl | hx'
    · show mapLookup (key x) (t.foldl _ (mapInsert (key x) (val x) [])) = some (val x)
      rw [lookup_foldl_insert_not_mem key val t _ (key x) hnd.1, lookup_mapInsert_self]
    · have step : buildMap key val (y :: t) =
          t.foldl (fun m z => mapInsert (key z) (val z) m) (mapInsert (key y) (val y) []) := rfl
      rw [step]
      by_cases hmem : key x ∈ t.map key
      · rcases lookup_foldl_insert_mem key val t (mapInsert (key y) (val y) []) (key x) hmem
          with ⟨z, hz, hkz, hlz⟩
        have hzx : z = x := by
          by_contra hne
          have : t.map key ≠ [] := by
            intro hnil
            simp [hnil] at hmem
          -- key is injective on t by nodup, so z = x
          have := List.inj_on_of_nodup_map hnd.2 hz hx' hkz
          exact hne this
        rw [hzx] at hlz
        exact hlz
      · exact absurd (List.mem_map_of_mem key hx') hmem

theorem mem_keysOf_buildMap {κ α β : Type} [DecidableEq κ] (key : α → κ)
    (val : α → β) (l : List α) (n : κ) :
    n ∈ keysOf (buildMap key val l) ↔ n ∈ l.map key := by
  constructor
  · intro h
    by_contra hn
    have h0 : mapLookup n (buildMap key val l) = none := by
      simpa [mapLookup, buildMap] using lookup_foldl_insert_not_mem key val l [] n hn
    rw [lookup_eq_none_iff_not_mem_keysOf] at h0
    exact h0 h
  · intro h
    rcases lookup_foldl_insert_mem key val l [] n h with ⟨x, _, _, hlook⟩
    rw [← lookup_isSome_iff_mem_keysOf]
    simp [buildMap] at hlook ⊢
    rw [hlook]
    rfl

theorem lookup_buildMap_some {κ α β : Type} [DecidableEq κ] (key : α → κ)
    (val : α → β) (l : List α) (n : κ) (v : β)
    (h : mapLookup n (buildMap key val l) = some v) :
    ∃ x ∈ l, key x = n ∧ val x = v := by
  have hmem : n ∈ keysOf (buildMap key val l) := by
    rw [← lookup_isSome_iff_mem_keysOf, h]
    rfl
  rcases lookup_foldl_insert_mem key val l [] n ((mem_keysOf_buildMap key val l n).mp hmem)
    with ⟨x, hx, hkey, hlook⟩
  have : some (val x) = some v := by rw [← hlook]; exact h.symm ▸ rfl
  exact ⟨x, hx, hkey, Option.some.inj this⟩

theorem nodup_keysOf_buildMap {κ α β : Type} [DecidableEq κ] (key : α → κ)
    (val : α → β) (l : List α) : (keysOf (buildMap key val l)).Nodup := by
  have gen : ∀ (m : List (κ × β)), (keysOf m).Nodup →
      (keysOf (l.foldl (fun m x => mapInsert (key x) (val x) m) m)).Nodup := by
    induction l with
    | nil => intro m hm; simpa using hm
    | cons x t ih =>
      intro m hm
      simp only [List.foldl_cons]
      exact ih _ (nodup_keysOf_mapInsert _ _ hm)
  exact gen [] (by simp [keysOf])

/-- Intersection of two string sets (sets.String.Intersection); the sets are
represented as duplicate-free lists of their members. -/
def setInter (s t : List String) : List String := s.filter (fun n => decide (n ∈ t))

/-- Difference of two string sets (sets.String.Difference). -/
def setDiff (s t : List String) : List String := s.filter (fun n => decide (n ∉ t))

/-- Insertion into a string set (sets.String.Insert). -/
def setInsertStr (n : String) (s : List String) : List String :=
  if n ∈ s then s else s ++ [n]

/-- Byte-order comparison on char lists, standing in for Go's string ordering
(identical on the ASCII names used here); written from scratch so that it
reduces inside the kernel. -/
def charListLe : List Char → List Char → Bool
  | [], _ => true
  | _ :: _, [] => false
  | a :: as, b :: bs =>
    if a.val.toNat < b.val.toNat then true
    else if b.val.toNat < a.val.toNat then false
    else charListLe as bs

/-- String comparison used to model the sorted order of sets.String.List(). -/
def strLeB (a b : String) : Bool := charListLe a.data b.data

/-- One step of insertion sort. -/
def insertSorted (n : String) : List String → List String
  | [] => [n]
  | m :: rest => if strLeB n m then n :: m :: rest else m :: insertSorted n rest

/-- sets.String.List() returns the members in sorted order; modelled by an
insertion sort (kernel-reducible, unlike the library sorts). -/
def sortStrings (l : List String) : List String := l.foldr insertSorted []

theorem mem_setInter (s t : List String) (n : String) :
    n ∈ setInter s t ↔ n ∈ s ∧ n ∈ t := by
  simp [setInter, List.mem_filter]

theorem mem_setDiff (s t : List String) (n : String) :
    n ∈ setDiff s t ↔ n ∈ s ∧ n ∉ t := by
  simp [setDiff, List.mem_filter]

theorem nodup_setInter {s : List String} (t : List String) (h : s.Nodup) :
    (setInter s t).Nodup := h.filter _

theorem nodup_setDiff {s : List String} (t : List String) (h : s.Nodup) :
    (setDiff s t).Nodup := h.filter _

theorem mem_setInsertStr (k n : String) (s : List String) :
    n ∈ setInsertStr k s ↔ n = k ∨ n ∈ s := by
  by_cases h : k ∈ s
  · simp only [setInsertStr, if_pos h]
    constructor
    · exact Or.inr
    · rintro (rfl | hn)
      · exact h
      · exact hn
  · simp [setInsertStr, if_neg h, or_comm]

theorem nodup_setInsertStr (k : String) {s : List String} (h : s.Nodup) :
    (setInsertStr k s).Nodup := by
  by_cases hk : k ∈ s
  · simpa [setInsertStr, hk] using h
  · simp only [setInsertStr, if_neg hk]
    simpa [List.nodup_append] using ⟨h, fun hmem => hk hmem⟩

theorem insertSorted_perm (n : String) (l : List String) :
    (insertSorted n l).Perm (n :: l) := by
  induction l with
  | nil => simp [insertSorted]
  | cons m rest ih =>
    simp only [insertSorted]
    by_cases h : strLeB n m = true
    · simp [h]
    · simp only [h, if_false]
      exact (ih.cons m).trans (List.Perm.swap n m rest)

theorem sortStrings_perm (l : List String) : (sortStrings l).Perm l := by
  induction l with
  | nil => simp [sortStrings]
  | cons x t ih =>
    have : sortStrings (x :: t) = insertSorted x (sortStrings t) := rfl
    rw [this]
    exact (insertSorted_perm x (sortStrings t)).trans (ih.cons x)

theorem mem_sortStrings (l : List String) (n : String) :
    n ∈ sortStrings l ↔ n ∈ l :=
  (sortStrings_perm l).mem_iff

theorem nodup_sortStrings {l : List String} (h : l.Nodup) : (sortStrings l).Nodup :=
  (sortStrings_perm l).nodup_iff.mpr h

/- ===== Data model =====
   The CRD types (apis/appmesh/v1beta2) and the AppMesh SDK types are
   declared outside src/ (only pkg/virtualrouter/routes_manager.go is given);
   they are modelled from the spec's data model (section 3) together with the
   field accesses visible in routes_manager.go.  Go pointer fields become
   Option, int64 becomes Int. -/

/-- Modelled from the spec: the symbolic backend identity (namespace plus name
of a logical node, spec section 3 BackendResolutionTable). -/
structure NamespacedName where
  ns : String
  name : String
  deriving DecidableEq, Repr

/-- Modelled from the spec: a resolved backend node carrying its remote
identifier string. -/
structure VirtualNode where
  awsName : String
  deriving DecidableEq, Repr

/-- Modelled from the spec: one weighted backend target of a route action,
referencing a backend node symbolically. -/
structure WeightedTarget where
  virtualNodeRef : NamespacedName
  weight : Int
  deriving DecidableEq, Repr

/-- Modelled from the spec: the retry policy attached to an HTTP route; its
event list is the collection used by the empty-versus-absent example. -/
structure HTTPRetryPolicy where
  httpRetryEvents : List String
  maxRetries : Int
  deriving DecidableEq, Repr

/-- The match block of an HTTP (or HTTP2) route; only its optional port is
inspected by routes_manager.go. -/
structure HTTPRouteMatch where
  port : Option Int
  deriving DecidableEq, Repr

/-- An HTTP route variant (HTTP2 shares the shape); the Match field is a value
in the CRD, hence not optional here. -/
structure HTTPRoute where
  match_ : HTTPRouteMatch
  action : List WeightedTarget
  retryPolicy : Option HTTPRetryPolicy
  deriving DecidableEq, Repr

/-- The match block of a GRPC route. -/
structure GRPCRouteMatch where
  port : Option Int
  deriving DecidableEq, Repr

/-- A GRPC route variant; Match is a value field in the CRD. -/
structure GRPCRoute where
  match_ : GRPCRouteMatch
  action : List WeightedTarget
  deriving DecidableEq, Repr

/-- The match block of a TCP route. -/
structure TCPRouteMatch where
  port : Option Int
  deriving DecidableEq, Repr

/-- A TCP route variant; note the CRD declares Match as a pointer here
(routes_manager.go checks route.TCPRoute.Match != nil), hence Option. -/
structure TCPRoute where
  match_ : Option TCPRouteMatch
  action : List WeightedTarget
  deriving DecidableEq, Repr

/-- A desired route (CRD appmesh.Route): a name plus at most one variant per
protocol, exactly as the four pointer fields of the Go struct. -/
structure Route where
  name : String
  grpcRoute : Option GRPCRoute
  httpRoute : Option HTTPRoute
  http2Route : Option HTTPRoute
  tcpRoute : Option TCPRoute
  priority : Option Int
  deriving DecidableEq, Repr

/-- appmesh.PortProtocol is a string type in the CRD. -/
abbrev PortProtocol := String

/-- CRD constant PortProtocolTCP. -/
def PortProtocolTCP : PortProtocol := "tcp"

/-- CRD constant PortProtocolHTTP. -/
def PortProtocolHTTP : PortProtocol := "http"

/-- CRD constant PortProtocolHTTP2. -/
def PortProtocolHTTP2 : PortProtocol := "http2"

/-- CRD constant PortProtocolGRPC. -/
def PortProtocolGRPC : PortProtocol := "grpc"

/-- The mesh spec fields consumed by routes_manager.go. -/
structure MeshSpec where
  awsName : Option String
  meshOwner : Option String
  deriving DecidableEq, Repr

/-- CRD appmesh.Mesh, restricted to the fields used by routes_manager.go. -/
structure Mesh where
  spec : MeshSpec
  deriving DecidableEq, Repr

/-- The virtual router spec fields consumed by routes_manager.go. -/
structure VirtualRouterSpec where
  awsName : Option String
  routes : List Route
  deriving DecidableEq, Repr

/-- CRD appmesh.VirtualRouter, restricted to the fields used here. -/
structure VirtualRouter where
  spec : VirtualRouterSpec
  deriving DecidableEq, Repr

/-- appmeshsdk.RouteRef: the lightweight remote identity returned by listing. -/
structure RouteRef where
  meshName : Option String
  meshOwner : Option String
  virtualRouterName : Option String
  routeName : Option String
  deriving DecidableEq, Repr

/-- appmeshsdk.WeightedTarget with the backend already resolved to its remote
identifier string. -/
structure SDKWeightedTarget where
  virtualNode : String
  weight : Int
  deriving DecidableEq, Repr

/-- appmeshsdk.HttpRetryPolicy; both fields are pointers/slices in Go, so a
nil event slice (none) is distinct from an empty one (some []). -/
structure SDKHTTPRetryPolicy where
  httpRetryEvents : Option (List String)
  maxRetries : Option Int
  deriving DecidableEq, Repr

/-- appmeshsdk.HttpRoute, flattened to the fields the claims exercise: the
declared match port, the action's weighted targets, and the retry policy. -/
structure SDKHTTPRoute where
  matchPort : Option Int
  weightedTargets : Option (List SDKWeightedTarget)
  retryPolicy : Option SDKHTTPRetryPolicy
  deriving DecidableEq, Repr

/-- appmeshsdk.TcpRoute, flattened likewise. -/
structure SDKTCPRoute where
  matchPort : Option Int
  weightedTargets : Option (List SDKWeightedTarget)
  deriving DecidableEq, Repr

/-- appmeshsdk.GrpcRoute, flattened likewise. -/
structure SDKGRPCRoute where
  matchPort : Option Int
  weightedTargets : Option (List SDKWeightedTarget)
  deriving DecidableEq, Repr

/-- appmeshsdk.RouteSpec: one optional block per protocol plus the priority. -/
structure SDKRouteSpec where
  grpcRoute : Option SDKGRPCRoute
  httpRoute : Option SDKHTTPRoute
  http2Route : Option SDKHTTPRoute
  tcpRoute : Option SDKTCPRoute
  priority : Option Int
  deriving DecidableEq, Repr

/-- The metadata block of a remote resource (only MeshOwner is read). -/
structure ResourceMetadata where
  meshOwner : Option String
  deriving DecidableEq, Repr

/-- appmeshsdk.RouteData: the full remote route record fetched by describe. -/
structure RouteData where
  meshName : Option String
  metadata : ResourceMetadata
  routeName : Option String
  virtualRouterName : Option String
  spec : SDKRouteSpec
  deriving DecidableEq, Repr

/-- appmeshsdk.VirtualRouterListener's port mapping (port and protocol). -/
structure VirtualRouterListenerPortMapping where
  port : Option Int
  protocol : Option String
  deriving DecidableEq, Repr

/-- appmeshsdk.VirtualRouterListener. -/
structure SDKVirtualRouterListener where
  portMapping : VirtualRouterListenerPortMapping
  deriving DecidableEq, Repr

/-- appmeshsdk.VirtualRouterSpec (remote side), holding the listener list. -/
structure SDKVirtualRouterSpec where
  listeners : List SDKVirtualRouterListener
  deriving DecidableEq, Repr

/-- appmeshsdk.VirtualRouterData, restricted to the spec block read here. -/
structure VirtualRouterData where
  spec : SDKVirtualRouterSpec
  deriving DecidableEq, Repr

/-- aws.StringValue: dereference an optional string, nil becoming "". -/
def stringValue (o : Option String) : String := o.getD ""

/-- aws.Int64Value: dereference an optional int64, nil becoming 0. -/
def int64Value (o : Option Int) : Int := o.getD 0

/-- The name carried by an observed route ref, as routes_manager.go reads it
(aws.StringValue(sdkRouteRef.RouteName)). -/
def refName (ref : RouteRef) : String := stringValue ref.routeName

/- ===== Spec builder ===== -/

/-- Modelled from the spec: resolution of one symbolic backend reference
through the BackendResolutionTable (spec section 4.3); the referenced pkg
references/pkg conversions code is not under src/.  A missing table entry is
a dangling reference and fails with a conversion error. -/
def convertTargets (vnByKey : List (NamespacedName × VirtualNode)) :
    List WeightedTarget → Except String (List SDKWeightedTarget)
  | [] => .ok []
  | t :: rest =>
    match mapLookup t.virtualNodeRef vnByKey with
    | none => .error "unexpected virtualNodeReference"
    | some vn =>
      match convertTargets vnByKey rest with
      | .error e => .error e
      | .ok l => .ok (⟨vn.awsName, t.weight⟩ :: l)

/-- Modelled from the spec: field-by-field mapping of a CRD retry policy to
the SDK shape (spec section 4.3). -/
def buildHTTPRetryPolicy (rp : HTTPRetryPolicy) : SDKHTTPRetryPolicy :=
  ⟨some rp.httpRetryEvents, some rp.maxRetries⟩

/-- Modelled from the spec: mapping of an HTTP (or HTTP2) route variant. -/
def buildHTTPRoute (vnByKey : List (NamespacedName × VirtualNode)) (r : HTTPRoute) :
    Except String SDKHTTPRoute :=
  match convertTargets vnByKey r.action with
  | .error e => .error e
  | .ok wts => .ok ⟨r.match_.port, some wts, r.retryPolicy.map buildHTTPRetryPolicy⟩

/-- Modelled from the spec: mapping of a GRPC route variant. -/
def buildGRPCRoute (vnByKey : List (NamespacedName × VirtualNode)) (r : GRPCRoute) :
    Except String SDKGRPCRoute :=
  match convertTargets vnByKey r.action with
  | .error e => .error e
  | .ok wts => .ok ⟨r.match_.port, some wts⟩

/-- Modelled from the spec: mapping of a TCP route variant (its match block is
optional in the CRD). -/
def buildTCPRoute (vnByKey : List (NamespacedName × VirtualNode)) (r : TCPRoute) :
    Except String SDKTCPRoute :=
  match convertTargets vnByKey r.action with
  | .error e => .error e
  | .ok wts => .ok ⟨r.match_.bind (fun m => m.port), some wts⟩

/-- Lifting a variant conversion over an optional variant. -/
def buildOpt {α β : Type} (f : α → Except String β) : Option α → Except String (Option β)
  | none => .ok none
  | some a =>
    match f a with
    | .error e => .error e
    | .ok b => .ok (some b)

/-- Modelled from the spec: BuildSDKRouteSpec of routes_manager.go delegates
to conversions.Convert_CRD_Route_To_SDK_RouteSpec plus the reference
resolver, neither of which is under src/; per spec section 4.3 it is a pure
structural mapping that fails on a dangling backend reference.  The vr
parameter is kept for signature fidelity. -/
def BuildSDKRouteSpec (vr : VirtualRouter) (route : Route)
    (vnByKey : List (NamespacedName × VirtualNode)) : Except String SDKRouteSpec :=
  match buildOpt (buildGRPCRoute vnByKey) route.grpcRoute with
  | .error e => .error e
  | .ok g =>
    match buildOpt (buildHTTPRoute vnByKey) route.httpRoute with
    | .error e => .error e
    | .ok h =>
      match buildOpt (buildHTTPRoute vnByKey) route.http2Route with
      | .error e => .error e
      | .ok h2 =>
        match buildOpt (buildTCPRoute vnByKey) route.tcpRoute with
        | .error e => .error e
        | .ok t => .ok ⟨g, h, h2, t, route.priority⟩

/- ===== Structural equality with empty/absent collapsing =====
   Models cmp.Equal(desired, actual, cmpopts.EquateEmpty()): slices of length
   zero compare equal regardless of nilness, so optional lists are normalised
   by collapsing some [] to none before ordinary structural equality. -/

/-- Collapse an empty optional collection to an absent one (EquateEmpty). -/
def normOptList {α : Type} : Option (List α) → Option (List α)
  | some [] => none
  | x => x

/-- EquateEmpty normalisation of a retry policy. -/
def normSDKHTTPRetryPolicy (rp : SDKHTTPRetryPolicy) : SDKHTTPRetryPolicy :=
  ⟨normOptList rp.httpRetryEvents, rp.maxRetries⟩

/-- EquateEmpty normalisation of an HTTP route block. -/
def normSDKHTTPRoute (r : SDKHTTPRoute) : SDKHTTPRoute :=
  ⟨r.matchPort, normOptList r.weightedTargets, r.retryPolicy.map normSDKHTTPRetryPolicy⟩

/-- EquateEmpty normalisation of a TCP route block. -/
def normSDKTCPRoute (r : SDKTCPRoute) : SDKTCPRoute :=
  ⟨r.matchPort, normOptList r.weightedTargets⟩

/-- EquateEmpty normalisation of a GRPC route block. -/
def normSDKGRPCRoute (r : SDKGRPCRoute) : SDKGRPCRoute :=
  ⟨r.matchPort, normOptList r.weightedTargets⟩

/-- EquateEmpty normalisation of a whole route spec. -/
def normSDKRouteSpec (s : SDKRouteSpec) : SDKRouteSpec :=
  ⟨s.grpcRoute.map normSDKGRPCRoute, s.httpRoute.map normSDKHTTPRoute,
    s.http2Route.map normSDKHTTPRoute, s.tcpRoute.map normSDKTCPRoute, s.priority⟩

/-- cmp.Equal(desired, actual, cmpopts.EquateEmpty()) of updateSDKRoute. -/
def cmpEqualEmptySpec (a b : SDKRouteSpec) : Bool :=
  decide (normSDKRouteSpec a = normSDKRouteSpec b)

theorem cmpEqualEmptySpec_refl (a : SDKRouteSpec) : cmpEqualEmptySpec a a = true := by
  simp [cmpEqualEmptySpec]

/- ===== The remote control-plane client =====
   Spec section 6 treats the AppMesh client as an opaque external
   collaborator.  It is modelled as a deterministic state machine over the
   remote route table, extended with an injected-failure schedule so that
   the error-handling claims are statable: names listed in failX make the
   corresponding call fail with a generic remote error, and names in
   notFoundDeletes make the delete call answer NotFoundException (a delete
   racing with an external deletion). -/

/-- An AWS error, identified by its code as in awserr.Error. -/
structure AwsError where
  code : String
  deriving DecidableEq, Repr

/-- The NotFoundException error returned for absent remote entities. -/
def awsNotFound : AwsError := ⟨"NotFoundException"⟩

/-- A generic remote-call failure (throttling, permission, network). -/
def awsInternal : AwsError := ⟨"InternalServiceError"⟩

/-- Modelled from the spec: the remote system state plus the
injected-failure schedule of the opaque client (spec section 6). -/
structure Cloud where
  routes : List (String × RouteData)
  failDescribes : List String
  failCreates : List String
  failUpdates : List String
  failDeletes : List String
  notFoundDeletes : List String
  deriving DecidableEq, Repr

/-- Modelled from the spec: ListRoutes returns one ref per remote route
(pagination collapsed, as the source's page callback just concatenates). -/
def sdkListRouteRefs (c : Cloud) (meshName meshOwner vrName : Option String) :
    List RouteRef :=
  c.routes.map (fun p => ⟨meshName, meshOwner, vrName, some p.1⟩)

/-- Modelled from the spec: DescribeRoute returns the record or
NotFoundException. -/
def sdkDescribeRoute (c : Cloud) (name : String) : Except AwsError RouteData :=
  if name ∈ c.failDescribes then .error awsInternal
  else
    match mapLookup name c.routes with
    | some d => .ok d
    | none => .error awsNotFound

/-- Modelled from the spec: CreateRoute stores the spec and returns the new
record. -/
def sdkCreateRoute (c : Cloud) (meshName meshOwner vrName : Option String)
    (name : String) (spec : SDKRouteSpec) : Except AwsError RouteData × Cloud :=
  if name ∈ c.failCreates then (.error awsInternal, c)
  else
    let d : RouteData := ⟨meshName, ⟨meshOwner⟩, some name, vrName, spec⟩
    (.ok d, { c with routes := mapInsert name d c.routes })

/-- Modelled from the spec: UpdateRoute replaces the spec of an existing
route and returns the updated record; an absent route is NotFoundException. -/
def sdkUpdateRoute (c : Cloud) (name : String) (spec : SDKRouteSpec) :
    Except AwsError RouteData × Cloud :=
  if name ∈ c.failUpdates then (.error awsInternal, c)
  else
    match mapLookup name c.routes with
    | none => (.error awsNotFound, c)
    | some d =>
      let d' : RouteData := { d with spec := spec }
      (.ok d', { c with routes := mapInsert name d' c.routes })

/-- Modelled from the spec: DeleteRoute removes the route; an absent route
(or an injected race) is NotFoundException. -/
def sdkDeleteRoute (c : Cloud) (name : String) : Except AwsError Unit × Cloud :=
  if name ∈ c.failDeletes then (.error awsInternal, c)
  else if name ∈ c.notFoundDeletes then (.error awsNotFound, c)
  else if (mapLookup name c.routes).isSome then
    (.ok (), { c with routes := mapRemove name c.routes })
  else (.error awsNotFound, c)

/-- One remote call, as recorded in the interaction trace. -/
inductive SDKCall
  | listRoutes
  | describeRoute (name : String)
  | createRoute (name : String) (spec : SDKRouteSpec)
  | updateRoute (name : String) (spec : SDKRouteSpec)
  | deleteRoute (name : String)
  deriving DecidableEq, Repr

/-- A trace entry: the call made and whether the remote answered success. -/
structure Event where
  call : SDKCall
  ok : Bool
  deriving DecidableEq, Repr

/-- The interaction trace of one manager invocation. -/
abbrev Trace := List Event

/-- Names of the create calls in a trace. -/
def eventCreateNames (tr : Trace) : List String :=
  tr.filterMap (fun ev =>
    match ev.call with
    | .createRoute n _ => some n
    | _ => none)

/-- Names of the update calls in a trace. -/
def eventUpdateNames (tr : Trace) : List String :=
  tr.filterMap (fun ev =>
    match ev.call with
    | .updateRoute n _ => some n
    | _ => none)

/-- Names of the delete calls in a trace. -/
def eventDeleteNames (tr : Trace) : List String :=
  tr.filterMap (fun ev =>
    match ev.call with
    | .deleteRoute n => some n
    | _ => none)

/-- Names of the describe calls in a trace. -/
def eventDescribeNames (tr : Trace) : List String :=
  tr.filterMap (fun ev =>
    match ev.call with
    | .describeRoute n => some n
    | _ => none)

/-- Whether the trace contains a listing call. -/
def hasListEvent (tr : Trace) : Bool :=
  tr.any (fun ev =>
    match ev.call with
    | .listRoutes => true
    | _ => false)

/-- The errors a manager call can return. -/
inductive ReconcileError
  | awsError (e : AwsError)
  | conversionError (msg : String)
  | routeNotFound (name : String)
  deriving DecidableEq, Repr

/- ===== The manager (routes_manager.go) ===== -/

/-- The matched pair type of routes_manager.go. -/
structure routeAndSDKRouteRef where
  route : Route
  sdkRouteRef : RouteRef
  deriving DecidableEq, Repr

/-- matchRoutesAgainstSDKRouteRefs: build a name-keyed map per side, take the
intersection and the two differences of the key sets, and read each sorted
name set back through its map (sets.String.List() is sorted). -/
def matchRoutesAgainstSDKRouteRefs (routes : List Route) (sdkRouteRefs : List RouteRef) :
    List routeAndSDKRouteRef × List Route × List RouteRef :=
  let routeByName := buildMap Route.name id routes
  let sdkRouteRefByName := buildMap refName id sdkRouteRefs
  let routeNameSet := keysOf routeByName
  let sdkRouteRefNameSet := keysOf sdkRouteRefByName
  let matchedNameSet := setInter routeNameSet sdkRouteRefNameSet
  let unmatchedRouteNameSet := setDiff routeNameSet sdkRouteRefNameSet
  let unmatchedSDKRouteRefNameSet := setDiff sdkRouteRefNameSet routeNameSet
  let matchedRouteAndSDKRouteRef := (sortStrings matchedNameSet).filterMap (fun name =>
    match mapLookup name routeByName, mapLookup name sdkRouteRefByName with
    | some route, some sdkRouteRef => some ⟨route, sdkRouteRef⟩
    | _, _ => none)
  let unmatchedRoutes := (sortStrings unmatchedRouteNameSet).filterMap
    (fun name => mapLookup name routeByName)
  let unmatchedSDKRouteRefs := (sortStrings unmatchedSDKRouteRefNameSet).filterMap
    (fun name => mapLookup name sdkRouteRefByName)
  (matchedRouteAndSDKRouteRef, unmatchedRoutes, unmatchedSDKRouteRefs)

/-- Go map indexing into the port-to-protocol listener map: a missing port
yields the zero value "" of the string type PortProtocol. -/
def listenerProtocolAt (m : List (Int × PortProtocol)) (p : Int) : PortProtocol :=
  (mapLookup p m).getD ""

/-- First branch of the taint chain: a TCP variant declaring a port whose
listener protocol is not tcp. -/
def tcpTaintCond (m : List (Int × PortProtocol)) (route : Route) : Bool :=
  match route.tcpRoute with
  | none => false
  | some t =>
    match t.match_ with
    | none => false
    | some tm =>
      match tm.port with
      | none => false
      | some p => decide (listenerProtocolAt m p ≠ PortProtocolTCP)

/-- Second branch of the taint chain (GRPC variant). -/
def grpcTaintCond (m : List (Int × PortProtocol)) (route : Route) : Bool :=
  match route.grpcRoute with
  | none => false
  | some g =>
    match g.match_.port with
    | none => false
    | some p => decide (listenerProtocolAt m p ≠ PortProtocolGRPC)

/-- Third branch of the taint chain (HTTP2 variant). -/
def http2TaintCond (m : List (Int × PortProtocol)) (route : Route) : Bool :=
  match route.http2Route with
  | none => false
  | some h =>
    match h.match_.port with
    | none => false
    | some p => decide (listenerProtocolAt m p ≠ PortProtocolHTTP2)

/-- Fourth branch of the taint chain (HTTP variant). -/
def httpTaintCond (m : List (Int × PortProtocol)) (route : Route) : Bool :=
  match route.httpRoute with
  | none => false
  | some h =>
    match h.match_.port with
    | none => false
    | some p => decide (listenerProtocolAt m p ≠ PortProtocolHTTP)

/-- The if/else-if chain of taintedSDKRouteRefs; every branch performs the
same insertion, so the chain is the disjunction of the four conditions. -/
def routeTaintCond (m : List (Int × PortProtocol)) (route : Route) : Bool :=
  tcpTaintCond m route || grpcTaintCond m route ||
    http2TaintCond m route || httpTaintCond m route

/-- The port-to-protocol map of the router's current listeners, as built by
the listener loop of taintedSDKRouteRefs. -/
def sdkListenerByPort (sdkVR : VirtualRouterData) : List (Int × PortProtocol) :=
  buildMap (fun l : SDKVirtualRouterListener => int64Value l.portMapping.port)
    (fun l => stringValue l.portMapping.protocol) sdkVR.spec.listeners

/-- taintedSDKRouteRefs: start from the observed-only name set, then add each
matched route whose declared match port now carries an incompatible listener
protocol. -/
def taintedSDKRouteRefs (routes : List Route) (sdkVR : VirtualRouterData)
    (sdkRouteRefs : List RouteRef) : List RouteRef :=
  let routeByName := buildMap Route.name id routes
  let sdkRouteRefByName := buildMap refName id sdkRouteRefs
  let routeNameSet := keysOf routeByName
  let sdkRouteRefNameSet := keysOf sdkRouteRefByName
  let matchedNameSet := setInter routeNameSet sdkRouteRefNameSet
  let unmatchedSDKRouteRefNameSet := (sortStrings matchedNameSet).foldl
    (fun s name =>
      match mapLookup name routeByName with
      | some route =>
        if routeTaintCond (sdkListenerByPort sdkVR) route then setInsertStr route.name s else s
      | none => s)
    (setDiff sdkRouteRefNameSet routeNameSet)
  (sortStrings unmatchedSDKRouteRefNameSet).filterMap
    (fun name => mapLookup name sdkRouteRefByName)

/-- listSDKRouteRefs: page through ListRoutes, concatenating refs. -/
def listSDKRouteRefs (c : Cloud) (ms : Mesh) (vr : VirtualRouter) :
    List RouteRef × Trace :=
  (sdkListRouteRefs c ms.spec.awsName ms.spec.meshOwner vr.spec.awsName,
    [⟨.listRoutes, true⟩])

/-- findSDKRoute: describe a ref; NotFoundException becomes (nil, nil). -/
def findSDKRoute (c : Cloud) (sdkRouteRef : RouteRef) :
    Except ReconcileError (Option RouteData) × Trace :=
  let name := stringValue sdkRouteRef.routeName
  match sdkDescribeRoute c name with
  | .error e =>
    if e.code = "NotFoundException" then (.ok none, [⟨.describeRoute name, false⟩])
    else (.error (.awsError e), [⟨.describeRoute name, false⟩])
  | .ok d => (.ok (some d), [⟨.describeRoute name, true⟩])

/-- createSDKRoute: build the desired spec, then issue CreateRoute. -/
def createSDKRoute (c : Cloud) (ms : Mesh) (vr : VirtualRouter) (route : Route)
    (vnByKey : List (NamespacedName × VirtualNode)) :
    Except ReconcileError RouteData × Cloud × Trace :=
  match BuildSDKRouteSpec vr route vnByKey with
  | .error e => (.error (.conversionError e), c, [])
  | .ok sdkRouteSpec =>
    match sdkCreateRoute c ms.spec.awsName ms.spec.meshOwner vr.spec.awsName
        route.name sdkRouteSpec with
    | (.error e, c') =>
      (.error (.awsError e), c', [⟨.createRoute route.name sdkRouteSpec, false⟩])
    | (.ok d, c') => (.ok d, c', [⟨.createRoute route.name sdkRouteSpec, true⟩])

/-- updateSDKRoute: build the desired spec; if it equals the fetched spec
under EquateEmpty, return the fetched record without any remote call,
otherwise issue UpdateRoute with the desired spec. -/
def updateSDKRoute (c : Cloud) (sdkRoute : RouteData) (vr : VirtualRouter)
    (route : Route) (vnByKey : List (NamespacedName × VirtualNode)) :
    Except ReconcileError RouteData × Cloud × Trace :=
  let actualSDKRouteSpec := sdkRoute.spec
  match BuildSDKRouteSpec vr route vnByKey with
  | .error e => (.error (.conversionError e), c, [])
  | .ok desiredSDKRouteSpec =>
    if cmpEqualEmptySpec desiredSDKRouteSpec actualSDKRouteSpec then (.ok sdkRoute, c, [])
    else
      match sdkUpdateRoute c (stringValue sdkRoute.routeName) desiredSDKRouteSpec with
      | (.error e, c') =>
        (.error (.awsError e), c',
          [⟨.updateRoute (stringValue sdkRoute.routeName) desiredSDKRouteSpec, false⟩])
      | (.ok d, c') =>
        (.ok d, c',
          [⟨.updateRoute (stringValue sdkRoute.routeName) desiredSDKRouteSpec, true⟩])

/-- deleteSDKRoute: issue DeleteRoute for a described record; every error,
NotFoundException included, is propagated. -/
def deleteSDKRoute (c : Cloud) (sdkRoute : RouteData) :
    Except ReconcileError Unit × Cloud × Trace :=
  match sdkDeleteRoute c (stringValue sdkRoute.routeName) with
  | (.error e, c') =>
    (.error (.awsError e), c', [⟨.deleteRoute (stringValue sdkRoute.routeName), false⟩])
  | (.ok _, c') => (.ok (), c', [⟨.deleteRoute (stringValue sdkRoute.routeName), true⟩])

/-- deleteSDKRouteByRef: issue DeleteRoute for a listed ref; a
NotFoundException answer is swallowed and treated as success. -/
def deleteSDKRouteByRef (c : Cloud) (sdkRouteRef : RouteRef) :
    Except ReconcileError Unit × Cloud × Trace :=
  match sdkDeleteRoute c (refName sdkRouteRef) with
  | (.error e, c') =>
    if e.code = "NotFoundException" then (.ok (), c', [⟨.deleteRoute (refName sdkRouteRef), false⟩])
    else (.error (.awsError e), c', [⟨.deleteRoute (refName sdkRouteRef), false⟩])
  | (.ok _, c') => (.ok (), c', [⟨.deleteRoute (refName sdkRouteRef), true⟩])

/-- The create batch of reconcile: one createSDKRoute per desired-only route,
aborting on the first error (the partial name-to-record map is dropped). -/
def reconcileCreates (ms : Mesh) (vr : VirtualRouter)
    (vnByKey : List (NamespacedName × VirtualNode)) :
    List Route → Cloud → Except ReconcileError (List (String × RouteData)) × Cloud × Trace
  | [], c => (.ok [], c, [])
  | route :: rest, c =>
    match createSDKRoute c ms vr route vnByKey with
    | (.error e, c', tr) => (.error e, c', tr)
    | (.ok d, c', tr) =>
      match reconcileCreates ms vr vnByKey rest c' with
      | (.error e, c'', tr') => (.error e, c'', tr ++ tr')
      | (.ok ps, c'', tr') => (.ok ((route.name, d) :: ps), c'', tr ++ tr')

/-- The update batch of reconcile: describe each matched ref (a missing
record is a fatal route-not-found inconsistency), then updateSDKRoute. -/
def reconcileMatched (vr : VirtualRouter) (vnByKey : List (NamespacedName × VirtualNode)) :
    List routeAndSDKRouteRef → Cloud →
      Except ReconcileError (List (String × RouteData)) × Cloud × Trace
  | [], c => (.ok [], c, [])
  | pair :: rest, c =>
    match findSDKRoute c pair.sdkRouteRef with
    | (.error e, tr) => (.error e, c, tr)
    | (.ok none, tr) =>
      (.error (.routeNotFound (stringValue pair.sdkRouteRef.routeName)), c, tr)
    | (.ok (some sdkRoute), tr) =>
      match updateSDKRoute c sdkRoute vr pair.route vnByKey with
      | (.error e, c', tr₂) => (.error e, c', tr ++ tr₂)
      | (.ok d, c', tr₂) =>
        match reconcileMatched vr vnByKey rest c' with
        | (.error e, c'', tr₃) => (.error e, c'', tr ++ tr₂ ++ tr₃)
        | (.ok ps, c'', tr₃) => (.ok ((pair.route.name, d) :: ps), c'', tr ++ tr₂ ++ tr₃)

/-- The delete batch of reconcile: describe each observed-only ref (a missing
record is a fatal route-not-found inconsistency), then deleteSDKRoute, whose
errors — NotFoundException included — are propagated. -/
def reconcileDeletes : List RouteRef → Cloud →
    Except ReconcileError Unit × Cloud × Trace
  | [], c => (.ok (), c, [])
  | ref :: rest, c =>
    match findSDKRoute c ref with
    | (.error e, tr) => (.error e, c, tr)
    | (.ok none, tr) => (.error (.routeNotFound (stringValue ref.routeName)), c, tr)
    | (.ok (some sdkRoute), tr) =>
      match deleteSDKRoute c sdkRoute with
      | (.error e, c', tr₂) => (.error e, c', tr ++ tr₂)
      | (.ok _, c', tr₂) =>
        match reconcileDeletes rest c' with
        | (res, c'', tr₃) => (res, c'', tr ++ tr₂ ++ tr₃)

/-- reconcile: match desired routes against observed refs, then run the
create, update and delete batches in that order, aborting the whole call on
the first error and returning the accumulated name-to-record map on
success. -/
def reconcile (c : Cloud) (ms : Mesh) (vr : VirtualRouter)
    (vnByKey : List (NamespacedName × VirtualNode)) (routes : List Route)
    (sdkRouteRefs : List RouteRef) :
    Except ReconcileError (List (String × RouteData)) × Cloud × Trace :=
  match matchRoutesAgainstSDKRouteRefs routes sdkRouteRefs with
  | (matchedRouteAndSDKRouteRefs, unmatchedRoutes, unmatchedSDKRouteRefs) =>
    match reconcileCreates ms vr vnByKey unmatchedRoutes c with
    | (.error e, c₁, tr₁) => (.error e, c₁, tr₁)
    | (.ok m₁, c₁, tr₁) =>
      match reconcileMatched vr vnByKey matchedRouteAndSDKRouteRefs c₁ with
      | (.error e, c₂, tr₂) => (.error e, c₂, tr₁ ++ tr₂)
      | (.ok m₂, c₂, tr₂) =>
        match reconcileDeletes unmatchedSDKRouteRefs c₂ with
        | (.error e, c₃, tr₃) => (.error e, c₃, tr₁ ++ tr₂ ++ tr₃)
        | (.ok _, c₃, tr₃) => (.ok (m₁ ++ m₂), c₃, tr₁ ++ tr₂ ++ tr₃)

/-- create: reconcile the desired routes against no observed refs (no remote
listing is performed). -/
def create (c : Cloud) (ms : Mesh) (vr : VirtualRouter)
    (vnByKey : List (NamespacedName × VirtualNode)) :
    Except ReconcileError (List (String × RouteData)) × Cloud × Trace :=
  reconcile c ms vr vnByKey vr.spec.routes []

/-- update: list observed refs, then reconcile the desired routes against
them. -/
def update (c : Cloud) (ms : Mesh) (vr : VirtualRouter)
    (vnByKey : List (NamespacedName × VirtualNode)) :
    Except ReconcileError (List (String × RouteData)) × Cloud × Trace :=
  match listSDKRouteRefs c ms vr with
  | (sdkRouteRefs, tr₀) =>
    match reconcile c ms vr vnByKey vr.spec.routes sdkRouteRefs with
    | (res, c', tr) => (res, c', tr₀ ++ tr)

/-- cleanup: list observed refs, then reconcile an empty desired set against
them (the returned map is discarded). -/
def cleanup (c : Cloud) (ms : Mesh) (vr : VirtualRouter) :
    Except ReconcileError Unit × Cloud × Trace :=
  match listSDKRouteRefs c ms vr with
  | (sdkRouteRefs, tr₀) =>
    match reconcile c ms vr [] [] sdkRouteRefs with
    | (.error e, c', tr) => (.error e, c', tr₀ ++ tr)
    | (.ok _, c', tr) => (.ok (), c', tr₀ ++ tr)

/-- The deletion loop of remove, aborting on the first propagated error. -/
def removeTaintedRefs : List RouteRef → Cloud →
    Except ReconcileError Unit × Cloud × Trace
  | [], c => (.ok (), c, [])
  | ref :: rest, c =>
    match deleteSDKRouteByRef c ref with
    | (.error e, c', tr) => (.error e, c', tr)
    | (.ok _, c', tr) =>
      match removeTaintedRefs rest c' with
      | (res, c'', tr') => (res, c'', tr ++ tr')

/-- remove: list observed refs, compute the tainted refs, and delete exactly
those via deleteSDKRouteByRef. -/
def remove (c : Cloud) (ms : Mesh) (sdkVR : VirtualRouterData) (vr : VirtualRouter) :
    Except ReconcileError Unit × Cloud × Trace :=
  match listSDKRouteRefs c ms vr with
  | (sdkRouteRefs, tr₀) =>
    match removeTaintedRefs (taintedSDKRouteRefs vr.spec.routes sdkVR sdkRouteRefs) c with
    | (res, c', tr) => (res, c', tr₀ ++ tr)

/- ===== Matcher lemmas ===== -/

theorem filterMap_map_eq_self {α β : Type} (l : List α) (f : α → Option β) (g : β → α)
    (h : ∀ a ∈ l, ∃ b, f a = some b ∧ g b = a) : (l.filterMap f).map g = l := by
  induction l with
  | nil => rfl
  | cons x t ih =>
    rcases h x (List.mem_cons_self x t) with ⟨b, hb, hg⟩
    rw [List.filterMap_cons, hb]
    simp only [List.map_cons, hg]
    rw [ih (fun a ha => h a (List.mem_cons_of_mem x ha))]

theorem mapInsert_of_not_mem {κ α : Type} [DecidableEq κ] {k : κ} (v : α)
    {m : List (κ × α)} (h : k ∉ keysOf m) : mapInsert k v m = m ++ [(k, v)] := by
  induction m with
  | nil => rfl
  | cons p t ih =>
    rcases p with ⟨k', v'⟩
    simp only [keysOf, List.map_cons, List.mem_cons, not_or] at h
    simp only [mapInsert, Ne.symm h.1, if_false, List.cons_append]
    rw [ih h.2]

theorem keysOf_foldl_insert {κ α β : Type} [DecidableEq κ] (key : α → κ)
    (val : α → β) (l : List α) :
    ∀ (m : List (κ × β)), (keysOf m ++ l.map key).Nodup →
      keysOf (l.foldl (fun m x => mapInsert (key x) (val x) m) m) = keysOf m ++ l.map key := by
  induction l with
  | nil => intro m _; simp
  | cons x t ih =>
    intro m hm
    have hx : key x ∉ keysOf m := by
      intro hmem
      exact (List.disjoint_of_nodup_append hm) hmem (by simp)
    simp only [List.foldl_cons]
    have h1 : keysOf (mapInsert (key x) (val x) m) = keysOf m ++ [key x] := by
      rw [mapInsert_of_not_mem _ hx]
      simp [keysOf]
    have h2 : (keysOf (mapInsert (key x) (val x) m) ++ t.map key).Nodup := by
      rw [h1]
      simpa [List.append_assoc] using hm
    have h3 := ih (mapInsert (key x) (val x) m) h2
    rw [h3, h1]
    simp

theorem keysOf_buildMap_of_nodup {κ α β : Type} [DecidableEq κ] (key : α → κ)
    (val : α → β) {l : List α} (h : (l.map key).Nodup) :
    keysOf (buildMap key val l) = l.map key := by
  have := keysOf_foldl_insert key val l [] (by simpa [keysOf] using h)
  simpa [keysOf, buildMap] using this

theorem mem_matchedPairs {routes : List Route} {refs : List RouteRef}
    {p : routeAndSDKRouteRef} (hp : p ∈ (matchRoutesAgainstSDKRouteRefs routes refs).1) :
    p.route ∈ routes ∧ p.sdkRouteRef ∈ refs ∧ p.route.name = refName p.sdkRouteRef := by
  simp only [matchRoutesAgainstSDKRouteRefs, List.mem_filterMap] at hp
  rcases hp with ⟨n, hn, hmatch⟩
  cases hr : mapLookup n (buildMap Route.name id routes) with
  | none => rw [hr] at hmatch; simp at hmatch
  | some r =>
    cases hf : mapLookup n (buildMap refName id refs) with
    | none => rw [hr, hf] at hmatch; simp at hmatch
    | some f =>
      rw [hr, hf] at hmatch
      simp only [Option.some.injEq] at hmatch
      rcases lookup_buildMap_some _ _ _ _ _ hr with ⟨x, hx, hxname, hxid⟩
      rcases lookup_buildMap_some _ _ _ _ _ hf with ⟨y, hy, hyname, hyid⟩
      subst hmatch
      simp only [id] at hxid hyid
      subst hxid; subst hyid
      exact ⟨hx, hy, by rw [hxname, hyname]⟩

theorem matchedPairs_name_mem (routes : List Route) (refs : List RouteRef) {n : String}
    (h1 : n ∈ routes.map Route.name) (h2 : n ∈ refs.map refName) :
    ∃ p ∈ (matchRoutesAgainstSDKRouteRefs routes refs).1, p.route.name = n := by
  have hr : n ∈ keysOf (buildMap Route.name id routes) :=
    (mem_keysOf_buildMap Route.name id routes n).mpr h1
  have hf : n ∈ keysOf (buildMap refName id refs) :=
    (mem_keysOf_buildMap refName id refs n).mpr h2
  have hrs : (mapLookup n (buildMap Route.name id routes)).isSome = true :=
    (lookup_isSome_iff_mem_keysOf _ _).mpr hr
  have hfs : (mapLookup n (buildMap refName id refs)).isSome = true :=
    (lookup_isSome_iff_mem_keysOf _ _).mpr hf
  cases hrl : mapLookup n (buildMap Route.name id routes) with
  | none => rw [hrl] at hrs; simp at hrs
  | some r =>
    cases hfl : mapLookup n (buildMap refName id refs) with
    | none => rw [hfl] at hfs; simp at hfs
    | some f =>
      refine ⟨⟨r, f⟩, ?_, ?_⟩
      · simp only [matchRoutesAgainstSDKRouteRefs, List.mem_filterMap]
        refine ⟨n, ?_, ?_⟩
        · rw [mem_sortStrings, mem_setInter]
          exact ⟨hr, hf⟩
        · rw [hrl, hfl]
      · rcases lookup_buildMap_some _ _ _ _ _ hrl with ⟨x, _, hxname, hxid⟩
        simp only [id] at hxid
        subst hxid
        exact hxname

theorem mem_unmatchedRoutes {routes : List Route} {refs : List RouteRef} {r : Route}
    (hr : r ∈ (matchRoutesAgainstSDKRouteRefs routes refs).2.1) :
    r ∈ routes ∧ r.name ∉ refs.map refName := by
  simp only [matchRoutesAgainstSDKRouteRefs, List.mem_filterMap] at hr
  rcases hr with ⟨n, hn, hlook⟩
  rw [mem_sortStrings, mem_setDiff] at hn
  rcases lookup_buildMap_some _ _ _ _ _ hlook with ⟨x, hx, hxname, hxid⟩
  simp only [id] at hxid
  subst hxid
  refine ⟨hx, ?_⟩
  rw [hxname]
  intro hmem
  exact hn.2 ((mem_keysOf_buildMap refName id refs n).mpr hmem)

theorem unmatchedRoutes_name_mem (routes : List Route) (refs : List RouteRef) {n : String}
    (h1 : n ∈ routes.map Route.name) (h2 : n ∉ refs.map refName) :
    ∃ r ∈ (matchRoutesAgainstSDKRouteRefs routes refs).2.1, r.name = n := by
  have hr : n ∈ keysOf (buildMap Route.name id routes) :=
    (mem_keysOf_buildMap Route.name id routes n).mpr h1
  have hf : n ∉ keysOf (buildMap refName id refs) := fun hmem =>
    h2 ((mem_keysOf_buildMap refName id refs n).mp hmem)
  have hrs : (mapLookup n (buildMap Route.name id routes)).isSome = true :=
    (lookup_isSome_iff_mem_keysOf _ _).mpr hr
  cases hrl : mapLookup n (buildMap Route.name id routes) with
  | none => rw [hrl] at hrs; simp at hrs
  | some r =>
    refine ⟨r, ?_, ?_⟩
    · simp only [matchRoutesAgainstSDKRouteRefs, List.mem_filterMap]
      refine ⟨n, ?_, hrl⟩
      rw [mem_sortStrings, mem_setDiff]
      exact ⟨hr, hf⟩
    · rcases lookup_buildMap_some _ _ _ _ _ hrl with ⟨x, _, hxname, hxid⟩
      simp only [id] at hxid
      subst hxid
      exact hxname

theorem mem_unmatchedRefs {routes : List Route} {refs : List RouteRef} {f : RouteRef}
    (hf : f ∈ (matchRoutesAgainstSDKRouteRefs routes refs).2.2) :
    f ∈ refs ∧ refName f ∉ routes.map Route.name := by
  simp only [matchRoutesAgainstSDKRouteRefs, List.mem_filterMap] at hf
  rcases hf with ⟨n, hn, hlook⟩
  rw [mem_sortStrings, mem_setDiff] at hn
  rcases lookup_buildMap_some _ _ _ _ _ hlook with ⟨x, hx, hxname, hxid⟩
  simp only [id] at hxid
  subst hxid
  refine ⟨hx, ?_⟩
  rw [hxname]
  intro hmem
  exact hn.2 ((mem_keysOf_buildMap Route.name id routes n).mpr hmem)

theorem unmatchedRefs_name_mem (routes : List Route) (refs : List RouteRef) {n : String}
    (h1 : n ∈ refs.map refName) (h2 : n ∉ routes.map Route.name) :
    ∃ f ∈ (matchRoutesAgainstSDKRouteRefs routes refs).2.2, refName f = n := by
  have hr : n ∈ keysOf (buildMap refName id refs) :=
    (mem_keysOf_buildMap refName id refs n).mpr h1
  have hf : n ∉ keysOf (buildMap Route.name id routes) := fun hmem =>
    h2 ((mem_keysOf_buildMap Route.name id routes n).mp hmem)
  have hrs : (mapLookup n (buildMap refName id refs)).isSome = true :=
    (lookup_isSome_iff_mem_keysOf _ _).mpr hr
  cases hrl : mapLookup n (buildMap refName id refs) with
  | none => rw [hrl] at hrs; simp at hrs
  | some f =>
    refine ⟨f, ?_, ?_⟩
    · simp only [matchRoutesAgainstSDKRouteRefs, List.mem_filterMap]
      refine ⟨n, ?_, hrl⟩
      rw [mem_sortStrings, mem_setDiff]
      exact ⟨hr, hf⟩
    · rcases lookup_buildMap_some _ _ _ _ _ hrl with ⟨x, _, hxname, hxid⟩
      simp only [id] at hxid
      subst hxid
      exact hxname

/-- C1: the three outputs of matchRoutesAgainstSDKRouteRefs are pairwise
disjoint by name, their name sets union to exactly names(desired) union
names(observed), and each matched pair joins a desired route and an observed
ref of the same name. -/
theorem c1_matcher_partition (routes : List Route) (refs : List RouteRef) :
    (∀ p ∈ (matchRoutesAgainstSDKRouteRefs routes refs).1,
        p.route ∈ routes ∧ p.sdkRouteRef ∈ refs ∧ p.route.name = refName p.sdkRouteRef) ∧
    (∀ p ∈ (matchRoutesAgainstSDKRouteRefs routes refs).1,
        ∀ r ∈ (matchRoutesAgainstSDKRouteRefs routes refs).2.1, p.route.name ≠ r.name) ∧
    (∀ p ∈ (matchRoutesAgainstSDKRouteRefs routes refs).1,
        ∀ f ∈ (matchRoutesAgainstSDKRouteRefs routes refs).2.2, p.route.name ≠ refName f) ∧
    (∀ r ∈ (matchRoutesAgainstSDKRouteRefs routes refs).2.1,
        ∀ f ∈ (matchRoutesAgainstSDKRouteRefs routes refs).2.2, r.name ≠ refName f) ∧
    (∀ n : String,
      ((∃ p ∈ (matchRoutesAgainstSDKRouteRefs routes refs).1, p.route.name = n) ∨
        (∃ r ∈ (matchRoutesAgainstSDKRouteRefs routes refs).2.1, r.name = n) ∨
        (∃ f ∈ (matchRoutesAgainstSDKRouteRefs routes refs).2.2, refName f = n)) ↔
      (n ∈ routes.map Route.name ∨ n ∈ refs.map refName)) := by
  refine ⟨fun p hp => mem_matchedPairs hp, ?_, ?_, ?_, ?_⟩
  · intro p hp r hr heq
    rcases mem_matchedPairs hp with ⟨_, hpref, hpname⟩
    rcases mem_unmatchedRoutes hr with ⟨_, hrnot⟩
    apply hrnot
    rw [← heq, hpname]
    exact List.mem_map_of_mem refName hpref
  · intro p hp f hf heq
    rcases mem_matchedPairs hp with ⟨hproute, _, _⟩
    rcases mem_unmatchedRefs hf with ⟨_, hfnot⟩
    apply hfnot
    rw [← heq]
    exact List.mem_map_of_mem Route.name hproute
  · intro r hr f hf heq
    rcases mem_unmatchedRoutes hr with ⟨hroute, _⟩
    rcases mem_unmatchedRefs hf with ⟨_, hfnot⟩
    apply hfnot
    rw [← heq]
    exact List.mem_map_of_mem Route.name hroute
  · intro n
    constructor
    · rintro (⟨p, hp, rfl⟩ | ⟨r, hr, rfl⟩ | ⟨f, hf, rfl⟩)
      · exact Or.inl (List.mem_map_of_mem Route.name (mem_matchedPairs hp).1)
      · exact Or.inl (List.mem_map_of_mem Route.name (mem_unmatchedRoutes hr).1)
      · exact Or.inr (List.mem_map_of_mem refName (mem_unmatchedRefs hf).1)
    · intro h
      by_cases hd : n ∈ routes.map Route.name
      · by_cases ho : n ∈ refs.map refName
        · rcases matchedPairs_name_mem routes refs hd ho with ⟨p, hp, hname⟩
          exact Or.inl ⟨p, hp, hname⟩
        · rcases unmatchedRoutes_name_mem routes refs hd ho with ⟨r, hr, hname⟩
          exact Or.inr (Or.inl ⟨r, hr, hname⟩)
      · rcases h with h | ho
        · exact absurd h hd
        · rcases unmatchedRefs_name_mem routes refs ho hd with ⟨f, hf, hname⟩
          exact Or.inr (Or.inr ⟨f, hf, hname⟩)

/- ===== Taint detector lemmas ===== -/

theorem mem_taintFold (routeByName : List (String × Route))
    (lm : List (Int × PortProtocol))
    (hkey : ∀ nm r, mapLookup nm routeByName = some r → r.name = nm) :
    ∀ (names : List String) (init : List String) (n : String),
      (n ∈ names.foldl (fun s name =>
          match mapLookup name routeByName with
          | some route => if routeTaintCond lm route then setInsertStr route.name s else s
          | none => s) init) ↔
        (n ∈ init ∨ (n ∈ names ∧
          ∃ r, mapLookup n routeByName = some r ∧ routeTaintCond lm r = true)) := by
  intro names
  induction names with
  | nil => intro init n; simp
  | cons nm t ih =>
    intro init n
    simp only [List.foldl_cons]
    cases hl : mapLookup nm routeByName with
    | none =>
      rw [ih]
      have hacc : (match (none : Option Route) with
          | some route => if routeTaintCond lm route then setInsertStr route.name init else init
          | none => init) = init := rfl
      rw [hacc]
      constructor
      · rintro (h | ⟨ht, hE⟩)
        · exact Or.inl h
        · exact Or.inr ⟨List.mem_cons_of_mem _ ht, hE⟩
      · rintro (h | ⟨hmem, hE⟩)
        · exact Or.inl h
        · rcases List.mem_cons.mp hmem with rfl | h'
          · rcases hE with ⟨r, hr, _⟩
            rw [hl] at hr
            cases hr
          · exact Or.inr ⟨h', hE⟩
    | some r =>
      have hname := hkey nm r hl
      by_cases hc : routeTaintCond lm r = true
      · rw [ih]
        have hacc : (match some r with
            | some route => if routeTaintCond lm route then setInsertStr route.name init else init
            | none => init) = setInsertStr r.name init := by simp [hc]
        rw [hacc]
        constructor
        · rintro (h | ⟨ht, hE⟩)
          · rw [mem_setInsertStr, hname] at h
            rcases h with rfl | h
            · exact Or.inr ⟨List.mem_cons_self _ _, r, hl, hc⟩
            · exact Or.inl h
          · exact Or.inr ⟨List.mem_cons_of_mem _ ht, hE⟩
        · rintro (h | ⟨hmem, hE⟩)
          · left
            rw [mem_setInsertStr]
            exact Or.inr h
          · rcases List.mem_cons.mp hmem with rfl | h'
            · left
              rw [mem_setInsertStr, hname]
              exact Or.inl rfl
            · exact Or.inr ⟨h', hE⟩
      · rw [ih]
        have hacc : (match some r with
            | some route => if routeTaintCond lm route then setInsertStr route.name init else init
            | none => init) = init := by simp [hc]
        rw [hacc]
        constructor
        · rintro (h | ⟨ht, hE⟩)
          · exact Or.inl h
          · exact Or.inr ⟨List.mem_cons_of_mem _ ht, hE⟩
        · rintro (h | ⟨hmem, hE⟩)
          · exact Or.inl h
          · rcases List.mem_cons.mp hmem with rfl | h'
            · rcases hE with ⟨r', hr', hc'⟩
              rw [hl] at hr'
              cases hr'
              exact absurd hc' hc
            · exact Or.inr ⟨h', hE⟩

theorem mem_taintedSDKRouteRefs_names (routes : List Route) (sdkVR : VirtualRouterData)
    (refs : List RouteRef) (n : String) :
    n ∈ (taintedSDKRouteRefs routes sdkVR refs).map refName ↔
      ((n ∈ refs.map refName ∧ n ∉ routes.map Route.name) ∨
        (n ∈ routes.map Route.name ∧ n ∈ refs.map refName ∧
          ∃ r, mapLookup n (buildMap Route.name id routes) = some r ∧
            routeTaintCond (sdkListenerByPort sdkVR) r = true)) := by
  have hkey : ∀ nm r, mapLookup nm (buildMap Route.name id routes) = some r → r.name = nm := by
    intro nm r hl
    rcases lookup_buildMap_some _ _ _ _ _ hl with ⟨x, _, hxname, hxid⟩
    simp only [id] at hxid
    subst hxid
    exact hxname
  have hrefkey : ∀ nm f, mapLookup nm (buildMap refName id refs) = some f → refName f = nm := by
    intro nm f hl
    rcases lookup_buildMap_some _ _ _ _ _ hl with ⟨x, _, hxname, hxid⟩
    simp only [id] at hxid
    subst hxid
    exact hxname
  have hfold := fun x => mem_taintFold (buildMap Route.name id routes)
    (sdkListenerByPort sdkVR) hkey
    (sortStrings (setInter (keysOf (buildMap Route.name id routes))
      (keysOf (buildMap refName id refs))))
    (setDiff (keysOf (buildMap refName id refs)) (keysOf (buildMap Route.name id routes))) x
  constructor
  · intro hmem
    simp only [taintedSDKRouteRefs, List.mem_map, List.mem_filterMap] at hmem
    rcases hmem with ⟨f, ⟨nm, hnm, hlook⟩, rfl⟩
    have hfname : refName f = nm := hrefkey nm f hlook
    rw [hfname]
    rw [mem_sortStrings] at hnm
    rw [hfold nm] at hnm
    rcases hnm with hd | ⟨hm, hE⟩
    · rw [mem_setDiff] at hd
      left
      refine ⟨(mem_keysOf_buildMap refName id refs nm).mp hd.1, ?_⟩
      intro hmem2
      exact hd.2 ((mem_keysOf_buildMap Route.name id routes nm).mpr hmem2)
    · rw [mem_sortStrings, mem_setInter] at hm
      right
      exact ⟨(mem_keysOf_buildMap Route.name id routes nm).mp hm.1,
        (mem_keysOf_buildMap refName id refs nm).mp hm.2, hE⟩
  · intro hmem
    have hset : n ∈ (sortStrings (setInter (keysOf (buildMap Route.name id routes))
        (keysOf (buildMap refName id refs)))).foldl
        (fun s name =>
          match mapLookup name (buildMap Route.name id routes) with
          | some route =>
            if routeTaintCond (sdkListenerByPort sdkVR) route then setInsertStr route.name s
            else s
          | none => s)
        (setDiff (keysOf (buildMap refName id refs))
          (keysOf (buildMap Route.name id routes))) := by
      rw [hfold n]
      rcases hmem with ⟨ho, hnd⟩ | ⟨hd, ho, hE⟩
      · left
        rw [mem_setDiff]
        refine ⟨(mem_keysOf_buildMap refName id refs n).mpr ho, ?_⟩
        intro hmem2
        exact hnd ((mem_keysOf_buildMap Route.name id routes n).mp hmem2)
      · right
        refine ⟨?_, hE⟩
        rw [mem_sortStrings, mem_setInter]
        exact ⟨(mem_keysOf_buildMap Route.name id routes n).mpr hd,
          (mem_keysOf_buildMap refName id refs n).mpr ho⟩
    have hrefmem : n ∈ keysOf (buildMap refName id refs) := by
      rcases hmem with ⟨ho, _⟩ | ⟨_, ho, _⟩ <;>
        exact (mem_keysOf_buildMap refName id refs n).mpr ho
    have hsome : (mapLookup n (buildMap refName id refs)).isSome = true :=
      (lookup_isSome_iff_mem_keysOf _ _).mpr hrefmem
    cases hfl : mapLookup n (buildMap refName id refs) with
    | none => rw [hfl] at hsome; simp at hsome
    | some f =>
      simp only [taintedSDKRouteRefs, List.mem_map, List.mem_filterMap]
      exact ⟨f, ⟨n, by rw [mem_sortStrings]; exact hset, hfl⟩, hrefkey n f hfl⟩

/-- The port and implied protocol of the single declared match variant of a
route: some (protocol, port) when the route declares exactly one variant and
that variant declares a match port, none otherwise. -/
def soleVariantPort (r : Route) : Option (PortProtocol × Int) :=
  match r.tcpRoute, r.grpcRoute, r.http2Route, r.httpRoute with
  | some t, none, none, none =>
    (t.match_.bind (fun m => m.port)).map (fun p => (PortProtocolTCP, p))
  | none, some g, none, none => g.match_.port.map (fun p => (PortProtocolGRPC, p))
  | none, none, some h2, none => h2.match_.port.map (fun p => (PortProtocolHTTP2, p))
  | none, none, none, some h => h.match_.port.map (fun p => (PortProtocolHTTP, p))
  | _, _, _, _ => none

theorem routeTaintCond_of_soleVariantPort {lm : List (Int × PortProtocol)} {r : Route}
    {proto : PortProtocol} {p : Int} (h : soleVariantPort r = some (proto, p)) :
    (routeTaintCond lm r = true ↔ listenerProtocolAt lm p ≠ proto) := by
  rcases htc : r.tcpRoute with _ | t <;> rcases hg : r.grpcRoute with _ | g <;>
    rcases hh2 : r.http2Route with _ | h2v <;> rcases hh : r.httpRoute with _ | hv <;>
    simp only [soleVariantPort, htc, hg, hh2, hh] at h
  · exact absurd h (by simp)
  · -- only httpRoute
    rcases hport : hv.match_.port with _ | p'
    · rw [hport] at h; simp at h
    · rw [hport] at h
      simp only [Option.map_some', Option.some.injEq, Prod.mk.injEq] at h
      rcases h with ⟨hp1, hp2⟩
      subst hp1; subst hp2
      simp [routeTaintCond, tcpTaintCond, grpcTaintCond, http2TaintCond, httpTaintCond,
        htc, hg, hh2, hh, hport]
  · -- only http2Route
    rcases hport : h2v.match_.port with _ | p'
    · rw [hport] at h; simp at h
    · rw [hport] at h
      simp only [Option.map_some', Option.some.injEq, Prod.mk.injEq] at h
      rcases h with ⟨hp1, hp2⟩
      subst hp1; subst hp2
      simp [routeTaintCond, tcpTaintCond, grpcTaintCond, http2TaintCond, httpTaintCond,
        htc, hg, hh2, hh, hport]
  · exact absurd h (by simp)
  · -- only grpcRoute
    rcases hport : g.match_.port with _ | p'
    · rw [hport] at h; simp at h
    · rw [hport] at h
      simp only [Option.map_some', Option.some.injEq, Prod.mk.injEq] at h
      rcases h with ⟨hp1, hp2⟩
      subst hp1; subst hp2
      simp [routeTaintCond, tcpTaintCond, grpcTaintCond, http2TaintCond, httpTaintCond,
        htc, hg, hh2, hh, hport]
  · exact absurd h (by simp)
  · exact absurd h (by simp)
  · exact absurd h (by simp)
  · -- only tcpRoute
    rcases hm : t.match_ with _ | tm
    · rw [hm] at h; simp at h
    · rw [hm] at h
      have hb : (some tm).bind (fun m => m.port) = tm.port := rfl
      rw [hb] at h
      rcases hport : tm.port with _ | p'
      · rw [hport] at h; simp at h
      · rw [hport] at h
        simp only [Option.map_some', Option.some.injEq, Prod.mk.injEq] at h
        rcases h with ⟨hp1, hp2⟩
        subst hp1; subst hp2
        simp [routeTaintCond, tcpTaintCond, grpcTaintCond, http2TaintCond, httpTaintCond,
          htc, hg, hh2, hh, hm, hport]
  · exact absurd h (by simp)
  · exact absurd h (by simp)
  · exact absurd h (by simp)
  · exact absurd h (by simp)
  · exact absurd h (by simp)
  · exact absurd h (by simp)
  · exact absurd h (by simp)

theorem soleVariantPort_proto_ne_empty {r : Route} {proto : PortProtocol} {p : Int}
    (h : soleVariantPort r = some (proto, p)) : proto ≠ "" := by
  have hmem : proto = PortProtocolTCP ∨ proto = PortProtocolGRPC ∨
      proto = PortProtocolHTTP2 ∨ proto = PortProtocolHTTP := by
    rcases htc : r.tcpRoute with _ | t <;> rcases hg : r.grpcRoute with _ | g <;>
      rcases hh2 : r.http2Route with _ | h2v <;> rcases hh : r.httpRoute with _ | hv <;>
      simp only [soleVariantPort, htc, hg, hh2, hh] at h
    · exact absurd h (by simp)
    · rcases Option.map_eq_some'.mp h with ⟨p', _, hpair⟩
      exact Or.inr (Or.inr (Or.inr (congrArg Prod.fst hpair).symm))
    · rcases Option.map_eq_some'.mp h with ⟨p', _, hpair⟩
      exact Or.inr (Or.inr (Or.inl (congrArg Prod.fst hpair).symm))
    · exact absurd h (by simp)
    · rcases Option.map_eq_some'.mp h with ⟨p', _, hpair⟩
      exact Or.inr (Or.inl (congrArg Prod.fst hpair).symm)
    · exact absurd h (by simp)
    · exact absurd h (by simp)
    · exact absurd h (by simp)
    · rcases Option.map_eq_some'.mp h with ⟨p', _, hpair⟩
      exact Or.inl (congrArg Prod.fst hpair).symm
    · exact absurd h (by simp)
    · exact absurd h (by simp)
    · exact absurd h (by simp)
    · exact absurd h (by simp)
    · exact absurd h (by simp)
    · exact absurd h (by simp)
    · exact absurd h (by simp)
  rcases hmem with rfl | rfl | rfl | rfl <;> decide

theorem lookup_routeByName_self {routes : List Route} {r : Route}
    (hnd : (routes.map Route.name).Nodup) (hr : r ∈ routes) :
    mapLookup r.name (buildMap Route.name id routes) = some r := by
  simpa using lookup_buildMap_of_nodup Route.name id hnd hr

/-- The port declared by the TCP match variant, if any. -/
def tcpMatchPort (r : Route) : Option Int :=
  r.tcpRoute.bind (fun t => t.match_.bind (fun m => m.port))

/-- The port declared by the GRPC match variant, if any. -/
def grpcMatchPort (r : Route) : Option Int := r.grpcRoute.bind (fun g => g.match_.port)

/-- The port declared by the HTTP2 match variant, if any. -/
def http2MatchPort (r : Route) : Option Int := r.http2Route.bind (fun h => h.match_.port)

/-- The port declared by the HTTP match variant, if any. -/
def httpMatchPort (r : Route) : Option Int := r.httpRoute.bind (fun h => h.match_.port)

/-- The route declares no match-level port on any of its variants. -/
def routeHasNoMatchPort (r : Route) : Prop :=
  tcpMatchPort r = none ∧ grpcMatchPort r = none ∧
    http2MatchPort r = none ∧ httpMatchPort r = none

instance (r : Route) : Decidable (routeHasNoMatchPort r) := by
  unfold routeHasNoMatchPort
  infer_instance

theorem tcpTaintCond_of_no_port {lm : List (Int × PortProtocol)} {r : Route}
    (h : tcpMatchPort r = none) : tcpTaintCond lm r = false := by
  rcases htc : r.tcpRoute with _ | t
  · simp [tcpTaintCond, htc]
  · rcases hm : t.match_ with _ | tm
    · simp [tcpTaintCond, htc, hm]
    · rcases hp : tm.port with _ | p'
      · simp [tcpTaintCond, htc, hm, hp]
      · exfalso
        rw [tcpMatchPort, htc] at h
        simp [hm, hp] at h

theorem grpcTaintCond_of_no_port {lm : List (Int × PortProtocol)} {r : Route}
    (h : grpcMatchPort r = none) : grpcTaintCond lm r = false := by
  rcases hg : r.grpcRoute with _ | g
  · simp [grpcTaintCond, hg]
  · rcases hp : g.match_.port with _ | p'
    · simp [grpcTaintCond, hg, hp]
    · exfalso
      rw [grpcMatchPort, hg] at h
      simp [hp] at h

theorem http2TaintCond_of_no_port {lm : List (Int × PortProtocol)} {r : Route}
    (h : http2MatchPort r = none) : http2TaintCond lm r = false := by
  rcases hg : r.http2Route with _ | g
  · simp [http2TaintCond, hg]
  · rcases hp : g.match_.port with _ | p'
    · simp [http2TaintCond, hg, hp]
    · exfalso
      rw [http2MatchPort, hg] at h
      simp [hp] at h

theorem httpTaintCond_of_no_port {lm : List (Int × PortProtocol)} {r : Route}
    (h : httpMatchPort r = none) : httpTaintCond lm r = false := by
  rcases hg : r.httpRoute with _ | g
  · simp [httpTaintCond, hg]
  · rcases hp : g.match_.port with _ | p'
    · simp [httpTaintCond, hg, hp]
    · exfalso
      rw [httpMatchPort, hg] at h
      simp [hp] at h

theorem routeTaintCond_of_noMatchPort {lm : List (Int × PortProtocol)} {r : Route}
    (h : routeHasNoMatchPort r) : routeTaintCond lm r = false := by
  rcases h with ⟨h1, h2, h3, h4⟩
  simp [routeTaintCond, tcpTaintCond_of_no_port h1, grpcTaintCond_of_no_port h2,
    http2TaintCond_of_no_port h3, httpTaintCond_of_no_port h4]

/-- C3: a matched route whose sole match variant declares port p (implying
protocol v one-to-one with the variant tag) is in the taint set exactly when
the listener bound to p carries a protocol different from v. -/
theorem c3_taint_port_protocol (routes : List Route) (sdkVR : VirtualRouterData)
    (refs : List RouteRef) (r : Route) (proto : PortProtocol) (p : Int)
    (hnd : (routes.map Route.name).Nodup) (hr : r ∈ routes)
    (hobs : r.name ∈ refs.map refName)
    (hvar : soleVariantPort r = some (proto, p)) :
    (r.name ∈ (taintedSDKRouteRefs routes sdkVR refs).map refName ↔
      listenerProtocolAt (sdkListenerByPort sdkVR) p ≠ proto) := by
  have hlook := lookup_routeByName_self hnd hr
  have hdes : r.name ∈ routes.map Route.name := List.mem_map_of_mem Route.name hr
  rw [mem_taintedSDKRouteRefs_names]
  constructor
  · rintro (⟨_, hnot⟩ | ⟨_, _, r', hr', hc⟩)
    · exact absurd hdes hnot
    · rw [hlook] at hr'
      cases hr'
      exact (routeTaintCond_of_soleVariantPort hvar).mp hc
  · intro hne
    right
    exact ⟨hdes, hobs, r, hlook, (routeTaintCond_of_soleVariantPort hvar).mpr hne⟩

/-- Fixture: a TCP route named r1 declaring match port 443. -/
def wTCPRoute443 : Route := ⟨"r1", none, none, none, some ⟨some ⟨some 443⟩, []⟩, none⟩

/-- Fixture: an HTTP route named r1 with no match port. -/
def wHTTPRouteNoPort : Route := ⟨"r1", none, some ⟨⟨none⟩, [], none⟩, none, none, none⟩

/-- Fixture: a router whose port 443 listener speaks http. -/
def wSDKVRHTTPListener443 : VirtualRouterData := ⟨⟨[⟨⟨some 443, some "http"⟩⟩]⟩⟩

/-- Fixture: a router with no listeners at all. -/
def wSDKVRNoListeners : VirtualRouterData := ⟨⟨[]⟩⟩

/-- Fixture: an observed ref named r1. -/
def wRefR1 : RouteRef := ⟨none, none, none, some "r1"⟩

theorem c3_taint_port_protocol_witness :
    ("r1" ∈ (taintedSDKRouteRefs [wTCPRoute443] wSDKVRHTTPListener443 [wRefR1]).map refName ↔
      listenerProtocolAt (sdkListenerByPort wSDKVRHTTPListener443) 443 ≠ PortProtocolTCP) :=
  c3_taint_port_protocol [wTCPRoute443] wSDKVRHTTPListener443 [wRefR1] wTCPRoute443
    PortProtocolTCP 443 (by decide) (by decide) (by decide) (by decide)

/-- C9: a matched route none of whose variants declares a match port is never
added to the taint set, whatever the listener map holds. -/
theorem c9_no_port_never_tainted (routes : List Route) (sdkVR : VirtualRouterData)
    (refs : List RouteRef) (r : Route)
    (hnd : (routes.map Route.name).Nodup) (hr : r ∈ routes)
    (hnoport : routeHasNoMatchPort r) :
    r.name ∉ (taintedSDKRouteRefs routes sdkVR refs).map refName := by
  intro hmem
  rw [mem_taintedSDKRouteRefs_names] at hmem
  rcases hmem with ⟨_, hnot⟩ | ⟨_, _, r', hr', hc⟩
  · exact hnot (List.mem_map_of_mem Route.name hr)
  · rw [lookup_routeByName_self hnd hr] at hr'
    cases hr'
    rw [routeTaintCond_of_noMatchPort hnoport] at hc
    cases hc

theorem c9_no_port_never_tainted_witness :
    "r1" ∉ (taintedSDKRouteRefs [wHTTPRouteNoPort] wSDKVRHTTPListener443 [wRefR1]).map refName :=
  c9_no_port_never_tainted [wHTTPRouteNoPort] wSDKVRHTTPListener443 [wRefR1] wHTTPRouteNoPort
    (by decide) (by decide) (by decide)

/-- C10: a matched route whose sole variant declares a port with no listener
entry is tainted: the Go map lookup yields the zero-value protocol "", which
differs from every variant protocol. -/
theorem c10_unbound_port_tainted (routes : List Route) (sdkVR : VirtualRouterData)
    (refs : List RouteRef) (r : Route) (proto : PortProtocol) (p : Int)
    (hnd : (routes.map Route.name).Nodup) (hr : r ∈ routes)
    (hobs : r.name ∈ refs.map refName)
    (hvar : soleVariantPort r = some (proto, p))
    (hunbound : p ∉ sdkVR.spec.listeners.map (fun l => int64Value l.portMapping.port)) :
    r.name ∈ (taintedSDKRouteRefs routes sdkVR refs).map refName := by
  have hzero : listenerProtocolAt (sdkListenerByPort sdkVR) p = "" := by
    have hnone : mapLookup p (sdkListenerByPort sdkVR) = none := by
      rw [lookup_eq_none_iff_not_mem_keysOf]
      intro hmem
      exact hunbound ((mem_keysOf_buildMap _ _ _ p).mp hmem)
    simp [listenerProtocolAt, hnone]
  rw [mem_taintedSDKRouteRefs_names]
  right
  refine ⟨List.mem_map_of_mem Route.name hr, hobs, r, lookup_routeByName_self hnd hr, ?_⟩
  rw [routeTaintCond_of_soleVariantPort hvar, hzero]
  exact Ne.symm (soleVariantPort_proto_ne_empty hvar)

theorem c10_unbound_port_tainted_witness :
    "r1" ∈ (taintedSDKRouteRefs [wTCPRoute443] wSDKVRNoListeners [wRefR1]).map refName :=
  c10_unbound_port_tainted [wTCPRoute443] wSDKVRNoListeners [wRefR1] wTCPRoute443
    PortProtocolTCP 443 (by decide) (by decide) (by decide) (by decide) (by decide)

/- ===== remove (C4) ===== -/

theorem eventDeleteNames_append (t1 t2 : Trace) :
    eventDeleteNames (t1 ++ t2) = eventDeleteNames t1 ++ eventDeleteNames t2 :=
  List.filterMap_append t1 t2 _

theorem eventCreateNames_append (t1 t2 : Trace) :
    eventCreateNames (t1 ++ t2) = eventCreateNames t1 ++ eventCreateNames t2 :=
  List.filterMap_append t1 t2 _

theorem eventUpdateNames_append (t1 t2 : Trace) :
    eventUpdateNames (t1 ++ t2) = eventUpdateNames t1 ++ eventUpdateNames t2 :=
  List.filterMap_append t1 t2 _

theorem eventDescribeNames_append (t1 t2 : Trace) :
    eventDescribeNames (t1 ++ t2) = eventDescribeNames t1 ++ eventDescribeNames t2 :=
  List.filterMap_append t1 t2 _

theorem deleteSDKRouteByRef_trace (c : Cloud) (ref : RouteRef) :
    ∃ b, (deleteSDKRouteByRef c ref).2.2 = [⟨.deleteRoute (refName ref), b⟩] := by
  rcases hd : sdkDeleteRoute c (refName ref) with ⟨res, c'⟩
  cases res with
  | error e =>
    by_cases hc : e.code = "NotFoundException" <;>
      simp [deleteSDKRouteByRef, hd, hc]
  | ok u => simp [deleteSDKRouteByRef, hd]

theorem removeTaintedRefs_ok_deleteNames :
    ∀ (refs : List RouteRef) (c : Cloud),
      (removeTaintedRefs refs c).1 = .ok () →
        eventDeleteNames (removeTaintedRefs refs c).2.2 = refs.map refName := by
  intro refs
  induction refs with
  | nil => intro c _; rfl
  | cons ref rest ih =>
    intro c hok
    rcases hd : deleteSDKRouteByRef c ref with ⟨res, c', tr⟩
    cases res with
    | error e =>
      exfalso
      simp only [removeTaintedRefs, hd] at hok
      exact Except.noConfusion hok
    | ok u =>
      have hone := deleteSDKRouteByRef_trace c ref
      rw [hd] at hone
      rcases hone with ⟨b, htr⟩
      simp only at htr
      rcases hrec : removeTaintedRefs rest c' with ⟨res2, c'', tr'⟩
      simp only [removeTaintedRefs, hd, hrec] at hok ⊢
      have hok2 : (removeTaintedRefs rest c').1 = .ok () := by
        rw [hrec]
        cases u
        exact hok
      have hdel := ih c' hok2
      rw [hrec] at hdel
      simp only at hdel
      rw [htr, eventDeleteNames_append, hdel]
      simp [eventDeleteNames]

/-- C4: remove deletes exactly the taint set: the delete calls it issues are
exactly the tainted refs, and a name is tainted exactly when it is observed
and either has no desired counterpart or its desired route fails the
port/protocol compatibility check. -/
theorem c4_remove_deletes_exactly_taint (c : Cloud) (ms : Mesh)
    (sdkVR : VirtualRouterData) (vr : VirtualRouter)
    (hnd : (vr.spec.routes.map Route.name).Nodup)
    (hok : (remove c ms sdkVR vr).1 = .ok ()) :
    (eventDeleteNames (remove c ms sdkVR vr).2.2 =
      (taintedSDKRouteRefs vr.spec.routes sdkVR (listSDKRouteRefs c ms vr).1).map refName) ∧
    (∀ n, n ∈ (taintedSDKRouteRefs vr.spec.routes sdkVR (listSDKRouteRefs c ms vr).1).map refName ↔
      ((n ∈ ((listSDKRouteRefs c ms vr).1).map refName ∧ n ∉ vr.spec.routes.map Route.name) ∨
        (n ∈ ((listSDKRouteRefs c ms vr).1).map refName ∧
          ∃ r ∈ vr.spec.routes, r.name = n ∧
            routeTaintCond (sdkListenerByPort sdkVR) r = true))) := by
  constructor
  · rcases hrem : removeTaintedRefs
        (taintedSDKRouteRefs vr.spec.routes sdkVR (listSDKRouteRefs c ms vr).1) c
      with ⟨res, c', tr⟩
    have hremove : remove c ms sdkVR vr = (res, c', [⟨.listRoutes, true⟩] ++ tr) := by
      simp only [remove, listSDKRouteRefs] at hrem ⊢
      rw [hrem]
    rw [hremove] at hok ⊢
    simp only at hok
    have hok' : (removeTaintedRefs
        (taintedSDKRouteRefs vr.spec.routes sdkVR (listSDKRouteRefs c ms vr).1) c).1 = .ok () := by
      rw [hrem]
      exact hok
    have hnames := removeTaintedRefs_ok_deleteNames _ c hok'
    rw [hrem] at hnames
    simp only at hnames
    simpa [eventDeleteNames] using hnames
  · intro n
    rw [mem_taintedSDKRouteRefs_names]
    constructor
    · rintro (⟨ho, hnd2⟩ | ⟨_, ho, r, hlook, hc⟩)
      · exact Or.inl ⟨ho, hnd2⟩
      · rcases lookup_buildMap_some _ _ _ _ _ hlook with ⟨x, hx, hxname, hxid⟩
        simp only [id] at hxid
        refine Or.inr ⟨ho, x, hx, hxname, ?_⟩
        rw [hxid]
        exact hc
    · rintro (⟨ho, hnd2⟩ | ⟨ho, r, hr, hname, hc⟩)
      · exact Or.inl ⟨ho, hnd2⟩
      · right
        subst hname
        exact ⟨List.mem_map_of_mem Route.name hr, ho, r,
          lookup_routeByName_self hnd hr, hc⟩

/-- Fixture: the remote record of route r1 with the spec wTCPRoute443 builds. -/
def wRouteDataR1 : RouteData :=
  ⟨some "m", ⟨none⟩, some "r1", some "vr",
    ⟨none, none, none, some ⟨some 443, some []⟩, none⟩⟩

/-- Fixture: the cloud state holding exactly the remote route r1. -/
def wCloudR1 : Cloud := ⟨[("r1", wRouteDataR1)], [], [], [], [], []⟩

/-- Fixture: a mesh named m. -/
def wMesh : Mesh := ⟨⟨some "m", none⟩⟩

/-- Fixture: a virtual router named vr desiring exactly wTCPRoute443. -/
def wVRTCP : VirtualRouter := ⟨⟨some "vr", [wTCPRoute443]⟩⟩

theorem c4_remove_deletes_exactly_taint_witness :
    (eventDeleteNames (remove wCloudR1 wMesh wSDKVRHTTPListener443 wVRTCP).2.2 =
      (taintedSDKRouteRefs wVRTCP.spec.routes wSDKVRHTTPListener443
        (listSDKRouteRefs wCloudR1 wMesh wVRTCP).1).map refName) ∧
    (∀ n, n ∈ (taintedSDKRouteRefs wVRTCP.spec.routes wSDKVRHTTPListener443
        (listSDKRouteRefs wCloudR1 wMesh wVRTCP).1).map refName ↔
      ((n ∈ ((listSDKRouteRefs wCloudR1 wMesh wVRTCP).1).map refName ∧
          n ∉ wVRTCP.spec.routes.map Route.name) ∨
        (n ∈ ((listSDKRouteRefs wCloudR1 wMesh wVRTCP).1).map refName ∧
          ∃ r ∈ wVRTCP.spec.routes, r.name = n ∧
            routeTaintCond (sdkListenerByPort wSDKVRHTTPListener443) r = true))) :=
  c4_remove_deletes_exactly_taint wCloudR1 wMesh wSDKVRHTTPListener443 wVRTCP
    (by decide) (by rfl)

/- ===== NotFound during deletion (C2) ===== -/

/-- Fixture: the cloud still lists r1, but the delete call answers
NotFoundException (an external deletion raced with ours). -/
def wCloudR1NotFoundDelete : Cloud := { wCloudR1 with notFoundDeletes := ["r1"] }

/-- Fixture: an empty remote route table. -/
def wCloudEmpty : Cloud := ⟨[], [], [], [], [], []⟩

/-- C2 counterexample: cleanup deletes the observed route r1; the remote
answers NotFoundException and cleanup returns that error — the NotFound is
not treated as success, refuting the claim for cleanup (and update, which
shares reconcile's delete path). -/
theorem c2_counterexample :
    (cleanup wCloudR1NotFoundDelete wMesh wVRTCP).1 =
      .error (.awsError awsNotFound) := by rfl

/-- C2 amended: only remove's deleteSDKRouteByRef swallows a NotFound answer
to the delete call; reconcile's delete path (update and cleanup) propagates
it — deleteSDKRoute returns the NotFoundException as an error, and a
NotFound at the describe preceding the delete surfaces as a route-not-found
error of the whole call. -/
theorem c2_notfound_delete_amended :
    (∀ (c : Cloud) (ref : RouteRef), refName ref ∉ c.failDeletes →
      (refName ref ∈ c.notFoundDeletes ∨ refName ref ∉ keysOf c.routes) →
      (deleteSDKRouteByRef c ref).1 = .ok ()) ∧
    (∀ (c : Cloud) (d : RouteData), stringValue d.routeName ∉ c.failDeletes →
      (stringValue d.routeName ∈ c.notFoundDeletes ∨
        stringValue d.routeName ∉ keysOf c.routes) →
      (deleteSDKRoute c d).1 = .error (.awsError awsNotFound)) ∧
    (∀ (c : Cloud) (ref : RouteRef) (rest : List RouteRef),
      refName ref ∉ c.failDescribes → refName ref ∉ keysOf c.routes →
      (reconcileDeletes (ref :: rest) c).1 = .error (.routeNotFound (refName ref))) := by
  have hdel : ∀ (c : Cloud) (nm : String), nm ∉ c.failDeletes →
      (nm ∈ c.notFoundDeletes ∨ nm ∉ keysOf c.routes) →
      sdkDeleteRoute c nm = (.error awsNotFound, c) := by
    intro c nm hfail hnf
    unfold sdkDeleteRoute
    by_cases h2 : nm ∈ c.notFoundDeletes
    · simp [hfail, h2]
    · rcases hnf with h | h
      · exact absurd h h2
      · have hnone : mapLookup nm c.routes = none := by
          rw [lookup_eq_none_iff_not_mem_keysOf]
          exact h
        simp [hfail, h2, hnone]
  refine ⟨?_, ?_, ?_⟩
  · intro c ref hfail hnf
    simp [deleteSDKRouteByRef, hdel c (refName ref) hfail hnf, awsNotFound]
  · intro c d hfail hnf
    simp [deleteSDKRoute, hdel c (stringValue d.routeName) hfail hnf]
  · intro c ref rest hfail habs
    have hnone : mapLookup (refName ref) c.routes = none := by
      rw [lookup_eq_none_iff_not_mem_keysOf]
      exact habs
    have hdesc : sdkDescribeRoute c (refName ref) = .error awsNotFound := by
      unfold sdkDescribeRoute
      simp [hfail, hnone]
    have hdesc' : sdkDescribeRoute c (stringValue ref.routeName) = .error awsNotFound := hdesc
    have hfind : findSDKRoute c ref =
        (.ok none, [⟨.describeRoute (refName ref), false⟩]) := by
      unfold findSDKRoute
      simp [hdesc', awsNotFound, refName]
    simp [reconcileDeletes, hfind, refName]

theorem c2_notfound_delete_amended_witness :
    (deleteSDKRouteByRef wCloudR1NotFoundDelete wRefR1).1 = .ok () ∧
    (deleteSDKRoute wCloudR1NotFoundDelete wRouteDataR1).1 =
      .error (.awsError awsNotFound) ∧
    (reconcileDeletes [wRefR1] wCloudEmpty).1 = .error (.routeNotFound "r1") :=
  ⟨c2_notfound_delete_amended.1 wCloudR1NotFoundDelete wRefR1 (by decide) (by decide),
    c2_notfound_delete_amended.2.1 wCloudR1NotFoundDelete wRouteDataR1 (by decide) (by decide),
    c2_notfound_delete_amended.2.2 wCloudEmpty wRefR1 [] (by decide) (by decide)⟩

/- ===== create (C7) ===== -/

theorem createSDKRoute_ok {c : Cloud} {ms : Mesh} {vr : VirtualRouter} {route : Route}
    {vnByKey : List (NamespacedName × VirtualNode)} {d : RouteData} {c' : Cloud}
    {tr : Trace} (h : createSDKRoute c ms vr route vnByKey = (.ok d, c', tr)) :
    ∃ s, BuildSDKRouteSpec vr route vnByKey = .ok s ∧
      d = ⟨ms.spec.awsName, ⟨ms.spec.meshOwner⟩, some route.name, vr.spec.awsName, s⟩ ∧
      tr = [⟨.createRoute route.name s, true⟩] ∧
      c' = { c with routes := mapInsert route.name d c.routes } ∧
      route.name ∉ c.failCreates := by
  cases hb : BuildSDKRouteSpec vr route vnByKey with
  | error e =>
    simp only [createSDKRoute, hb] at h
    exact absurd h (by simp)
  | ok s =>
    by_cases hf : route.name ∈ c.failCreates
    · simp only [createSDKRoute, hb, sdkCreateRoute, if_pos hf] at h
      exact absurd h (by simp)
    · simp only [createSDKRoute, hb, sdkCreateRoute, if_neg hf] at h
      simp only [Prod.mk.injEq, Except.ok.injEq] at h
      rcases h with ⟨hd, hc, htr⟩
      exact ⟨s, rfl, hd.symm, htr.symm, by rw [← hc, ← hd], hf⟩

theorem reconcileCreates_ok (ms : Mesh) (vr : VirtualRouter)
    (vnByKey : List (NamespacedName × VirtualNode)) :
    ∀ (rs : List Route) (c : Cloud) (m : List (String × RouteData)),
      (reconcileCreates ms vr vnByKey rs c).1 = .ok m →
      (m.map Prod.fst = rs.map Route.name ∧
        eventCreateNames (reconcileCreates ms vr vnByKey rs c).2.2 = rs.map Route.name ∧
        eventUpdateNames (reconcileCreates ms vr vnByKey rs c).2.2 = [] ∧
        eventDeleteNames (reconcileCreates ms vr vnByKey rs c).2.2 = [] ∧
        eventDescribeNames (reconcileCreates ms vr vnByKey rs c).2.2 = [] ∧
        hasListEvent (reconcileCreates ms vr vnByKey rs c).2.2 = false ∧
        (∀ p ∈ m, ∃ r ∈ rs, r.name = p.1 ∧
          BuildSDKRouteSpec vr r vnByKey = .ok p.2.spec ∧ p.2.routeName = some p.1)) := by
  intro rs
  induction rs with
  | nil =>
    intro c m hok
    simp only [reconcileCreates] at hok ⊢
    cases hok
    simp [eventCreateNames, eventUpdateNames, eventDeleteNames, eventDescribeNames,
      hasListEvent]
  | cons route rest ih =>
    intro c m hok
    rcases hcr : createSDKRoute c ms vr route vnByKey with ⟨res1, c1, tr1⟩
    cases res1 with
    | error e =>
      exfalso
      simp only [reconcileCreates, hcr] at hok
      exact Except.noConfusion hok
    | ok d =>
      rcases hrec : reconcileCreates ms vr vnByKey rest c1 with ⟨res2, c2, tr2⟩
      cases res2 with
      | error e =>
        exfalso
        simp only [reconcileCreates, hcr, hrec] at hok
        exact Except.noConfusion hok
      | ok m2 =>
        simp only [reconcileCreates, hcr, hrec] at hok ⊢
        have hm : m = (route.name, d) :: m2 := by
          cases hok
          rfl
        subst hm
        have hok2 : (reconcileCreates ms vr vnByKey rest c1).1 = .ok m2 := by
          rw [hrec]
        have hih := ih c1 m2 hok2
        rw [hrec] at hih
        simp only at hih
        rcases hih with ⟨h1, h2, h3, h4, h5, h6, h7⟩
        rcases createSDKRoute_ok hcr with ⟨s, hbuild, hd, htr, _, _⟩
        subst htr
        refine ⟨by simp [h1], ?_, ?_, ?_, ?_, ?_, ?_⟩
        · rw [eventCreateNames_append, h2]
          simp [eventCreateNames]
        · rw [eventUpdateNames_append, h3]
          simp [eventUpdateNames]
        · rw [eventDeleteNames_append, h4]
          simp [eventDeleteNames]
        · rw [eventDescribeNames_append, h5]
          simp [eventDescribeNames]
        · simp [hasListEvent, List.any_append] at h6 ⊢
          exact h6
        · intro p hp
          rcases List.mem_cons.mp hp with rfl | hp'
          · refine ⟨route, List.mem_cons_self _ _, rfl, ?_, ?_⟩
            · rw [hd]
              exact hbuild
            · rw [hd]
          · rcases h7 p hp' with ⟨r, hr, hname, hspec, hrn⟩
            exact ⟨r, List.mem_cons_of_mem _ hr, hname, hspec, hrn⟩

theorem matchRoutes_no_refs (routes : List Route) :
    matchRoutesAgainstSDKRouteRefs routes [] =
      ([], (sortStrings (keysOf (buildMap Route.name id routes))).filterMap
        (fun name => mapLookup name (buildMap Route.name id routes)), []) := by
  have e1 : keysOf (buildMap refName id ([] : List RouteRef)) = [] := rfl
  have e2 : setInter (keysOf (buildMap Route.name id routes)) [] = [] := by
    simp [setInter]
  have e3 : setDiff (keysOf (buildMap Route.name id routes)) [] =
      keysOf (buildMap Route.name id routes) := by
    simp [setDiff]
  have e4 : setDiff [] (keysOf (buildMap Route.name id routes)) = [] := rfl
  simp only [matchRoutesAgainstSDKRouteRefs, e1, e2, e3, e4]
  rfl

/-- C7: create performs no remote listing and treats every desired route as
desired-only: on success it issues exactly one create call per desired route
(after building its spec), no describe/update/delete call, and returns a
mapping keyed by exactly the desired names, each bound to the record its
create call returned. -/
theorem c7_create_first_provisioning (c : Cloud) (ms : Mesh) (vr : VirtualRouter)
    (vnByKey : List (NamespacedName × VirtualNode)) (m : List (String × RouteData))
    (hnd : (vr.spec.routes.map Route.name).Nodup)
    (hok : (create c ms vr vnByKey).1 = .ok m) :
    (m.map Prod.fst).Perm (vr.spec.routes.map Route.name) ∧
    (eventCreateNames (create c ms vr vnByKey).2.2).Perm (vr.spec.routes.map Route.name) ∧
    eventUpdateNames (create c ms vr vnByKey).2.2 = [] ∧
    eventDeleteNames (create c ms vr vnByKey).2.2 = [] ∧
    eventDescribeNames (create c ms vr vnByKey).2.2 = [] ∧
    hasListEvent (create c ms vr vnByKey).2.2 = false ∧
    (∀ p ∈ m, ∃ r ∈ vr.spec.routes, r.name = p.1 ∧
      BuildSDKRouteSpec vr r vnByKey = .ok p.2.spec ∧ p.2.routeName = some p.1) := by
  have hkeys : keysOf (buildMap Route.name id vr.spec.routes) = vr.spec.routes.map Route.name :=
    keysOf_buildMap_of_nodup Route.name id hnd
  set rs := (sortStrings (keysOf (buildMap Route.name id vr.spec.routes))).filterMap
    (fun name => mapLookup name (buildMap Route.name id vr.spec.routes)) with hrs
  have hcreate : create c ms vr vnByKey = (
      match reconcileCreates ms vr vnByKey rs c with
      | (.error e, c₁, tr₁) => (.error e, c₁, tr₁)
      | (.ok m₁, c₁, tr₁) => (.ok (m₁ ++ []), c₁, tr₁ ++ [] ++ [])) := by
    show reconcile c ms vr vnByKey vr.spec.routes [] = _
    unfold reconcile
    rw [matchRoutes_no_refs]
    rfl
  have hrsnames : rs.map Route.name = sortStrings (vr.spec.routes.map Route.name) := by
    rw [hrs, ← hkeys]
    apply filterMap_map_eq_self
    intro n hn
    rw [mem_sortStrings] at hn
    have hs : (mapLookup n (buildMap Route.name id vr.spec.routes)).isSome = true :=
      (lookup_isSome_iff_mem_keysOf _ _).mpr hn
    cases hl : mapLookup n (buildMap Route.name id vr.spec.routes) with
    | none => rw [hl] at hs; simp at hs
    | some r =>
      refine ⟨r, rfl, ?_⟩
      · rcases lookup_buildMap_some _ _ _ _ _ hl with ⟨x, _, hxname, hxid⟩
        simp only [id] at hxid
        rw [← hxid]
        exact hxname
  have hrsperm : (rs.map Route.name).Perm (vr.spec.routes.map Route.name) := by
    rw [hrsnames]
    exact sortStrings_perm _
  rcases hrec : reconcileCreates ms vr vnByKey rs c with ⟨res, c1, tr1⟩
  cases res with
  | error e =>
    exfalso
    rw [hcreate] at hok
    rw [hrec] at hok
    exact Except.noConfusion hok
  | ok m1 =>
    rw [hcreate] at hok ⊢
    rw [hrec] at hok ⊢
    simp only [List.append_nil] at hok ⊢
    have hm : m = m1 := by
      cases hok
      rfl
    subst hm
    have hok1 : (reconcileCreates ms vr vnByKey rs c).1 = .ok m := by
      rw [hrec]
    have hall := reconcileCreates_ok ms vr vnByKey rs c m hok1
    rw [hrec] at hall
    simp only at hall
    rcases hall with ⟨h1, h2, h3, h4, h5, h6, h7⟩
    refine ⟨by rw [h1]; exact hrsperm, by rw [h2]; exact hrsperm, h3, h4, h5, h6, ?_⟩
    intro p hp
    rcases h7 p hp with ⟨r, hr, hname, hspec, hrn⟩
    have hrmem : r ∈ (matchRoutesAgainstSDKRouteRefs vr.spec.routes []).2.1 := by
      rw [matchRoutes_no_refs]
      exact hr
    rcases mem_unmatchedRoutes hrmem with ⟨hrin, _⟩
    exact ⟨r, hrin, hname, hspec, hrn⟩

theorem c7_create_first_provisioning_witness :
    ((((create wCloudEmpty wMesh wVRTCP []).1.toOption.getD []).map Prod.fst).Perm
        (wVRTCP.spec.routes.map Route.name) ∧
      (eventCreateNames (create wCloudEmpty wMesh wVRTCP []).2.2).Perm
        (wVRTCP.spec.routes.map Route.name) ∧
      eventUpdateNames (create wCloudEmpty wMesh wVRTCP []).2.2 = [] ∧
      eventDeleteNames (create wCloudEmpty wMesh wVRTCP []).2.2 = [] ∧
      eventDescribeNames (create wCloudEmpty wMesh wVRTCP []).2.2 = [] ∧
      hasListEvent (create wCloudEmpty wMesh wVRTCP []).2.2 = false ∧
      (∀ p ∈ ((create wCloudEmpty wMesh wVRTCP []).1.toOption.getD []),
        ∃ r ∈ wVRTCP.spec.routes, r.name = p.1 ∧
          BuildSDKRouteSpec wVRTCP r [] = .ok p.2.spec ∧ p.2.routeName = some p.1)) :=
  c7_create_first_provisioning wCloudEmpty wMesh wVRTCP []
    ((create wCloudEmpty wMesh wVRTCP []).1.toOption.getD []) (by decide) (by rfl)

/- ===== Trace discipline of reconcile (C8) ===== -/

/-- Every call in the trace was answered with success. -/
def traceAllOk (tr : Trace) : Prop := ∀ ev ∈ tr, ev.ok = true

/-- Every call in the trace except possibly the final one was answered with
success: once a call fails, no further call is issued. -/
def traceOkExceptLast (tr : Trace) : Prop := ∀ ev ∈ tr.dropLast, ev.ok = true

/-- A well-formed remote state: every stored record carries the name it is
keyed under. -/
def CloudWF (c : Cloud) : Prop := ∀ p ∈ c.routes, p.2.routeName = some p.1

instance (c : Cloud) : Decidable (CloudWF c) := by
  unfold CloudWF
  exact List.decidableBAll _ _

theorem traceAllOk_nil : traceAllOk [] := by
  intro ev hev
  simp at hev

theorem traceAllOk.okExceptLast {tr : Trace} (h : traceAllOk tr) :
    traceOkExceptLast tr :=
  fun ev hev => h ev ((List.dropLast_sublist tr).subset hev)

theorem traceAllOk_append {t1 t2 : Trace} (h1 : traceAllOk t1) (h2 : traceAllOk t2) :
    traceAllOk (t1 ++ t2) := by
  intro ev hev
  rcases List.mem_append.mp hev with h | h
  · exact h1 ev h
  · exact h2 ev h

theorem traceOkExceptLast_append {t1 t2 : Trace} (h1 : traceAllOk t1)
    (h2 : traceOkExceptLast t2) : traceOkExceptLast (t1 ++ t2) := by
  cases t2 with
  | nil =>
    intro ev hev
    simp only [List.append_nil] at hev
    exact h1 ev ((List.dropLast_sublist t1).subset hev)
  | cons a t =>
    intro ev hev
    rw [List.dropLast_append_cons] at hev
    rcases List.mem_append.mp hev with h | h
    · exact h1 ev h
    · exact h2 ev h

theorem mem_mapInsert {κ α : Type} [DecidableEq κ] {p : κ × α} {k : κ} {v : α}
    {m : List (κ × α)} (h : p ∈ mapInsert k v m) : p = (k, v) ∨ p ∈ m := by
  induction m with
  | nil => simpa [mapInsert] using h
  | cons q t ih =>
    rcases q with ⟨k', v'⟩
    by_cases hk : k' = k
    · simp only [mapInsert, hk, if_true] at h
      rcases List.mem_cons.mp h with h | h
      · exact Or.inl h
      · exact Or.inr (List.mem_cons_of_mem _ h)
    · simp only [mapInsert, hk, if_false] at h
      rcases List.mem_cons.mp h with h | h
      · exact Or.inr (by simp [h])
      · rcases ih h with h' | h'
        · exact Or.inl h'
        · exact Or.inr (List.mem_cons_of_mem _ h')

theorem CloudWF_insert {c : Cloud} (hwf : CloudWF c) {k : String} {d : RouteData}
    (hd : d.routeName = some k) (rest : Cloud)
    (hrest : rest.routes = mapInsert k d c.routes) : CloudWF rest := by
  intro p hp
  rw [hrest] at hp
  rcases mem_mapInsert hp with rfl | hp'
  · exact hd
  · exact hwf p hp'

theorem CloudWF_remove {c : Cloud} (hwf : CloudWF c) {k : String} (rest : Cloud)
    (hrest : rest.routes = mapRemove k c.routes) : CloudWF rest := by
  intro p hp
  rw [hrest] at hp
  exact hwf p ((List.filter_sublist c.routes).subset hp)

theorem findSDKRoute_trace_shape (c : Cloud) (ref : RouteRef) :
    ∃ b, (findSDKRoute c ref).2 = [⟨.describeRoute (stringValue ref.routeName), b⟩] := by
  cases hd : sdkDescribeRoute c (stringValue ref.routeName) with
  | error e =>
    by_cases hc : e.code = "NotFoundException" <;>
      exact ⟨false, by simp [findSDKRoute, hd, hc]⟩
  | ok d => exact ⟨true, by simp [findSDKRoute, hd]⟩

theorem findSDKRoute_ok_some {c : Cloud} {ref : RouteRef} {d : RouteData}
    (h : (findSDKRoute c ref).1 = .ok (some d)) :
    (findSDKRoute c ref).2 = [⟨.describeRoute (stringValue ref.routeName), true⟩] ∧
      (stringValue ref.routeName, d) ∈ c.routes := by
  cases hd : sdkDescribeRoute c (stringValue ref.routeName) with
  | error e =>
    by_cases hc : e.code = "NotFoundException" <;> simp [findSDKRoute, hd, hc] at h
  | ok d' =>
    simp only [findSDKRoute, hd] at h
    simp only [Except.ok.injEq, Option.some.injEq] at h
    subst h
    refine ⟨by simp [findSDKRoute, hd], ?_⟩
    unfold sdkDescribeRoute at hd
    by_cases hf : stringValue ref.routeName ∈ c.failDescribes
    · rw [if_pos hf] at hd
      exact absurd hd (by simp)
    · rw [if_neg hf] at hd
      cases hl : mapLookup (stringValue ref.routeName) c.routes with
      | none => rw [hl] at hd; exact absurd hd (by simp)
      | some d2 =>
        rw [hl] at hd
        simp only [Except.ok.injEq] at hd
        subst hd
        exact lookup_mem_of_eq_some hl

theorem createSDKRoute_error {c : Cloud} {ms : Mesh} {vr : VirtualRouter} {route : Route}
    {vnByKey : List (NamespacedName × VirtualNode)} {e : ReconcileError} {c' : Cloud}
    {tr : Trace} (h : createSDKRoute c ms vr route vnByKey = (.error e, c', tr)) :
    c' = c ∧ (tr = [] ∨ ∃ s, tr = [⟨.createRoute route.name s, false⟩]) := by
  cases hb : BuildSDKRouteSpec vr route vnByKey with
  | error e2 =>
    simp only [createSDKRoute, hb] at h
    simp only [Prod.mk.injEq] at h
    exact ⟨h.2.1.symm, Or.inl h.2.2.symm⟩
  | ok s =>
    by_cases hf : route.name ∈ c.failCreates
    · simp only [createSDKRoute, hb, sdkCreateRoute, if_pos hf] at h
      simp only [Prod.mk.injEq] at h
      exact ⟨h.2.1.symm, Or.inr ⟨s, h.2.2.symm⟩⟩
    · simp only [createSDKRoute, hb, sdkCreateRoute, if_neg hf] at h
      exact absurd h (by simp)

theorem updateSDKRoute_error {c : Cloud} {sdkRoute : RouteData} {vr : VirtualRouter}
    {route : Route} {vnByKey : List (NamespacedName × VirtualNode)} {e : ReconcileError}
    {c' : Cloud} {tr : Trace}
    (h : updateSDKRoute c sdkRoute vr route vnByKey = (.error e, c', tr)) :
    c' = c ∧ (tr = [] ∨
      ∃ s, tr = [⟨.updateRoute (stringValue sdkRoute.routeName) s, false⟩]) := by
  cases hb : BuildSDKRouteSpec vr route vnByKey with
  | error e2 =>
    simp only [updateSDKRoute, hb] at h
    simp only [Prod.mk.injEq] at h
    exact ⟨h.2.1.symm, Or.inl h.2.2.symm⟩
  | ok s =>
    by_cases hcmp : cmpEqualEmptySpec s sdkRoute.spec = true
    · simp only [updateSDKRoute, hb, hcmp, if_true] at h
      exact absurd h (by simp)
    · by_cases hf : stringValue sdkRoute.routeName ∈ c.failUpdates
      · simp only [updateSDKRoute, hb, hcmp, Bool.false_eq_true, if_false, sdkUpdateRoute, if_pos hf,
          Prod.mk.injEq] at h
        exact ⟨h.2.1.symm, Or.inr ⟨s, h.2.2.symm⟩⟩
      · cases hl : mapLookup (stringValue sdkRoute.routeName) c.routes with
        | none =>
          simp only [updateSDKRoute, hb, hcmp, Bool.false_eq_true, if_false, sdkUpdateRoute, if_neg hf, hl,
            Prod.mk.injEq] at h
          exact ⟨h.2.1.symm, Or.inr ⟨s, h.2.2.symm⟩⟩
        | some d0 =>
          simp only [updateSDKRoute, hb, hcmp, Bool.false_eq_true, if_false, sdkUpdateRoute, if_neg hf, hl] at h
          exact absurd h (by simp)

theorem updateSDKRoute_ok {c : Cloud} {sdkRoute : RouteData} {vr : VirtualRouter}
    {route : Route} {vnByKey : List (NamespacedName × VirtualNode)} {d : RouteData}
    {c' : Cloud} {tr : Trace}
    (h : updateSDKRoute c sdkRoute vr route vnByKey = (.ok d, c', tr)) :
    (tr = [] ∧ c' = c ∧ d = sdkRoute) ∨
      (∃ s d0, mapLookup (stringValue sdkRoute.routeName) c.routes = some d0 ∧
        d = { d0 with spec := s } ∧
        c' = { c with routes := mapInsert (stringValue sdkRoute.routeName) d c.routes } ∧
        tr = [⟨.updateRoute (stringValue sdkRoute.routeName) s, true⟩]) := by
  cases hb : BuildSDKRouteSpec vr route vnByKey with
  | error e2 =>
    simp only [updateSDKRoute, hb] at h
    exact absurd h (by simp)
  | ok s =>
    by_cases hcmp : cmpEqualEmptySpec s sdkRoute.spec = true
    · simp only [updateSDKRoute, hb, hcmp, if_true, Prod.mk.injEq, Except.ok.injEq] at h
      exact Or.inl ⟨h.2.2.symm, h.2.1.symm, h.1.symm⟩
    · by_cases hf : stringValue sdkRoute.routeName ∈ c.failUpdates
      · simp only [updateSDKRoute, hb, hcmp, Bool.false_eq_true, if_false, sdkUpdateRoute, if_pos hf] at h
        exact absurd h (by simp)
      · cases hl : mapLookup (stringValue sdkRoute.routeName) c.routes with
        | none =>
          simp only [updateSDKRoute, hb, hcmp, Bool.false_eq_true, if_false, sdkUpdateRoute, if_neg hf, hl] at h
          exact absurd h (by simp)
        | some d0 =>
          simp only [updateSDKRoute, hb, hcmp, Bool.false_eq_true, if_false, sdkUpdateRoute, if_neg hf, hl] at h
          simp only [Prod.mk.injEq, Except.ok.injEq] at h
          exact Or.inr ⟨s, d0, rfl, h.1.symm, by rw [← h.2.1, ← h.1], h.2.2.symm⟩

theorem deleteSDKRoute_cases {c : Cloud} {d : RouteData} {res : Except ReconcileError Unit}
    {c' : Cloud} {tr : Trace} (h : deleteSDKRoute c d = (res, c', tr)) :
    (∃ b, tr = [⟨.deleteRoute (stringValue d.routeName), b⟩]) ∧
      (res = .ok () → tr = [⟨.deleteRoute (stringValue d.routeName), true⟩] ∧
        c' = { c with routes := mapRemove (stringValue d.routeName) c.routes }) ∧
      (∀ e, res = .error e → c' = c) := by
  unfold deleteSDKRoute at h
  unfold sdkDeleteRoute at h
  by_cases hf : stringValue d.routeName ∈ c.failDeletes
  · rw [if_pos hf] at h
    simp only [Prod.mk.injEq] at h
    refine ⟨⟨false, h.2.2.symm⟩, ?_, fun e _ => h.2.1.symm⟩
    intro hok
    rw [← h.1] at hok
    exact absurd hok (by simp)
  · rw [if_neg hf] at h
    by_cases hnf : stringValue d.routeName ∈ c.notFoundDeletes
    · rw [if_pos hnf] at h
      simp only [Prod.mk.injEq] at h
      refine ⟨⟨false, h.2.2.symm⟩, ?_, fun e _ => h.2.1.symm⟩
      intro hok
      rw [← h.1] at hok
      exact absurd hok (by simp)
    · rw [if_neg hnf] at h
      by_cases hl : (mapLookup (stringValue d.routeName) c.routes).isSome = true
      · rw [if_pos hl] at h
        simp only [Prod.mk.injEq] at h
        exact ⟨⟨true, h.2.2.symm⟩, fun _ => ⟨h.2.2.symm, h.2.1.symm⟩,
          fun e he => by rw [← h.1] at he; exact absurd he (by simp)⟩
      · rw [if_neg hl] at h
        simp only [Prod.mk.injEq] at h
        refine ⟨⟨false, h.2.2.symm⟩, ?_, fun e _ => h.2.1.symm⟩
        intro hok
        rw [← h.1] at hok
        exact absurd hok (by simp)

theorem reconcileCreates_trace (ms : Mesh) (vr : VirtualRouter)
    (vnByKey : List (NamespacedName × VirtualNode)) :
    ∀ (rs : List Route) (c : Cloud),
      traceOkExceptLast (reconcileCreates ms vr vnByKey rs c).2.2 ∧
      ((∃ m, (reconcileCreates ms vr vnByKey rs c).1 = .ok m) →
        traceAllOk (reconcileCreates ms vr vnByKey rs c).2.2) ∧
      eventDeleteNames (reconcileCreates ms vr vnByKey rs c).2.2 = [] ∧
      (∀ n ∈ eventCreateNames (reconcileCreates ms vr vnByKey rs c).2.2,
        n ∈ rs.map Route.name) ∧
      (CloudWF c → CloudWF (reconcileCreates ms vr vnByKey rs c).2.1) := by
  intro rs
  induction rs with
  | nil =>
    intro c
    refine ⟨?_, fun _ => ?_, rfl, ?_, fun h => h⟩
    · intro ev hev
      simp [reconcileCreates] at hev
    · intro ev hev
      simp [reconcileCreates] at hev
    · intro n hn
      simp [reconcileCreates, eventCreateNames] at hn
  | cons route rest ih =>
    intro c
    rcases hcr : createSDKRoute c ms vr route vnByKey with ⟨res1, c1, tr1⟩
    cases res1 with
    | error e =>
      rcases createSDKRoute_error hcr with ⟨hc1, htr⟩
      simp only [reconcileCreates, hcr]
      refine ⟨?_, ?_, ?_, ?_, ?_⟩
      · rcases htr with rfl | ⟨s, rfl⟩ <;> intro ev hev <;> simp at hev
      · rintro ⟨m, hm⟩
        exact absurd hm (by simp)
      · rcases htr with rfl | ⟨s, rfl⟩ <;> rfl
      · rcases htr with rfl | ⟨s, rfl⟩
        · intro n hn
          simp [eventCreateNames] at hn
        · intro n hn
          simp [eventCreateNames] at hn
          simp [hn]
      · intro hwf
        rw [hc1]
        exact hwf
    | ok d =>
      rcases createSDKRoute_ok hcr with ⟨s, hbuild, hd, htr, hc1, _⟩
      have htr1ok : traceAllOk tr1 := by
        rw [htr]
        intro ev hev
        simp at hev
        rw [hev]
      have hwf1 : CloudWF c → CloudWF c1 := by
        intro hwf
        refine CloudWF_insert hwf (d := d) (k := route.name) ?_ c1 ?_
        · rw [hd]
        · rw [hc1]
      rcases hrec : reconcileCreates ms vr vnByKey rest c1 with ⟨res2, c2, tr2⟩
      have hih := ih c1
      rw [hrec] at hih
      simp only at hih
      rcases hih with ⟨ih1, ih2, ih3, ih4, ih5⟩
      have hcreate1 : eventCreateNames tr1 = [route.name] := by
        rw [htr]
        rfl
      have hdel1 : eventDeleteNames tr1 = [] := by
        rw [htr]
        rfl
      cases res2 with
      | error e2 =>
        simp only [reconcileCreates, hcr, hrec]
        refine ⟨traceOkExceptLast_append htr1ok ih1, ?_, ?_, ?_, fun hwf => ih5 (hwf1 hwf)⟩
        · rintro ⟨m, hm⟩
          exact absurd hm (by simp)
        · rw [eventDeleteNames_append, hdel1, ih3]
          rfl
        · intro n hn
          rw [eventCreateNames_append, hcreate1] at hn
          rcases List.mem_append.mp hn with h | h
          · simp at h
            simp [h]
          · exact List.mem_cons_of_mem _ (ih4 n h)
      | ok m2 =>
        simp only [reconcileCreates, hcr, hrec]
        refine ⟨traceOkExceptLast_append htr1ok
            (traceAllOk.okExceptLast (ih2 ⟨m2, rfl⟩)), ?_, ?_, ?_,
            fun hwf => ih5 (hwf1 hwf)⟩
        · intro _
          exact traceAllOk_append htr1ok (ih2 ⟨m2, rfl⟩)
        · rw [eventDeleteNames_append, hdel1, ih3]
          rfl
        · intro n hn
          rw [eventCreateNames_append, hcreate1] at hn
          rcases List.mem_append.mp hn with h | h
          · simp at h
            simp [h]
          · exact List.mem_cons_of_mem _ (ih4 n h)

theorem reconcileMatched_trace (vr : VirtualRouter)
    (vnByKey : List (NamespacedName × VirtualNode)) :
    ∀ (pairs : List routeAndSDKRouteRef) (c : Cloud),
      traceOkExceptLast (reconcileMatched vr vnByKey pairs c).2.2 ∧
      ((∃ m, (reconcileMatched vr vnByKey pairs c).1 = .ok m) →
        traceAllOk (reconcileMatched vr vnByKey pairs c).2.2) ∧
      eventCreateNames (reconcileMatched vr vnByKey pairs c).2.2 = [] ∧
      eventDeleteNames (reconcileMatched vr vnByKey pairs c).2.2 = [] ∧
      (CloudWF c → CloudWF (reconcileMatched vr vnByKey pairs c).2.1) := by
  intro pairs
  induction pairs with
  | nil =>
    intro c
    refine ⟨?_, fun _ => ?_, rfl, rfl, fun h => h⟩
    · intro ev hev
      simp [reconcileMatched] at hev
    · intro ev hev
      simp [reconcileMatched] at hev
  | cons pair rest ih =>
    intro c
    rcases hf : findSDKRoute c pair.sdkRouteRef with ⟨res0, tr0⟩
    have hshape := findSDKRoute_trace_shape c pair.sdkRouteRef
    rw [hf] at hshape
    simp only at hshape
    rcases hshape with ⟨b, htr0⟩
    cases res0 with
    | error e =>
      simp only [reconcileMatched, hf]
      refine ⟨?_, ?_, ?_, ?_, fun h => h⟩
      · rw [htr0]
        intro ev hev
        simp at hev
      · rintro ⟨m, hm⟩
        exact absurd hm (by simp)
      · rw [htr0]
        rfl
      · rw [htr0]
        rfl
    | ok o =>
      cases o with
      | none =>
        simp only [reconcileMatched, hf]
        refine ⟨?_, ?_, ?_, ?_, fun h => h⟩
        · rw [htr0]
          intro ev hev
          simp at hev
        · rintro ⟨m, hm⟩
          exact absurd hm (by simp)
        · rw [htr0]
          rfl
        · rw [htr0]
          rfl
      | some sdkRoute =>
        have hok0 : (findSDKRoute c pair.sdkRouteRef).1 = .ok (some sdkRoute) := by
          rw [hf]
        have hfound := findSDKRoute_ok_some hok0
        have htr0' : tr0 = [⟨.describeRoute (stringValue pair.sdkRouteRef.routeName), true⟩] := by
          have := hfound.1
          rw [hf] at this
          exact this
        have htr0ok : traceAllOk tr0 := by
          rw [htr0']
          intro ev hev
          simp at hev
          rw [hev]
        rcases hu : updateSDKRoute c sdkRoute vr pair.route vnByKey with ⟨res1, c1, tr1⟩
        cases res1 with
        | error e =>
          rcases updateSDKRoute_error hu with ⟨hc1, htr1⟩
          simp only [reconcileMatched, hf, hu]
          refine ⟨?_, ?_, ?_, ?_, ?_⟩
          · refine traceOkExceptLast_append htr0ok ?_
            rcases htr1 with rfl | ⟨s, rfl⟩ <;> intro ev hev <;> simp at hev
          · rintro ⟨m, hm⟩
            exact absurd hm (by simp)
          · rw [eventCreateNames_append, htr0']
            rcases htr1 with rfl | ⟨s, rfl⟩ <;> rfl
          · rw [eventDeleteNames_append, htr0']
            rcases htr1 with rfl | ⟨s, rfl⟩ <;> rfl
          · intro hwf
            rw [hc1]
            exact hwf
        | ok d2 =>
          have hwf1 : CloudWF c → CloudWF c1 := by
            intro hwf
            rcases updateSDKRoute_ok hu with ⟨_, rfl, _⟩ | ⟨s, d0, hl, hd2, hc1, _⟩
            · exact hwf
            · refine CloudWF_insert hwf (d := d2)
                (k := stringValue sdkRoute.routeName) ?_ c1 ?_
              · rw [hd2]
                exact hwf _ (lookup_mem_of_eq_some hl)
              · rw [hc1]
          have htr1ok : traceAllOk tr1 := by
            rcases updateSDKRoute_ok hu with ⟨rfl, _, _⟩ | ⟨s, d0, _, _, _, rfl⟩
            · exact traceAllOk_nil
            · intro ev hev
              simp at hev
              rw [hev]
          have hcreate1 : eventCreateNames tr1 = [] := by
            rcases updateSDKRoute_ok hu with ⟨rfl, _, _⟩ | ⟨s, d0, _, _, _, rfl⟩ <;> rfl
          have hdel1 : eventDeleteNames tr1 = [] := by
            rcases updateSDKRoute_ok hu with ⟨rfl, _, _⟩ | ⟨s, d0, _, _, _, rfl⟩ <;> rfl
          rcases hrec : reconcileMatched vr vnByKey rest c1 with ⟨res2, c2, tr2⟩
          have hih := ih c1
          rw [hrec] at hih
          simp only at hih
          rcases hih with ⟨ih1, ih2, ih3, ih4, ih5⟩
          have hcreate0 : eventCreateNames tr0 = [] := by
            rw [htr0']
            rfl
          have hdel0 : eventDeleteNames tr0 = [] := by
            rw [htr0']
            rfl
          cases res2 with
          | error e2 =>
            simp only [reconcileMatched, hf, hu, hrec]
            refine ⟨?_, ?_, ?_, ?_, fun hwf => ih5 (hwf1 hwf)⟩
            · rw [List.append_assoc]
              exact traceOkExceptLast_append htr0ok (traceOkExceptLast_append htr1ok ih1)
            · rintro ⟨m, hm⟩
              exact absurd hm (by simp)
            · rw [eventCreateNames_append, eventCreateNames_append, hcreate0, hcreate1, ih3]
              rfl
            · rw [eventDeleteNames_append, eventDeleteNames_append, hdel0, hdel1, ih4]
              rfl
          | ok m2 =>
            simp only [reconcileMatched, hf, hu, hrec]
            refine ⟨?_, ?_, ?_, ?_, fun hwf => ih5 (hwf1 hwf)⟩
            · rw [List.append_assoc]
              exact traceOkExceptLast_append htr0ok (traceOkExceptLast_append htr1ok
                (traceAllOk.okExceptLast (ih2 ⟨m2, rfl⟩)))
            · intro _
              rw [List.append_assoc]
              exact traceAllOk_append htr0ok (traceAllOk_append htr1ok (ih2 ⟨m2, rfl⟩))
            · rw [eventCreateNames_append, eventCreateNames_append, hcreate0, hcreate1, ih3]
              rfl
            · rw [eventDeleteNames_append, eventDeleteNames_append, hdel0, hdel1, ih4]
              rfl

theorem reconcileDeletes_trace :
    ∀ (refs : List RouteRef) (c : Cloud), CloudWF c →
      traceOkExceptLast (reconcileDeletes refs c).2.2 ∧
      ((reconcileDeletes refs c).1 = .ok () →
        traceAllOk (reconcileDeletes refs c).2.2) ∧
      eventCreateNames (reconcileDeletes refs c).2.2 = [] ∧
      eventUpdateNames (reconcileDeletes refs c).2.2 = [] ∧
      (∀ n ∈ eventDeleteNames (reconcileDeletes refs c).2.2, n ∈ refs.map refName) ∧
      CloudWF (reconcileDeletes refs c).2.1 := by
  intro refs
  induction refs with
  | nil =>
    intro c hwf
    refine ⟨?_, fun _ => ?_, rfl, rfl, ?_, hwf⟩
    · intro ev hev
      simp [reconcileDeletes] at hev
    · intro ev hev
      simp [reconcileDeletes] at hev
    · intro n hn
      simp [reconcileDeletes, eventDeleteNames] at hn
  | cons ref rest ih =>
    intro c hwf
    rcases hf : findSDKRoute c ref with ⟨res0, tr0⟩
    have hshape := findSDKRoute_trace_shape c ref
    rw [hf] at hshape
    simp only at hshape
    rcases hshape with ⟨b, htr0⟩
    cases res0 with
    | error e =>
      simp only [reconcileDeletes, hf]
      refine ⟨?_, ?_, ?_, ?_, ?_, hwf⟩
      · rw [htr0]
        intro ev hev
        simp at hev
      · intro hm
        exact absurd hm (by simp)
      · rw [htr0]
        rfl
      · rw [htr0]
        rfl
      · rw [htr0]
        intro n hn
        simp [eventDeleteNames] at hn
    | ok o =>
      cases o with
      | none =>
        simp only [reconcileDeletes, hf]
        refine ⟨?_, ?_, ?_, ?_, ?_, hwf⟩
        · rw [htr0]
          intro ev hev
          simp at hev
        · intro hm
          exact absurd hm (by simp)
        · rw [htr0]
          rfl
        · rw [htr0]
          rfl
        · rw [htr0]
          intro n hn
          simp [eventDeleteNames] at hn
      | some sdkRoute =>
        have hok0 : (findSDKRoute c ref).1 = .ok (some sdkRoute) := by
          rw [hf]
        have hfound := findSDKRoute_ok_some hok0
        have htr0' : tr0 = [⟨.describeRoute (stringValue ref.routeName), true⟩] := by
          have := hfound.1
          rw [hf] at this
          exact this
        have htr0ok : traceAllOk tr0 := by
          rw [htr0']
          intro ev hev
          simp at hev
          rw [hev]
        have hname : stringValue sdkRoute.routeName = refName ref := by
          have := hwf _ hfound.2
          simp only at this
          rw [stringValue, this]
          rfl
        rcases hd : deleteSDKRoute c sdkRoute with ⟨res1, c1, tr1⟩
        rcases deleteSDKRoute_cases hd with ⟨⟨b1, htr1⟩, hdok, hderr⟩
        have hdelnames1 : eventDeleteNames tr1 = [refName ref] := by
          rw [htr1, ← hname]
          rfl
        have hcreate1 : eventCreateNames tr1 = [] := by
          rw [htr1]
          rfl
        have hupd1 : eventUpdateNames tr1 = [] := by
          rw [htr1]
          rfl
        cases res1 with
        | error e =>
          simp only [reconcileDeletes, hf, hd]
          refine ⟨?_, ?_, ?_, ?_, ?_, by rw [hderr e rfl]; exact hwf⟩
          · refine traceOkExceptLast_append htr0ok ?_
            rw [htr1]
            intro ev hev
            simp at hev
          · intro hm
            exact absurd hm (by simp)
          · rw [eventCreateNames_append, htr0', hcreate1]
            rfl
          · rw [eventUpdateNames_append, htr0', hupd1]
            rfl
          · intro n hn
            rw [eventDeleteNames_append, htr0', hdelnames1] at hn
            simp [eventDeleteNames] at hn
            simp [hn]
        | ok u =>
          cases u
          rcases hdok rfl with ⟨htr1', hc1⟩
          have hwf1 : CloudWF c1 := CloudWF_remove hwf c1 (by rw [hc1])
          rcases hrec : reconcileDeletes rest c1 with ⟨res2, c2, tr2⟩
          have hih := ih c1 hwf1
          rw [hrec] at hih
          simp only at hih
          rcases hih with ⟨ih1, ih2, ih3, ih4, ih5, ih6⟩
          have htr1ok : traceAllOk tr1 := by
            rw [htr1']
            intro ev hev
            simp at hev
            rw [hev]
          simp only [reconcileDeletes, hf, hd, hrec]
          refine ⟨?_, ?_, ?_, ?_, ?_, ih6⟩
          · rw [List.append_assoc]
            exact traceOkExceptLast_append htr0ok (traceOkExceptLast_append htr1ok ih1)
          · intro hm
            rw [List.append_assoc]
            refine traceAllOk_append htr0ok (traceAllOk_append htr1ok (ih2 ?_))
            cases hres2 : res2 with
            | error e2 =>
              rw [hres2] at hm
              exact absurd hm (by simp)
            | ok u2 =>
              cases u2
              rfl
          · rw [eventCreateNames_append, eventCreateNames_append, htr0', hcreate1, ih3]
            rfl
          · rw [eventUpdateNames_append, eventUpdateNames_append, htr0', hupd1, ih4]
            rfl
          · intro n hn
            rw [eventDeleteNames_append, eventDeleteNames_append, htr0', hdelnames1] at hn
            have h0 : eventDeleteNames [Event.mk
                (.describeRoute (stringValue ref.routeName)) true] = [] := rfl
            rw [h0] at hn
            simp only [List.nil_append] at hn
            rcases List.mem_append.mp hn with h | h
            · simp at h
              simp [h]
            · exact List.mem_cons_of_mem _ (ih5 n h)

/-- C8: reconcile (the body of create, update and cleanup) aborts on the
first error: every call before the final one in the trace was answered with
success, so nothing is attempted past a failure; a successful pass has an
all-successful trace; on error the Except result carries no name-to-record
mapping (the embedding of the Go nil-map return); and there is no
compensating rollback: no route name is both created and deleted within one
pass. -/
theorem c8_first_error_aborts (c : Cloud) (ms : Mesh) (vr : VirtualRouter)
    (vnByKey : List (NamespacedName × VirtualNode)) (routes : List Route)
    (sdkRouteRefs : List RouteRef) (hwf : CloudWF c) :
    traceOkExceptLast (reconcile c ms vr vnByKey routes sdkRouteRefs).2.2 ∧
    ((∃ m, (reconcile c ms vr vnByKey routes sdkRouteRefs).1 = .ok m) →
      traceAllOk (reconcile c ms vr vnByKey routes sdkRouteRefs).2.2) ∧
    (∀ n, n ∈ eventCreateNames (reconcile c ms vr vnByKey routes sdkRouteRefs).2.2 →
      n ∉ eventDeleteNames (reconcile c ms vr vnByKey routes sdkRouteRefs).2.2) := by
  rcases hm : matchRoutesAgainstSDKRouteRefs routes sdkRouteRefs with ⟨pairs, unR, unF⟩
  have hc1 := reconcileCreates_trace ms vr vnByKey unR c
  rcases h1 : reconcileCreates ms vr vnByKey unR c with ⟨res1, c1, tr1⟩
  rw [h1] at hc1
  simp only at hc1
  rcases hc1 with ⟨L11, L12, L13, L14, L15⟩
  have hdisj : ∀ n, n ∈ unR.map Route.name → n ∈ unF.map refName → False := by
    intro n hnr hnf
    rcases List.mem_map.mp hnr with ⟨r, hr, hrname⟩
    rcases List.mem_map.mp hnf with ⟨f, hfm, hfname⟩
    have hr' : r ∈ (matchRoutesAgainstSDKRouteRefs routes sdkRouteRefs).2.1 := by
      rw [hm]
      exact hr
    have hf' : f ∈ (matchRoutesAgainstSDKRouteRefs routes sdkRouteRefs).2.2 := by
      rw [hm]
      exact hfm
    rcases mem_unmatchedRoutes hr' with ⟨hrin, hrnot⟩
    rcases mem_unmatchedRefs hf' with ⟨hfin, _⟩
    apply hrnot
    rw [hrname, ← hfname]
    exact List.mem_map_of_mem refName hfin
  cases res1 with
  | error e =>
    simp only [reconcile, hm, h1]
    refine ⟨L11, ?_, ?_⟩
    · rintro ⟨m, hmo⟩
      exact absurd hmo (by simp)
    · intro n _
      rw [L13]
      simp
  | ok m1 =>
    have htr1ok : traceAllOk tr1 := L12 ⟨m1, rfl⟩
    have hwf1 : CloudWF c1 := L15 hwf
    have hc2 := reconcileMatched_trace vr vnByKey pairs c1
    rcases h2 : reconcileMatched vr vnByKey pairs c1 with ⟨res2, c2, tr2⟩
    rw [h2] at hc2
    simp only at hc2
    rcases hc2 with ⟨L21, L22, L23, L24, L25⟩
    cases res2 with
    | error e =>
      simp only [reconcile, hm, h1, h2]
      refine ⟨traceOkExceptLast_append htr1ok L21, ?_, ?_⟩
      · rintro ⟨m, hmo⟩
        exact absurd hmo (by simp)
      · intro n _
        rw [eventDeleteNames_append, L13, L24]
        simp
    | ok m2 =>
      have htr2ok : traceAllOk tr2 := L22 ⟨m2, rfl⟩
      have hwf2 : CloudWF c2 := L25 hwf1
      have hc3 := reconcileDeletes_trace unF c2 hwf2
      rcases h3 : reconcileDeletes unF c2 with ⟨res3, c3, tr3⟩
      rw [h3] at hc3
      simp only at hc3
      rcases hc3 with ⟨L31, L32, L33, L34, L35, L36⟩
      have hcreateTot : ∀ n, n ∈ eventCreateNames ((tr1 ++ tr2) ++ tr3) →
          n ∈ unR.map Route.name := by
        intro n hn
        rw [eventCreateNames_append, eventCreateNames_append, L23, L33] at hn
        simp only [List.append_nil] at hn
        exact L14 n hn
      have hdelTot : ∀ n, n ∈ eventDeleteNames ((tr1 ++ tr2) ++ tr3) →
          n ∈ unF.map refName := by
        intro n hn
        rw [eventDeleteNames_append, eventDeleteNames_append, L13, L24] at hn
        simp only [List.nil_append] at hn
        exact L35 n hn
      cases res3 with
      | error e =>
        simp only [reconcile, hm, h1, h2, h3]
        refine ⟨?_, ?_, ?_⟩
        · rw [List.append_assoc]
          exact traceOkExceptLast_append htr1ok (traceOkExceptLast_append htr2ok L31)
        · rintro ⟨m, hmo⟩
          exact absurd hmo (by simp)
        · intro n hn hdel
          exact hdisj n (hcreateTot n hn) (hdelTot n hdel)
      | ok u =>
        cases u
        have htr3ok : traceAllOk tr3 := L32 rfl
        simp only [reconcile, hm, h1, h2, h3]
        refine ⟨?_, ?_, ?_⟩
        · rw [List.append_assoc]
          exact traceOkExceptLast_append htr1ok (traceOkExceptLast_append htr2ok
            (traceAllOk.okExceptLast htr3ok))
        · intro _
          rw [List.append_assoc]
          exact traceAllOk_append htr1ok (traceAllOk_append htr2ok htr3ok)
        · intro n hn hdel
          exact hdisj n (hcreateTot n hn) (hdelTot n hdel)

theorem c8_first_error_aborts_witness :
    traceOkExceptLast (reconcile wCloudR1 wMesh wVRTCP [] wVRTCP.spec.routes [wRefR1]).2.2 ∧
    ((∃ m, (reconcile wCloudR1 wMesh wVRTCP [] wVRTCP.spec.routes [wRefR1]).1 = .ok m) →
      traceAllOk (reconcile wCloudR1 wMesh wVRTCP [] wVRTCP.spec.routes [wRefR1]).2.2) ∧
    (∀ n, n ∈ eventCreateNames
        (reconcile wCloudR1 wMesh wVRTCP [] wVRTCP.spec.routes [wRefR1]).2.2 →
      n ∉ eventDeleteNames
        (reconcile wCloudR1 wMesh wVRTCP [] wVRTCP.spec.routes [wRefR1]).2.2) :=
  c8_first_error_aborts wCloudR1 wMesh wVRTCP [] wVRTCP.spec.routes [wRefR1] (by decide)

/- ===== A missing matched route is fatal (C6) ===== -/

theorem reconcileCreates_fields (ms : Mesh) (vr : VirtualRouter)
    (vnByKey : List (NamespacedName × VirtualNode)) :
    ∀ (rs : List Route) (c : Cloud),
      ((reconcileCreates ms vr vnByKey rs c).2.1).failDescribes = c.failDescribes ∧
      ((reconcileCreates ms vr vnByKey rs c).2.1).failCreates = c.failCreates ∧
      ((reconcileCreates ms vr vnByKey rs c).2.1).failUpdates = c.failUpdates := by
  intro rs
  induction rs with
  | nil => intro c; exact ⟨rfl, rfl, rfl⟩
  | cons route rest ih =>
    intro c
    rcases hcr : createSDKRoute c ms vr route vnByKey with ⟨res1, c1, tr1⟩
    cases res1 with
    | error e =>
      rcases createSDKRoute_error hcr with ⟨rfl, _⟩
      simp [reconcileCreates, hcr]
    | ok d =>
      rcases createSDKRoute_ok hcr with ⟨s, _, _, _, hc1, _⟩
      have hfields : c1.failDescribes = c.failDescribes ∧ c1.failCreates = c.failCreates ∧
          c1.failUpdates = c.failUpdates := by
        rw [hc1]
        exact ⟨rfl, rfl, rfl⟩
      have hih := ih c1
      rcases hrec : reconcileCreates ms vr vnByKey rest c1 with ⟨res2, c2, tr2⟩
      rw [hrec] at hih
      simp only at hih
      cases res2 with
      | error e2 =>
        simp only [reconcileCreates, hcr, hrec]
        exact ⟨hih.1.trans hfields.1, hih.2.1.trans hfields.2.1, hih.2.2.trans hfields.2.2⟩
      | ok m2 =>
        simp only [reconcileCreates, hcr, hrec]
        exact ⟨hih.1.trans hfields.1, hih.2.1.trans hfields.2.1, hih.2.2.trans hfields.2.2⟩

theorem reconcileCreates_keys (ms : Mesh) (vr : VirtualRouter)
    (vnByKey : List (NamespacedName × VirtualNode)) :
    ∀ (rs : List Route) (c : Cloud) (n : String), n ∉ rs.map Route.name →
      (n ∈ keysOf ((reconcileCreates ms vr vnByKey rs c).2.1).routes ↔
        n ∈ keysOf c.routes) := by
  intro rs
  induction rs with
  | nil => intro c n _; exact Iff.rfl
  | cons route rest ih =>
    intro c n hn
    simp only [List.map_cons, List.mem_cons, not_or] at hn
    rcases hcr : createSDKRoute c ms vr route vnByKey with ⟨res1, c1, tr1⟩
    cases res1 with
    | error e =>
      rcases createSDKRoute_error hcr with ⟨rfl, _⟩
      simp [reconcileCreates, hcr]
    | ok d =>
      rcases createSDKRoute_ok hcr with ⟨s, _, _, _, hc1, _⟩
      have hkeys1 : n ∈ keysOf c1.routes ↔ n ∈ keysOf c.routes := by
        rw [hc1]
        simp only
        rw [mem_keysOf_mapInsert]
        simp [hn.1]
      have hih := ih c1 n hn.2
      rcases hrec : reconcileCreates ms vr vnByKey rest c1 with ⟨res2, c2, tr2⟩
      rw [hrec] at hih
      simp only at hih
      cases res2 with
      | error e2 =>
        simp only [reconcileCreates, hcr, hrec]
        exact hih.trans hkeys1
      | ok m2 =>
        simp only [reconcileCreates, hcr, hrec]
        exact hih.trans hkeys1

theorem reconcileCreates_success (ms : Mesh) (vr : VirtualRouter)
    (vnByKey : List (NamespacedName × VirtualNode)) :
    ∀ (rs : List Route) (c : Cloud), c.failCreates = [] →
      (∀ r ∈ rs, ∃ s, BuildSDKRouteSpec vr r vnByKey = .ok s) →
      ∃ m, (reconcileCreates ms vr vnByKey rs c).1 = .ok m := by
  intro rs
  induction rs with
  | nil => intro c _ _; exact ⟨[], rfl⟩
  | cons route rest ih =>
    intro c hfc hbuild
    rcases hbuild route (List.mem_cons_self _ _) with ⟨s, hb⟩
    have hnf : route.name ∉ c.failCreates := by
      rw [hfc]
      simp
    rcases hcr : createSDKRoute c ms vr route vnByKey with ⟨res1, c1, tr1⟩
    cases res1 with
    | error e =>
      simp [createSDKRoute, hb, sdkCreateRoute, if_neg hnf] at hcr
    | ok d =>
      rcases createSDKRoute_ok hcr with ⟨s', _, _, _, hc1, _⟩
      have hfc1 : c1.failCreates = [] := by
        rw [hc1]
        simpa using hfc
      rcases ih c1 hfc1 (fun r hr => hbuild r (List.mem_cons_of_mem _ hr)) with ⟨m2, hm2⟩
      rcases hrec : reconcileCreates ms vr vnByKey rest c1 with ⟨res2, c2, tr2⟩
      rw [hrec] at hm2
      simp only at hm2
      cases res2 with
      | error e2 => exact absurd hm2 (by simp)
      | ok m2' =>
        refine ⟨(route.name, d) :: m2', ?_⟩
        simp only [reconcileCreates, hcr, hrec]

theorem updateSDKRoute_success {c : Cloud} {sdkRoute : RouteData} {vr : VirtualRouter}
    {route : Route} {vnByKey : List (NamespacedName × VirtualNode)} {s : SDKRouteSpec}
    (hb : BuildSDKRouteSpec vr route vnByKey = .ok s)
    (hfu : stringValue sdkRoute.routeName ∉ c.failUpdates)
    (hl : (mapLookup (stringValue sdkRoute.routeName) c.routes).isSome = true) :
    ∃ d2, (updateSDKRoute c sdkRoute vr route vnByKey).1 = .ok d2 := by
  by_cases hcmp : cmpEqualEmptySpec s sdkRoute.spec = true
  · exact ⟨sdkRoute, by simp [updateSDKRoute, hb, hcmp]⟩
  · cases hlk : mapLookup (stringValue sdkRoute.routeName) c.routes with
    | none => rw [hlk] at hl; simp at hl
    | some d0 =>
      refine ⟨{ d0 with spec := s }, ?_⟩
      simp [updateSDKRoute, hb, hcmp, sdkUpdateRoute, if_neg hfu, hlk]

theorem reconcileMatched_missing (vr : VirtualRouter)
    (vnByKey : List (NamespacedName × VirtualNode)) :
    ∀ (pairs : List routeAndSDKRouteRef) (c : Cloud), CloudWF c →
      c.failDescribes = [] → c.failUpdates = [] →
      (∀ pair ∈ pairs, ∃ s, BuildSDKRouteSpec vr pair.route vnByKey = .ok s) →
      ((∃ pair ∈ pairs, stringValue pair.sdkRouteRef.routeName ∉ keysOf c.routes) →
        ∃ n', (reconcileMatched vr vnByKey pairs c).1 = .error (.routeNotFound n')) ∧
      (∀ x ∈ eventUpdateNames (reconcileMatched vr vnByKey pairs c).2.2,
        x ∈ keysOf c.routes) := by
  intro pairs
  induction pairs with
  | nil =>
    intro c _ _ _ _
    refine ⟨?_, ?_⟩
    · rintro ⟨pair, hpair, _⟩
      simp at hpair
    · intro x hx
      simp [reconcileMatched, eventUpdateNames] at hx
  | cons pair rest ih =>
    intro c hwf hfd hfu hbuild
    by_cases hmem : stringValue pair.sdkRouteRef.routeName ∈ keysOf c.routes
    · -- the head pair's remote record exists: describe succeeds
      have hsome : (mapLookup (stringValue pair.sdkRouteRef.routeName) c.routes).isSome = true :=
        (lookup_isSome_iff_mem_keysOf _ _).mpr hmem
      cases hlk : mapLookup (stringValue pair.sdkRouteRef.routeName) c.routes with
      | none => rw [hlk] at hsome; simp at hsome
      | some d =>
        have hdesc : sdkDescribeRoute c (stringValue pair.sdkRouteRef.routeName) = .ok d := by
          unfold sdkDescribeRoute
          rw [hfd]
          simp [hlk]
        have hfind : findSDKRoute c pair.sdkRouteRef = (.ok (some d),
            [⟨.describeRoute (stringValue pair.sdkRouteRef.routeName), true⟩]) := by
          simp [findSDKRoute, hdesc]
        have hdname : stringValue d.routeName = stringValue pair.sdkRouteRef.routeName := by
          have := hwf _ (lookup_mem_of_eq_some hlk)
          simp only at this
          rw [stringValue, this]
          rfl
        rcases hbuild pair (List.mem_cons_self _ _) with ⟨s, hb⟩
        have hfu' : stringValue d.routeName ∉ c.failUpdates := by
          rw [hfu]
          simp
        have hlk' : (mapLookup (stringValue d.routeName) c.routes).isSome = true := by
          rw [hdname]
          exact hsome
        rcases updateSDKRoute_success hb hfu' hlk' with ⟨d2, hupd1⟩
        rcases hu : updateSDKRoute c d vr pair.route vnByKey with ⟨res1, c1, tr1⟩
        rw [hu] at hupd1
        simp only at hupd1
        subst hupd1
        -- the cloud after the update has the same keys, WF and failure lists
        have hafter : CloudWF c1 ∧ (∀ x, x ∈ keysOf c1.routes ↔ x ∈ keysOf c.routes) ∧
            c1.failDescribes = [] ∧ c1.failUpdates = [] := by
          rcases updateSDKRoute_ok hu with ⟨_, rfl, _⟩ | ⟨s2, d0, hl0, hd2, hc1, _⟩
          · exact ⟨hwf, fun x => Iff.rfl, hfd, hfu⟩
          · refine ⟨?_, ?_, by rw [hc1]; exact hfd, by rw [hc1]; exact hfu⟩
            · refine CloudWF_insert hwf (d := d2)
                (k := stringValue d.routeName) ?_ c1 ?_
              · rw [hd2]
                exact hwf _ (lookup_mem_of_eq_some hl0)
              · rw [hc1]
            · intro x
              rw [hc1]
              simp only
              rw [mem_keysOf_mapInsert]
              constructor
              · rintro (rfl | hx)
                · rw [hdname]
                  exact hmem
                · exact hx
              · exact Or.inr
        rcases hafter with ⟨hwf1, hkeys1, hfd1, hfu1⟩
        have hih := ih c1 hwf1 hfd1 hfu1
          (fun p hp => hbuild p (List.mem_cons_of_mem _ hp))
        rcases hrec : reconcileMatched vr vnByKey rest c1 with ⟨res2, c2, tr2⟩
        rw [hrec] at hih
        simp only at hih
        have hupdtr1 : ∀ x, x ∈ eventUpdateNames tr1 → x ∈ keysOf c.routes := by
          intro x hx
          rcases updateSDKRoute_ok hu with ⟨rfl, _, _⟩ | ⟨s2, d0, _, _, _, rfl⟩
          · simp [eventUpdateNames] at hx
          · simp [eventUpdateNames] at hx
            rw [hx, hdname]
            exact hmem
        cases res2 with
        | error e2 =>
          simp only [reconcileMatched, hfind, hu, hrec]
          refine ⟨?_, ?_⟩
          · rintro ⟨p2, hp2, hp2abs⟩
            rcases List.mem_cons.mp hp2 with rfl | hp2'
            · exact absurd hmem hp2abs
            · rcases hih.1 ⟨p2, hp2', fun hmem2 => hp2abs ((hkeys1 _).mp hmem2)⟩
                with ⟨n', hn'⟩
              exact ⟨n', by rw [hn']⟩
          · intro x hx
            rw [eventUpdateNames_append, eventUpdateNames_append] at hx
            rcases List.mem_append.mp hx with hx | hx
            · rcases List.mem_append.mp hx with hx | hx
              · simp [eventUpdateNames] at hx
              · exact hupdtr1 x hx
            · exact (hkeys1 x).mp (hih.2 x hx)
        | ok m2 =>
          simp only [reconcileMatched, hfind, hu, hrec]
          refine ⟨?_, ?_⟩
          · rintro ⟨p2, hp2, hp2abs⟩
            rcases List.mem_cons.mp hp2 with rfl | hp2'
            · exact absurd hmem hp2abs
            · rcases hih.1 ⟨p2, hp2', fun hmem2 => hp2abs ((hkeys1 _).mp hmem2)⟩
                with ⟨n', hn'⟩
              exact absurd hn' (by simp)
          · intro x hx
            rw [eventUpdateNames_append, eventUpdateNames_append] at hx
            rcases List.mem_append.mp hx with hx | hx
            · rcases List.mem_append.mp hx with hx | hx
              · simp [eventUpdateNames] at hx
              · exact hupdtr1 x hx
            · exact (hkeys1 x).mp (hih.2 x hx)
    · -- the head pair's remote record is gone: describe answers NotFound
      have hnone : mapLookup (stringValue pair.sdkRouteRef.routeName) c.routes = none := by
        rw [lookup_eq_none_iff_not_mem_keysOf]
        exact hmem
      have hdesc : sdkDescribeRoute c (stringValue pair.sdkRouteRef.routeName) =
          .error awsNotFound := by
        unfold sdkDescribeRoute
        rw [hfd]
        simp [hnone]
      have hfind : findSDKRoute c pair.sdkRouteRef = (.ok none,
          [⟨.describeRoute (stringValue pair.sdkRouteRef.routeName), false⟩]) := by
        simp [findSDKRoute, hdesc, awsNotFound]
      simp only [reconcileMatched, hfind]
      refine ⟨?_, ?_⟩
      · intro _
        exact ⟨stringValue pair.sdkRouteRef.routeName, rfl⟩
      · intro x hx
        simp [eventUpdateNames] at hx

/-- C6: if a route is matched (present in both the desired set and the listed
observed refs) but its remote record is gone by describe time, reconcile —
the body of update — fails with a route-not-found error; the route is not
silently re-created (no create call for it) and not updated.  The
injected-failure lists are empty and the spec builder succeeds on every
desired route so that the route-not-found error is the only failure the pass
can hit; by c8_first_error_aborts it also ends the pass. -/
theorem c6_missing_matched_route_fatal (c : Cloud) (ms : Mesh) (vr : VirtualRouter)
    (vnByKey : List (NamespacedName × VirtualNode)) (routes : List Route)
    (sdkRouteRefs : List RouteRef) (n : String) (hwf : CloudWF c)
    (hdes : n ∈ routes.map Route.name) (hobs : n ∈ sdkRouteRefs.map refName)
    (habs : n ∉ keysOf c.routes)
    (hfd : c.failDescribes = []) (hfc : c.failCreates = []) (hfu : c.failUpdates = [])
    (hbuild : ∀ r ∈ routes, ∃ s, BuildSDKRouteSpec vr r vnByKey = .ok s) :
    (∃ n', (reconcile c ms vr vnByKey routes sdkRouteRefs).1 = .error (.routeNotFound n')) ∧
    n ∉ eventCreateNames (reconcile c ms vr vnByKey routes sdkRouteRefs).2.2 ∧
    n ∉ eventUpdateNames (reconcile c ms vr vnByKey routes sdkRouteRefs).2.2 := by
  rcases hp : matchedPairs_name_mem routes sdkRouteRefs hdes hobs with ⟨pair, hpair, hpname⟩
  have hpref : pair.route.name = refName pair.sdkRouteRef := (mem_matchedPairs hpair).2.2
  have hrefn : stringValue pair.sdkRouteRef.routeName = n := by
    show refName pair.sdkRouteRef = n
    rw [← hpref, hpname]
  rcases hm : matchRoutesAgainstSDKRouteRefs routes sdkRouteRefs with ⟨pairs, unR, unF⟩
  have hpair' : pair ∈ pairs := by
    rw [hm] at hpair
    exact hpair
  have hnotunR : n ∉ unR.map Route.name := by
    intro hmem
    rcases List.mem_map.mp hmem with ⟨r, hr, hrname⟩
    have hr' : r ∈ (matchRoutesAgainstSDKRouteRefs routes sdkRouteRefs).2.1 := by
      rw [hm]
      exact hr
    rcases mem_unmatchedRoutes hr' with ⟨_, hrnot⟩
    rw [hrname] at hrnot
    exact hrnot hobs
  have hunRroutes : ∀ r ∈ unR, r ∈ routes := by
    intro r hr
    have hr' : r ∈ (matchRoutesAgainstSDKRouteRefs routes sdkRouteRefs).2.1 := by
      rw [hm]
      exact hr
    exact (mem_unmatchedRoutes hr').1
  -- the create batch succeeds
  rcases reconcileCreates_success ms vr vnByKey unR c hfc
      (fun r hr => hbuild r (hunRroutes r hr)) with ⟨m1, hok1⟩
  rcases h1 : reconcileCreates ms vr vnByKey unR c with ⟨res1, c1, tr1⟩
  rw [h1] at hok1
  simp only at hok1
  subst hok1
  -- facts about the cloud after the create batch
  have htrace1 := reconcileCreates_trace ms vr vnByKey unR c
  rw [h1] at htrace1
  simp only at htrace1
  have hwf1 : CloudWF c1 := htrace1.2.2.2.2 hwf
  have hfields1 := reconcileCreates_fields ms vr vnByKey unR c
  rw [h1] at hfields1
  simp only at hfields1
  have hkeys1 := reconcileCreates_keys ms vr vnByKey unR c n hnotunR
  rw [h1] at hkeys1
  simp only at hkeys1
  have habs1 : n ∉ keysOf c1.routes := fun hmem => habs (hkeys1.mp hmem)
  -- the matched batch fails with a route-not-found error
  have hpairsb : ∀ p ∈ pairs, ∃ s, BuildSDKRouteSpec vr p.route vnByKey = .ok s := by
    intro p hp
    have hp' : p ∈ (matchRoutesAgainstSDKRouteRefs routes sdkRouteRefs).1 := by
      rw [hm]
      exact hp
    exact hbuild p.route (mem_matchedPairs hp').1
  have hmatched := reconcileMatched_missing vr vnByKey pairs c1 hwf1
    (hfields1.1.trans hfd) (hfields1.2.2.trans hfu) hpairsb
  rcases h2 : reconcileMatched vr vnByKey pairs c1 with ⟨res2, c2, tr2⟩
  rw [h2] at hmatched
  simp only at hmatched
  rcases hmatched.1 ⟨pair, hpair', by rw [hrefn]; exact habs1⟩ with ⟨n', hn'⟩
  cases res2 with
  | ok m2 => exact absurd hn' (by simp)
  | error e =>
    have he : e = .routeNotFound n' := by
      have := hn'
      simp only [Except.error.injEq] at this
      exact this
    subst he
    simp only [reconcile, hm, h1, h2]
    refine ⟨⟨n', rfl⟩, ?_, ?_⟩
    · intro hmem
      rw [eventCreateNames_append] at hmem
      rcases List.mem_append.mp hmem with h | h
      · exact hnotunR (htrace1.2.2.2.1 n h)
      · have htrace2 := reconcileMatched_trace vr vnByKey pairs c1
        rw [h2] at htrace2
        simp only at htrace2
        rw [htrace2.2.2.1] at h
        simp at h
    · intro hmem
      rw [eventUpdateNames_append] at hmem
      rcases List.mem_append.mp hmem with h | h
      · have := reconcileCreates_ok ms vr vnByKey unR c m1 (by rw [h1])
        rw [h1] at this
        simp only at this
        rw [this.2.2.1] at h
        simp at h
      · exact habs1 (hmatched.2 n h)

theorem c6_missing_matched_route_fatal_witness :
    (∃ n', (reconcile wCloudEmpty wMesh wVRTCP [] wVRTCP.spec.routes [wRefR1]).1 =
      .error (.routeNotFound n')) ∧
    "r1" ∉ eventCreateNames
      (reconcile wCloudEmpty wMesh wVRTCP [] wVRTCP.spec.routes [wRefR1]).2.2 ∧
    "r1" ∉ eventUpdateNames
      (reconcile wCloudEmpty wMesh wVRTCP [] wVRTCP.spec.routes [wRefR1]).2.2 :=
  c6_missing_matched_route_fatal wCloudEmpty wMesh wVRTCP [] wVRTCP.spec.routes [wRefR1]
    "r1" (by decide) (by decide) (by decide) (by decide) rfl rfl rfl
    (by
      intro r hr
      simp only [wVRTCP, List.mem_singleton] at hr
      subst hr
      exact ⟨_, rfl⟩)

/- ===== Idempotence of update (C5) ===== -/

theorem findSDKRoute_ok_some_lookup {c : Cloud} {ref : RouteRef} {d : RouteData}
    (h : (findSDKRoute c ref).1 = .ok (some d)) :
    mapLookup (stringValue ref.routeName) c.routes = some d := by
  cases hd : sdkDescribeRoute c (stringValue ref.routeName) with
  | error e =>
    by_cases hc : e.code = "NotFoundException" <;> simp [findSDKRoute, hd, hc] at h
  | ok d' =>
    simp only [findSDKRoute, hd] at h
    simp only [Except.ok.injEq, Option.some.injEq] at h
    subst h
    unfold sdkDescribeRoute at hd
    by_cases hf : stringValue ref.routeName ∈ c.failDescribes
    · rw [if_pos hf] at hd
      exact absurd hd (by simp)
    · rw [if_neg hf] at hd
      cases hl : mapLookup (stringValue ref.routeName) c.routes with
      | none => rw [hl] at hd; exact absurd hd (by simp)
      | some d2 =>
        rw [hl] at hd
        simp only [Except.ok.injEq] at hd
        rw [hd]

theorem mem_matchedPairs_lookup {routes : List Route} {refs : List RouteRef}
    {p : routeAndSDKRouteRef} (hp : p ∈ (matchRoutesAgainstSDKRouteRefs routes refs).1) :
    mapLookup p.route.name (buildMap Route.name id routes) = some p.route := by
  simp only [matchRoutesAgainstSDKRouteRefs, List.mem_filterMap] at hp
  rcases hp with ⟨n, _, hmatch⟩
  cases hr : mapLookup n (buildMap Route.name id routes) with
  | none => rw [hr] at hmatch; simp at hmatch
  | some r =>
    cases hf : mapLookup n (buildMap refName id refs) with
    | none => rw [hr, hf] at hmatch; simp at hmatch
    | some f =>
      rw [hr, hf] at hmatch
      simp only [Option.some.injEq] at hmatch
      subst hmatch
      rcases lookup_buildMap_some _ _ _ _ _ hr with ⟨x, _, hxname, hxid⟩
      simp only [id] at hxid
      subst hxid
      simp only
      rw [hxname]
      exact hr

theorem matchedPairs_pnames_eq (routes : List Route) (refs : List RouteRef) :
    ((matchRoutesAgainstSDKRouteRefs routes refs).1).map
        (fun p => stringValue p.sdkRouteRef.routeName) =
      sortStrings (setInter (keysOf (buildMap Route.name id routes))
        (keysOf (buildMap refName id refs))) := by
  show ((sortStrings (setInter (keysOf (buildMap Route.name id routes))
      (keysOf (buildMap refName id refs)))).filterMap _).map _ = _
  apply filterMap_map_eq_self
  intro n hn
  rw [mem_sortStrings, mem_setInter] at hn
  have hrs : (mapLookup n (buildMap Route.name id routes)).isSome = true :=
    (lookup_isSome_iff_mem_keysOf _ _).mpr hn.1
  have hfs : (mapLookup n (buildMap refName id refs)).isSome = true :=
    (lookup_isSome_iff_mem_keysOf _ _).mpr hn.2
  cases hrl : mapLookup n (buildMap Route.name id routes) with
  | none => rw [hrl] at hrs; simp at hrs
  | some r =>
    cases hfl : mapLookup n (buildMap refName id refs) with
    | none => rw [hfl] at hfs; simp at hfs
    | some f =>
      refine ⟨⟨r, f⟩, rfl, ?_⟩
      rcases lookup_buildMap_some _ _ _ _ _ hfl with ⟨x, _, hxname, hxid⟩
      simp only [id] at hxid
      subst hxid
      exact hxname

theorem matchedPairs_pnames_nodup (routes : List Route) (refs : List RouteRef) :
    (((matchRoutesAgainstSDKRouteRefs routes refs).1).map
      (fun p => stringValue p.sdkRouteRef.routeName)).Nodup := by
  rw [matchedPairs_pnames_eq]
  exact nodup_sortStrings (nodup_setInter _ (nodup_keysOf_buildMap _ _ _))

theorem unmatchedRoutes_names_eq (routes : List Route) (refs : List RouteRef) :
    ((matchRoutesAgainstSDKRouteRefs routes refs).2.1).map Route.name =
      sortStrings (setDiff (keysOf (buildMap Route.name id routes))
        (keysOf (buildMap refName id refs))) := by
  show ((sortStrings (setDiff (keysOf (buildMap Route.name id routes))
      (keysOf (buildMap refName id refs)))).filterMap _).map _ = _
  apply filterMap_map_eq_self
  intro n hn
  rw [mem_sortStrings, mem_setDiff] at hn
  have hrs : (mapLookup n (buildMap Route.name id routes)).isSome = true :=
    (lookup_isSome_iff_mem_keysOf _ _).mpr hn.1
  cases hrl : mapLookup n (buildMap Route.name id routes) with
  | none => rw [hrl] at hrs; simp at hrs
  | some r =>
    refine ⟨r, rfl, ?_⟩
    rcases lookup_buildMap_some _ _ _ _ _ hrl with ⟨x, _, hxname, hxid⟩
    simp only [id] at hxid
    subst hxid
    exact hxname

theorem unmatchedRoutes_names_nodup (routes : List Route) (refs : List RouteRef) :
    (((matchRoutesAgainstSDKRouteRefs routes refs).2.1).map Route.name).Nodup := by
  rw [unmatchedRoutes_names_eq]
  exact nodup_sortStrings (nodup_setDiff _ (nodup_keysOf_buildMap _ _ _))

theorem listSDKRouteRefs_names (c : Cloud) (ms : Mesh) (vr : VirtualRouter) :
    ((listSDKRouteRefs c ms vr).1).map refName = keysOf c.routes := by
  simp [listSDKRouteRefs, sdkListRouteRefs, refName, stringValue, keysOf, List.map_map]

theorem matcher_all_matched_left (routes : List Route) (refs : List RouteRef)
    (h : ∀ n ∈ routes.map Route.name, n ∈ refs.map refName) :
    (matchRoutesAgainstSDKRouteRefs routes refs).2.1 = [] := by
  have hdiff : setDiff (keysOf (buildMap Route.name id routes))
      (keysOf (buildMap refName id refs)) = [] := by
    rw [setDiff, List.filter_eq_nil_iff]
    intro n hn
    have hmem : n ∈ keysOf (buildMap refName id refs) :=
      (mem_keysOf_buildMap refName id refs n).mpr
        (h n ((mem_keysOf_buildMap Route.name id routes n).mp hn))
    simp [hmem]
  show (sortStrings (setDiff (keysOf (buildMap Route.name id routes))
      (keysOf (buildMap refName id refs)))).filterMap _ = []
  rw [hdiff]
  rfl

theorem matcher_all_matched_right (routes : List Route) (refs : List RouteRef)
    (h : ∀ n ∈ refs.map refName, n ∈ routes.map Route.name) :
    (matchRoutesAgainstSDKRouteRefs routes refs).2.2 = [] := by
  have hdiff : setDiff (keysOf (buildMap refName id refs))
      (keysOf (buildMap Route.name id routes)) = [] := by
    rw [setDiff, List.filter_eq_nil_iff]
    intro n hn
    have hmem : n ∈ keysOf (buildMap Route.name id routes) :=
      (mem_keysOf_buildMap Route.name id routes n).mpr
        (h n ((mem_keysOf_buildMap refName id refs n).mp hn))
    simp [hmem]
  show (sortStrings (setDiff (keysOf (buildMap refName id refs))
      (keysOf (buildMap Route.name id routes)))).filterMap _ = []
  rw [hdiff]
  rfl

theorem updateSDKRoute_ok_build {c : Cloud} {sdkRoute : RouteData} {vr : VirtualRouter}
    {route : Route} {vnByKey : List (NamespacedName × VirtualNode)} {d : RouteData}
    {c' : Cloud} {tr : Trace}
    (h : updateSDKRoute c sdkRoute vr route vnByKey = (.ok d, c', tr)) :
    ∃ s, BuildSDKRouteSpec vr route vnByKey = .ok s ∧
      cmpEqualEmptySpec s d.spec = true := by
  cases hb : BuildSDKRouteSpec vr route vnByKey with
  | error e2 =>
    simp only [updateSDKRoute, hb] at h
    exact absurd h (by simp)
  | ok s =>
    refine ⟨s, rfl, ?_⟩
    by_cases hcmp : cmpEqualEmptySpec s sdkRoute.spec = true
    · simp only [updateSDKRoute, hb, hcmp, if_true, Prod.mk.injEq, Except.ok.injEq] at h
      rw [← h.1]
      exact hcmp
    · by_cases hf : stringValue sdkRoute.routeName ∈ c.failUpdates
      · simp only [updateSDKRoute, hb, hcmp, Bool.false_eq_true, if_false, sdkUpdateRoute,
          if_pos hf] at h
        exact absurd h (by simp)
      · cases hl : mapLookup (stringValue sdkRoute.routeName) c.routes with
        | none =>
          simp only [updateSDKRoute, hb, hcmp, Bool.false_eq_true, if_false, sdkUpdateRoute,
            if_neg hf, hl] at h
          exact absurd h (by simp)
        | some d0 =>
          simp only [updateSDKRoute, hb, hcmp, Bool.false_eq_true, if_false, sdkUpdateRoute,
            if_neg hf, hl, Prod.mk.injEq, Except.ok.injEq] at h
          rw [← h.1]
          exact cmpEqualEmptySpec_refl s

theorem reconcileCreates_post (ms : Mesh) (vr : VirtualRouter)
    (vnByKey : List (NamespacedName × VirtualNode)) :
    ∀ (rs : List Route) (c : Cloud) (m : List (String × RouteData)),
      (rs.map Route.name).Nodup →
      (reconcileCreates ms vr vnByKey rs c).1 = .ok m →
      ∀ n : String,
        (n ∈ rs.map Route.name →
          ∃ r ∈ rs, r.name = n ∧ ∃ s, BuildSDKRouteSpec vr r vnByKey = .ok s ∧
            ∃ d, mapLookup n ((reconcileCreates ms vr vnByKey rs c).2.1).routes = some d ∧
              d.spec = s) ∧
        (n ∉ rs.map Route.name →
          mapLookup n ((reconcileCreates ms vr vnByKey rs c).2.1).routes =
            mapLookup n c.routes) := by
  intro rs
  induction rs with
  | nil =>
    intro c m _ _ n
    refine ⟨?_, fun _ => rfl⟩
    intro hn
    simp at hn
  | cons route rest ih =>
    intro c m hnd hok n
    simp only [List.map_cons, List.nodup_cons] at hnd
    rcases hcr : createSDKRoute c ms vr route vnByKey with ⟨res1, c1, tr1⟩
    cases res1 with
    | error e =>
      exfalso
      simp only [reconcileCreates, hcr] at hok
      exact Except.noConfusion hok
    | ok d =>
      rcases createSDKRoute_ok hcr with ⟨s, hbuild, hd, _, hc1, _⟩
      rcases hrec : reconcileCreates ms vr vnByKey rest c1 with ⟨res2, c2, tr2⟩
      cases res2 with
      | error e2 =>
        exfalso
        simp only [reconcileCreates, hcr, hrec] at hok
        exact Except.noConfusion hok
      | ok m2 =>
        have hih := ih c1 m2 hnd.2 (by rw [hrec])
        have hihn := hih n
        rcases hrec2 : reconcileCreates ms vr vnByKey rest c1 with ⟨res2', c2', tr2'⟩
        rw [hrec] at hrec2
        cases hrec2
        rw [hrec] at hihn
        simp only at hihn
        have hlook1 : ∀ x : String, x ≠ route.name →
            mapLookup x c1.routes = mapLookup x c.routes := by
          intro x hx
          rw [hc1]
          simp only
          exact lookup_mapInsert_ne _ _ hx
        have hlookself : mapLookup route.name c1.routes = some d := by
          rw [hc1]
          simp only
          exact lookup_mapInsert_self _ _ _
        simp only [reconcileCreates, hcr, hrec]
        refine ⟨?_, ?_⟩
        · intro hn
          rcases List.mem_cons.mp hn with rfl | hn'
          · refine ⟨route, List.mem_cons_self _ _, rfl, s, hbuild, d, ?_, by rw [hd]⟩
            rw [hihn.2 hnd.1]
            exact hlookself
          · rcases hihn.1 hn' with ⟨r, hr, hrname, s2, hb2, d2, hld2, hspec2⟩
            exact ⟨r, List.mem_cons_of_mem _ hr, hrname, s2, hb2, d2, hld2, hspec2⟩
        · intro hn
          simp only [List.map_cons, List.mem_cons, not_or] at hn
          rw [hihn.2 hn.2]
          exact hlook1 n hn.1

theorem reconcileMatched_post (vr : VirtualRouter)
    (vnByKey : List (NamespacedName × VirtualNode)) :
    ∀ (pairs : List routeAndSDKRouteRef) (c : Cloud) (m : List (String × RouteData)),
      CloudWF c →
      ((pairs.map (fun p => stringValue p.sdkRouteRef.routeName)).Nodup) →
      (reconcileMatched vr vnByKey pairs c).1 = .ok m →
      ∀ n : String,
        ((∃ p ∈ pairs, stringValue p.sdkRouteRef.routeName = n) →
          ∃ p ∈ pairs, stringValue p.sdkRouteRef.routeName = n ∧
            ∃ s, BuildSDKRouteSpec vr p.route vnByKey = .ok s ∧
              ∃ d, mapLookup n ((reconcileMatched vr vnByKey pairs c).2.1).routes = some d ∧
                cmpEqualEmptySpec s d.spec = true) ∧
        ((∀ p ∈ pairs, stringValue p.sdkRouteRef.routeName ≠ n) →
          mapLookup n ((reconcileMatched vr vnByKey pairs c).2.1).routes =
            mapLookup n c.routes) := by
  intro pairs
  induction pairs with
  | nil =>
    intro c m _ _ _ n
    refine ⟨?_, fun _ => rfl⟩
    rintro ⟨p, hp, _⟩
    simp at hp
  | cons pair rest ih =>
    intro c m hwf hnd hok n
    simp only [List.map_cons, List.nodup_cons] at hnd
    rcases hf : findSDKRoute c pair.sdkRouteRef with ⟨res0, tr0⟩
    cases res0 with
    | error e =>
      exfalso
      simp only [reconcileMatched, hf] at hok
      exact Except.noConfusion hok
    | ok o =>
      cases o with
      | none =>
        exfalso
        simp only [reconcileMatched, hf] at hok
        exact Except.noConfusion hok
      | some d0 =>
        have hl0 : mapLookup (stringValue pair.sdkRouteRef.routeName) c.routes = some d0 :=
          findSDKRoute_ok_some_lookup (by rw [hf])
        have hd0name : stringValue d0.routeName = stringValue pair.sdkRouteRef.routeName := by
          have := hwf _ (lookup_mem_of_eq_some hl0)
          simp only at this
          rw [stringValue, this]
          rfl
        rcases hu : updateSDKRoute c d0 vr pair.route vnByKey with ⟨res1, c1, tr1⟩
        cases res1 with
        | error e =>
          exfalso
          simp only [reconcileMatched, hf, hu] at hok
          exact Except.noConfusion hok
        | ok d2 =>
          rcases updateSDKRoute_ok_build hu with ⟨s, hb, hcmp⟩
          have hkeep : mapLookup (stringValue pair.sdkRouteRef.routeName) c1.routes =
              some d2 ∧ (∀ x : String, x ≠ stringValue pair.sdkRouteRef.routeName →
                mapLookup x c1.routes = mapLookup x c.routes) ∧ CloudWF c1 := by
            rcases updateSDKRoute_ok hu with ⟨_, rfl, rfl⟩ | ⟨s2, d02, hl02, hd2, hc1, _⟩
            · exact ⟨hl0, fun x _ => rfl, hwf⟩
            · rw [hd0name] at hc1
              refine ⟨?_, ?_, ?_⟩
              · rw [hc1]
                simp only
                exact lookup_mapInsert_self _ _ _
              · intro x hx
                rw [hc1]
                simp only
                exact lookup_mapInsert_ne _ _ hx
              · refine CloudWF_insert hwf (d := d2)
                  (k := stringValue pair.sdkRouteRef.routeName) ?_ c1 (by rw [hc1])
                rw [hd2]
                rw [hd0name] at hl02
                have := hwf _ (lookup_mem_of_eq_some hl02)
                simp only at this
                exact this
          rcases hkeep with ⟨hkeep1, hkeep2, hwf1⟩
          rcases hrec : reconcileMatched vr vnByKey rest c1 with ⟨res2, c2, tr2⟩
          cases res2 with
          | error e2 =>
            exfalso
            simp only [reconcileMatched, hf, hu, hrec] at hok
            exact Except.noConfusion hok
          | ok m2 =>
            have hih := ih c1 m2 hwf1 hnd.2 (by rw [hrec])
            have hihn := fun x => hih x
            simp only [hrec] at hihn
            simp only [reconcileMatched, hf, hu, hrec]
            refine ⟨?_, ?_⟩
            · rintro ⟨p, hp, hpname⟩
              rcases List.mem_cons.mp hp with rfl | hp'
              · refine ⟨p, List.mem_cons_self _ _, hpname, s, hb, d2, ?_, hcmp⟩
                rw [(hihn n).2, ← hpname]
                · exact hkeep1
                · intro p2 hp2 hp2name
                  apply hnd.1
                  rw [hpname, ← hp2name]
                  exact List.mem_map_of_mem _ hp2
              · rcases (hihn n).1 ⟨p, hp', hpname⟩ with ⟨p2, hp2, h1, s2, h2, d3, h3, h4⟩
                exact ⟨p2, List.mem_cons_of_mem _ hp2, h1, s2, h2, d3, h3, h4⟩
            · intro hall
              rw [(hihn n).2 (fun p hp => hall p (List.mem_cons_of_mem _ hp))]
              exact hkeep2 n (fun heq => hall pair (List.mem_cons_self _ _) heq.symm)

theorem reconcileDeletes_post :
    ∀ (refs : List RouteRef) (c : Cloud), CloudWF c →
      (reconcileDeletes refs c).1 = .ok () →
      ∀ n : String,
        (n ∈ refs.map refName →
          mapLookup n ((reconcileDeletes refs c).2.1).routes = none) ∧
        (n ∉ refs.map refName →
          mapLookup n ((reconcileDeletes refs c).2.1).routes = mapLookup n c.routes) := by
  intro refs
  induction refs with
  | nil =>
    intro c _ _ n
    refine ⟨?_, fun _ => rfl⟩
    intro hn
    simp at hn
  | cons ref rest ih =>
    intro c hwf hok n
    rcases hf : findSDKRoute c ref with ⟨res0, tr0⟩
    cases res0 with
    | error e =>
      exfalso
      simp only [reconcileDeletes, hf] at hok
      exact Except.noConfusion hok
    | ok o =>
      cases o with
      | none =>
        exfalso
        simp only [reconcileDeletes, hf] at hok
        exact Except.noConfusion hok
      | some d0 =>
        have hl0 : mapLookup (stringValue ref.routeName) c.routes = some d0 :=
          findSDKRoute_ok_some_lookup (by rw [hf])
        have hd0name : stringValue d0.routeName = stringValue ref.routeName := by
          have := hwf _ (lookup_mem_of_eq_some hl0)
          simp only at this
          rw [stringValue, this]
          rfl
        rcases hd : deleteSDKRoute c d0 with ⟨res1, c1, tr1⟩
        cases res1 with
        | error e =>
          exfalso
          simp only [reconcileDeletes, hf, hd] at hok
          exact Except.noConfusion hok
        | ok u =>
          cases u
          rcases (deleteSDKRoute_cases hd).2.1 rfl with ⟨_, hc1⟩
          rw [hd0name] at hc1
          have hwf1 : CloudWF c1 := CloudWF_remove hwf c1 (by rw [hc1])
          have hremself : mapLookup (stringValue ref.routeName) c1.routes = none := by
            rw [hc1]
            simp only
            exact lookup_mapRemove_self _ _
          have hremne : ∀ x : String, x ≠ stringValue ref.routeName →
              mapLookup x c1.routes = mapLookup x c.routes := by
            intro x hx
            rw [hc1]
            simp only
            exact lookup_mapRemove_ne _ hx
          rcases hrec : reconcileDeletes rest c1 with ⟨res2, c2, tr2⟩
          have hok2 : (reconcileDeletes rest c1).1 = .ok () := by
            rw [hrec]
            simp only [reconcileDeletes, hf, hd, hrec] at hok
            cases hres2 : res2 with
            | error e2 => rw [hres2] at hok; exact absurd hok (by simp)
            | ok u2 => cases u2; rfl
          have hih := ih c1 hwf1 hok2 n
          rw [hrec] at hih
          simp only at hih
          simp only [reconcileDeletes, hf, hd, hrec]
          refine ⟨?_, ?_⟩
          · intro hn
            rcases List.mem_cons.mp hn with heq | hn'
            · by_cases hmem : n ∈ rest.map refName
              · exact hih.1 hmem
              · rw [hih.2 hmem, heq]
                exact hremself
            · exact hih.1 hn'
          · intro hn
            simp only [List.map_cons, List.mem_cons, not_or] at hn
            rw [hih.2 hn.2]
            exact hremne n hn.1

/- ===== update idempotence (C5) ===== -/

theorem reconcileMatched_noop (vr : VirtualRouter)
    (vnByKey : List (NamespacedName × VirtualNode)) :
    ∀ (pairs : List routeAndSDKRouteRef) (c : Cloud),
      (∀ p ∈ pairs, ∀ d : RouteData,
        mapLookup (stringValue p.sdkRouteRef.routeName) c.routes = some d →
        ∃ s, BuildSDKRouteSpec vr p.route vnByKey = .ok s ∧
          cmpEqualEmptySpec s d.spec = true) →
      eventCreateNames (reconcileMatched vr vnByKey pairs c).2.2 = [] ∧
      eventUpdateNames (reconcileMatched vr vnByKey pairs c).2.2 = [] ∧
      eventDeleteNames (reconcileMatched vr vnByKey pairs c).2.2 = [] ∧
      (reconcileMatched vr vnByKey pairs c).2.1 = c := by
  intro pairs
  induction pairs with
  | nil =>
    intro c _
    exact ⟨rfl, rfl, rfl, rfl⟩
  | cons pair rest ih =>
    intro c hyp
    rcases hf : findSDKRoute c pair.sdkRouteRef with ⟨res0, tr0⟩
    rcases findSDKRoute_trace_shape c pair.sdkRouteRef with ⟨b, htr⟩
    have htr0 : tr0 = [⟨.describeRoute (stringValue pair.sdkRouteRef.routeName), b⟩] := by
      rw [← htr, hf]
    subst htr0
    cases res0 with
    | error e =>
      simp only [reconcileMatched, hf]
      refine ⟨?_, ?_, ?_, ?_⟩ <;> trivial
    | ok o =>
      cases o with
      | none =>
        simp only [reconcileMatched, hf]
        refine ⟨?_, ?_, ?_, ?_⟩ <;> trivial
      | some d0 =>
        have hl0 : mapLookup (stringValue pair.sdkRouteRef.routeName) c.routes = some d0 :=
          findSDKRoute_ok_some_lookup (by rw [hf])
        rcases hyp pair (List.mem_cons_self _ _) d0 hl0 with ⟨s, hb, hcmp⟩
        have hu : updateSDKRoute c d0 vr pair.route vnByKey = (.ok d0, c, []) := by
          simp only [updateSDKRoute, hb, hcmp, if_true]
        have hih := ih c (fun p hp d hld => hyp p (List.mem_cons_of_mem _ hp) d hld)
        rcases hrec : reconcileMatched vr vnByKey rest c with ⟨res2, c2, tr2⟩
        rw [hrec] at hih
        simp only at hih
        cases res2 with
        | error e2 =>
          simp only [reconcileMatched, hf, hu, hrec]
          refine ⟨?_, ?_, ?_, hih.2.2.2⟩
          · simp only [eventCreateNames_append, hih.1]
            rfl
          · simp only [eventUpdateNames_append, hih.2.1]
            rfl
          · simp only [eventDeleteNames_append, hih.2.2.1]
            rfl
        | ok m2 =>
          simp only [reconcileMatched, hf, hu, hrec]
          refine ⟨?_, ?_, ?_, hih.2.2.2⟩
          · simp only [eventCreateNames_append, hih.1]
            rfl
          · simp only [eventUpdateNames_append, hih.2.1]
            rfl
          · simp only [eventDeleteNames_append, hih.2.2.1]
            rfl

theorem update_post {c : Cloud} {ms : Mesh} {vr : VirtualRouter}
    {vnByKey : List (NamespacedName × VirtualNode)} {m : List (String × RouteData)}
    (hwf : CloudWF c) (hnd : (vr.spec.routes.map Route.name).Nodup)
    (hok : (update c ms vr vnByKey).1 = .ok m) :
    ∀ n : String,
      (n ∈ vr.spec.routes.map Route.name →
        ∃ r ∈ vr.spec.routes, r.name = n ∧
          ∃ s, BuildSDKRouteSpec vr r vnByKey = .ok s ∧
            ∃ d, mapLookup n ((update c ms vr vnByKey).2.1).routes = some d ∧
              cmpEqualEmptySpec s d.spec = true) ∧
      (n ∉ vr.spec.routes.map Route.name →
        mapLookup n ((update c ms vr vnByKey).2.1).routes = none) := by
  rcases hlist : listSDKRouteRefs c ms vr with ⟨refs, tr0⟩
  have hrefs : refs.map refName = keysOf c.routes := by
    have h := listSDKRouteRefs_names c ms vr
    rw [hlist] at h
    exact h
  rcases hmatch : matchRoutesAgainstSDKRouteRefs vr.spec.routes refs with ⟨pairs, unR, unF⟩
  have hmemP : ∀ p ∈ pairs, p.route ∈ vr.spec.routes ∧ p.sdkRouteRef ∈ refs ∧
      p.route.name = refName p.sdkRouteRef := by
    intro p hp
    exact mem_matchedPairs (by rw [hmatch]; exact hp)
  have hmemR : ∀ r ∈ unR, r ∈ vr.spec.routes ∧ r.name ∉ refs.map refName := by
    intro r hr
    exact mem_unmatchedRoutes (by rw [hmatch]; exact hr)
  have hmemF : ∀ f ∈ unF, f ∈ refs ∧ refName f ∉ vr.spec.routes.map Route.name := by
    intro f hf
    exact mem_unmatchedRefs (by rw [hmatch]; exact hf)
  have hndR : (unR.map Route.name).Nodup := by
    have h := unmatchedRoutes_names_nodup vr.spec.routes refs
    rw [hmatch] at h
    exact h
  have hndP : (pairs.map (fun p => stringValue p.sdkRouteRef.routeName)).Nodup := by
    have h := matchedPairs_pnames_nodup vr.spec.routes refs
    rw [hmatch] at h
    exact h
  rcases hc1 : reconcileCreates ms vr vnByKey unR c with ⟨res1, c1, tr1⟩
  cases res1 with
  | error e =>
    exfalso
    simp only [update, hlist, reconcile, hmatch, hc1] at hok
    exact Except.noConfusion hok
  | ok m1 =>
    have hwf1 : CloudWF c1 := by
      have h := (reconcileCreates_trace ms vr vnByKey unR c).2.2.2.2 hwf
      rw [hc1] at h
      exact h
    have hpost1 := reconcileCreates_post ms vr vnByKey unR c m1 hndR (by rw [hc1])
    rw [hc1] at hpost1
    simp only at hpost1
    rcases hc2 : reconcileMatched vr vnByKey pairs c1 with ⟨res2, c2, tr2⟩
    cases res2 with
    | error e =>
      exfalso
      simp only [update, hlist, reconcile, hmatch, hc1, hc2] at hok
      exact Except.noConfusion hok
    | ok m2 =>
      have hwf2 : CloudWF c2 := by
        have h := (reconcileMatched_trace vr vnByKey pairs c1).2.2.2.2 hwf1
        rw [hc2] at h
        exact h
      have hpost2 := reconcileMatched_post vr vnByKey pairs c1 m2 hwf1 hndP (by rw [hc2])
      rw [hc2] at hpost2
      simp only at hpost2
      rcases hc3 : reconcileDeletes unF c2 with ⟨res3, c3, tr3⟩
      cases res3 with
      | error e =>
        exfalso
        simp only [update, hlist, reconcile, hmatch, hc1, hc2, hc3] at hok
        exact Except.noConfusion hok
      | ok u =>
        cases u
        have hpost3 := reconcileDeletes_post unF c2 hwf2 (by rw [hc3])
        rw [hc3] at hpost3
        simp only at hpost3
        have hcloud : (update c ms vr vnByKey).2.1 = c3 := by
          simp only [update, hlist, reconcile, hmatch, hc1, hc2, hc3]
        rw [hcloud]
        intro n
        by_cases hmemn : n ∈ vr.spec.routes.map Route.name
        · refine ⟨fun _ => ?_, fun hcon => absurd hmemn hcon⟩
          by_cases hrefn : n ∈ refs.map refName
          · rcases matchedPairs_name_mem vr.spec.routes refs hmemn hrefn with ⟨p0, hp0, hp0name⟩
            have hp0m : p0 ∈ pairs := by
              have h := hp0
              rw [hmatch] at h
              exact h
            have hpn0 : stringValue p0.sdkRouteRef.routeName = n := by
              have h : p0.route.name = stringValue p0.sdkRouteRef.routeName :=
                (hmemP p0 hp0m).2.2
              rw [← h]
              exact hp0name
            rcases (hpost2 n).1 ⟨p0, hp0m, hpn0⟩ with ⟨p, hp, hpname, s, hbs, d, hld, hcmp⟩
            have hnotF : n ∉ unF.map refName := by
              intro hmem
              rcases List.mem_map.mp hmem with ⟨f, hfm, hfname⟩
              exact (hmemF f hfm).2 (hfname ▸ hmemn)
            have h3 : mapLookup n c3.routes = mapLookup n c2.routes := (hpost3 n).2 hnotF
            have hprn : p.route.name = n := by
              have h : p.route.name = stringValue p.sdkRouteRef.routeName := (hmemP p hp).2.2
              rw [h, hpname]
            refine ⟨p.route, (hmemP p hp).1, hprn, s, hbs, d, ?_, hcmp⟩
            rw [h3]
            exact hld
          · have hinR : n ∈ unR.map Route.name := by
              rcases unmatchedRoutes_name_mem vr.spec.routes refs hmemn hrefn with ⟨r, hr, hrname⟩
              have hr2 : r ∈ unR := by
                have h := hr
                rw [hmatch] at h
                exact h
              exact hrname ▸ List.mem_map_of_mem Route.name hr2
            rcases (hpost1 n).1 hinR with ⟨r, hrR, hrname, s, hbs, d, hld, hdspec⟩
            have hall : ∀ p ∈ pairs, stringValue p.sdkRouteRef.routeName ≠ n := by
              intro p hp heq
              apply hrefn
              have hmm : refName p.sdkRouteRef ∈ refs.map refName :=
                List.mem_map_of_mem refName (hmemP p hp).2.1
              have hmm2 : stringValue p.sdkRouteRef.routeName ∈ refs.map refName := hmm
              exact heq ▸ hmm2
            have h2 : mapLookup n c2.routes = mapLookup n c1.routes := (hpost2 n).2 hall
            have hnotF : n ∉ unF.map refName := by
              intro hmem
              rcases List.mem_map.mp hmem with ⟨f, hfm, hfname⟩
              apply hrefn
              exact hfname ▸ List.mem_map_of_mem refName (hmemF f hfm).1
            have h3 : mapLookup n c3.routes = mapLookup n c2.routes := (hpost3 n).2 hnotF
            refine ⟨r, (hmemR r hrR).1, hrname, s, hbs, d, ?_, ?_⟩
            · rw [h3, h2]
              exact hld
            · rw [hdspec]
              exact cmpEqualEmptySpec_refl s
        · refine ⟨fun hcon => absurd hcon hmemn, fun _ => ?_⟩
          by_cases hrefn : n ∈ refs.map refName
          · have hinF : n ∈ unF.map refName := by
              rcases unmatchedRefs_name_mem vr.spec.routes refs hrefn hmemn with ⟨f, hfm, hfname⟩
              have hf2 : f ∈ unF := by
                have h := hfm
                rw [hmatch] at h
                exact h
              exact hfname ▸ List.mem_map_of_mem refName hf2
            exact (hpost3 n).1 hinF
          · have h0 : mapLookup n c.routes = none := by
              rw [lookup_eq_none_iff_not_mem_keysOf, ← hrefs]
              exact hrefn
            have hnotR : n ∉ unR.map Route.name := by
              intro hmem
              rcases List.mem_map.mp hmem with ⟨r, hr, hrname⟩
              exact hmemn (hrname ▸ List.mem_map_of_mem Route.name (hmemR r hr).1)
            have hall : ∀ p ∈ pairs, stringValue p.sdkRouteRef.routeName ≠ n := by
              intro p hp heq
              apply hmemn
              have h : p.route.name = stringValue p.sdkRouteRef.routeName := (hmemP p hp).2.2
              have hmm := List.mem_map_of_mem Route.name (hmemP p hp).1
              rw [h, heq] at hmm
              exact hmm
            have hnotF : n ∉ unF.map refName := by
              intro hmem
              rcases List.mem_map.mp hmem with ⟨f, hfm, hfname⟩
              apply hrefn
              exact hfname ▸ List.mem_map_of_mem refName (hmemF f hfm).1
            rw [(hpost3 n).2 hnotF, (hpost2 n).2 hall, (hpost1 n).2 hnotR]
            exact h0

/-- C5: during the update of a matched route, when the desired spec built
from the route equals the fetched remote spec under the EquateEmpty
comparison cmpEqualEmptySpec, no remote update call is issued and the
fetched record is returned with the cloud unchanged (empty trace);
consequently, after a successful update of a well-formed cloud, an
immediately repeated update issues zero remote mutation calls: its trace
contains no create, update or delete events. -/
theorem c5_update_idempotent :
    (∀ (c : Cloud) (sdkRoute : RouteData) (vr : VirtualRouter) (route : Route)
        (vnByKey : List (NamespacedName × VirtualNode)) (s : SDKRouteSpec),
      BuildSDKRouteSpec vr route vnByKey = .ok s →
      cmpEqualEmptySpec s sdkRoute.spec = true →
      updateSDKRoute c sdkRoute vr route vnByKey = (.ok sdkRoute, c, [])) ∧
    (∀ (c : Cloud) (ms : Mesh) (vr : VirtualRouter)
        (vnByKey : List (NamespacedName × VirtualNode)),
      CloudWF c → (vr.spec.routes.map Route.name).Nodup →
      (∃ m, (update c ms vr vnByKey).1 = .ok m) →
      eventCreateNames (update (update c ms vr vnByKey).2.1 ms vr vnByKey).2.2 = [] ∧
      eventUpdateNames (update (update c ms vr vnByKey).2.1 ms vr vnByKey).2.2 = [] ∧
      eventDeleteNames (update (update c ms vr vnByKey).2.1 ms vr vnByKey).2.2 = []) := by
  refine ⟨fun c sdkRoute vr route vnByKey s hb hcmp => ?_, ?_⟩
  · simp only [updateSDKRoute, hb, hcmp, if_true]
  · intro c ms vr vnByKey hwf hnd hexm
    rcases hexm with ⟨m, hok⟩
    have hpost := update_post hwf hnd hok
    rcases hupd : update c ms vr vnByKey with ⟨res1, cP, tr1⟩
    simp only [hupd] at hpost ⊢
    rcases hlist2 : listSDKRouteRefs cP ms vr with ⟨refs2, tr02⟩
    have htr02 : tr02 = [⟨.listRoutes, true⟩] := by
      have h : (listSDKRouteRefs cP ms vr).2 = [⟨.listRoutes, true⟩] := rfl
      rw [hlist2] at h
      exact h
    subst htr02
    have hrefs2 : refs2.map refName = keysOf cP.routes := by
      have h := listSDKRouteRefs_names cP ms vr
      rw [hlist2] at h
      exact h
    rcases hmatch2 : matchRoutesAgainstSDKRouteRefs vr.spec.routes refs2 with ⟨pairs2, unR2, unF2⟩
    have hmemP2 : ∀ p ∈ pairs2, p.route ∈ vr.spec.routes ∧ p.sdkRouteRef ∈ refs2 ∧
        p.route.name = refName p.sdkRouteRef := by
      intro p hp
      exact mem_matchedPairs (by rw [hmatch2]; exact hp)
    have hcov : ∀ n ∈ vr.spec.routes.map Route.name, n ∈ refs2.map refName := by
      intro n hn
      rcases (hpost n).1 hn with ⟨r, _, _, s, _, d, hld, _⟩
      rw [hrefs2, ← lookup_isSome_iff_mem_keysOf, hld]
      rfl
    have hUnR2 : unR2 = [] := by
      have h := matcher_all_matched_left vr.spec.routes refs2 hcov
      rw [hmatch2] at h
      exact h
    have hcov2 : ∀ n ∈ refs2.map refName, n ∈ vr.spec.routes.map Route.name := by
      intro n hn
      by_contra hnot
      have h0 := (hpost n).2 hnot
      rw [lookup_eq_none_iff_not_mem_keysOf] at h0
      rw [hrefs2] at hn
      exact h0 hn
    have hUnF2 : unF2 = [] := by
      have h := matcher_all_matched_right vr.spec.routes refs2 hcov2
      rw [hmatch2] at h
      exact h
    subst hUnR2
    subst hUnF2
    have hhyp : ∀ p ∈ pairs2, ∀ d : RouteData,
        mapLookup (stringValue p.sdkRouteRef.routeName) cP.routes = some d →
        ∃ s, BuildSDKRouteSpec vr p.route vnByKey = .ok s ∧
          cmpEqualEmptySpec s d.spec = true := by
      intro p hp d hld
      have hpn : p.route.name = stringValue p.sdkRouteRef.routeName := (hmemP2 p hp).2.2
      have hn : p.route.name ∈ vr.spec.routes.map Route.name :=
        List.mem_map_of_mem Route.name (hmemP2 p hp).1
      rcases (hpost p.route.name).1 hn with ⟨r, hr, hrname, s, hbs, d0, hld0, hcmp0⟩
      have hlr : mapLookup r.name (buildMap Route.name id vr.spec.routes) = some r := by
        have h := lookup_buildMap_of_nodup Route.name id hnd hr
        simpa using h
      have hlp : mapLookup p.route.name (buildMap Route.name id vr.spec.routes) =
          some p.route :=
        mem_matchedPairs_lookup (by rw [hmatch2]; exact hp)
      rw [hrname] at hlr
      rw [hlp] at hlr
      have hrp : r = p.route := by
        injection hlr with h
        exact h.symm
      rw [← hpn] at hld
      rw [hld0] at hld
      injection hld with hdd
      refine ⟨s, ?_, ?_⟩
      · rw [← hrp]
        exact hbs
      · rw [← hdd]
        exact hcmp0
    have hnoop := reconcileMatched_noop vr vnByKey pairs2 cP hhyp
    rcases hm2 : reconcileMatched vr vnByKey pairs2 cP with ⟨resM, cM, trM⟩
    rw [hm2] at hnoop
    simp only at hnoop
    cases resM with
    | error e =>
      simp only [update, hlist2, reconcile, hmatch2, reconcileCreates, hm2]
      refine ⟨?_, ?_, ?_⟩
      · simp only [eventCreateNames_append, hnoop.1]
        rfl
      · simp only [eventUpdateNames_append, hnoop.2.1]
        rfl
      · simp only [eventDeleteNames_append, hnoop.2.2.1]
        rfl
    | ok mM =>
      simp only [update, hlist2, reconcile, hmatch2, reconcileCreates, hm2, reconcileDeletes]
      refine ⟨?_, ?_, ?_⟩
      · simp only [eventCreateNames_append, hnoop.1]
        rfl
      · simp only [eventUpdateNames_append, hnoop.2.1]
        rfl
      · simp only [eventDeleteNames_append, hnoop.2.2.1]
        rfl

theorem c5_update_idempotent_witness :
    eventCreateNames (update (update wCloudEmpty wMesh wVRTCP []).2.1 wMesh wVRTCP []).2.2
        = [] ∧
    eventUpdateNames (update (update wCloudEmpty wMesh wVRTCP []).2.1 wMesh wVRTCP []).2.2
        = [] ∧
    eventDeleteNames (update (update wCloudEmpty wMesh wVRTCP []).2.1 wMesh wVRTCP []).2.2
        = [] :=
  c5_update_idempotent.2 wCloudEmpty wMesh wVRTCP [] (by decide) (by decide) ⟨_, rfl⟩


end AppMeshRoutes
